import Mathlib

/-!
# Address book: validators, contact store and interactive operations

A shallow embedding of `src/contact_helper.c` and `src/address_book.c`.

Conventions of the embedding

* A C string is the list of the characters that stand before its terminating
  NUL (`CString`).  Character classes are those of the "C" locale, which is the
  locale in force since the program never calls `setlocale`.
* A pointer into the contact list is the position of the node in the list.
* `int` values are mathematical integers: signed overflow is undefined in C and
  would need more than `2^31 - 1` creations or a number typed with more than
  nine digits.
* `malloc` is taken to succeed.
-/

namespace AddrBook

/-! ## Characters and strings -/

abbrev CString := List Char

def isupper (c : Char) : Bool := decide (65 ≤ c.toNat ∧ c.toNat ≤ 90)

def islower (c : Char) : Bool := decide (97 ≤ c.toNat ∧ c.toNat ≤ 122)

def isdigit (c : Char) : Bool := decide (48 ≤ c.toNat ∧ c.toNat ≤ 57)

def isalpha (c : Char) : Bool := isupper c || islower c

def isalnum (c : Char) : Bool := isalpha c || isdigit c

/-- The white-space characters of the C locale: space, `\t`, `\n`, `\v`, `\f`, `\r`. -/
def isspace (c : Char) : Bool := decide (c.toNat = 32 ∨ (9 ≤ c.toNat ∧ c.toNat ≤ 13))

/-- Position of the first occurrence of `c`, as `strchr` finds it (`none` is NULL). -/
def strchr : CString → Char → Option Nat
  | [], _ => none
  | x :: xs, c => if x = c then some 0 else (strchr xs c).map (· + 1)

/-- Position of the last occurrence of `c`, as `strrchr` finds it (`none` is NULL). -/
def strrchr : CString → Char → Option Nat
  | [], _ => none
  | x :: xs, c =>
    match strrchr xs c with
    | some i => some (i + 1)
    | none => if x = c then some 0 else none

/-! ## Validation (`contact_helper.c`) -/

inductive ValidationStatus where
  | VALID
  | INVALID_EMPTY
  | INVALID_CHARACTERS
  | INVALID_FORMAT
  | INVALID_LENGTH
  | INVALID_DUPLICATE
  deriving DecidableEq, Repr

open ValidationStatus

/-- The `for` loop of `is_valid_name`, from the current character on. -/
def is_valid_name_loop : CString → ValidationStatus
  | [] => VALID
  | c :: cs =>
    if !isalpha c && !isspace c then INVALID_CHARACTERS else is_valid_name_loop cs

def is_valid_name (name : CString) : ValidationStatus :=
  if name.length = 0 then INVALID_EMPTY
  else is_valid_name_loop name

/-- The `for (i = 0; i < 10; i++)` loop of `is_valid_phone`: `k` iterations are left
and the next index is `i`. -/
def is_valid_phone_loop (phone : CString) : Nat → Nat → ValidationStatus
  | 0, _ => VALID
  | k + 1, i =>
    if !isdigit (phone.getD i (Char.ofNat 0)) then INVALID_CHARACTERS
    else is_valid_phone_loop phone k (i + 1)

def is_valid_phone (phone : CString) : ValidationStatus :=
  if phone.length = 0 then INVALID_EMPTY
  else if phone.length ≠ 10 then INVALID_LENGTH
  else is_valid_phone_loop phone 10 0

/-- The upper-case scan of `is_valid_email`: `true` when the loop returns early. -/
def has_upper : CString → Bool
  | [] => false
  | c :: cs => if isupper c then true else has_upper cs

def is_valid_email (email : CString) : ValidationStatus :=
  if email.length = 0 then INVALID_EMPTY
  else if has_upper email then INVALID_FORMAT
  else
    match strchr email '@', strrchr email '.' with
    | some at_, some dot =>
      if dot < at_ then INVALID_FORMAT
      else if at_ = 0 || !isalnum (email.getD (at_ - 1) (Char.ofNat 0)) then INVALID_FORMAT
      else if dot = 0 || !isalnum (email.getD (dot - 1) (Char.ofNat 0)) then INVALID_FORMAT
      else VALID
    | _, _ => INVALID_FORMAT

/-! ## The store -/

structure Contact where
  id : Int
  name : CString
  phone : CString
  email : CString
  deriving DecidableEq, Repr

/-- The address book: `head` is the linked list read from its first node on. -/
structure AddressBook where
  head : List Contact
  contact_count : Int
  next_id : Int
  deriving DecidableEq, Repr

/-- The `while` loop of `is_phone_duplicate`, from node `current` on. -/
def is_phone_duplicate_loop (phone : CString) : List Contact → ValidationStatus
  | [] => VALID
  | current :: next => if current.phone = phone then INVALID_DUPLICATE
                       else is_phone_duplicate_loop phone next

def is_phone_duplicate (phone : CString) (book : AddressBook) : ValidationStatus :=
  is_phone_duplicate_loop phone book.head

/-- The `while` loop of `is_email_duplicate`, from node `current` on. -/
def is_email_duplicate_loop (email : CString) : List Contact → ValidationStatus
  | [] => VALID
  | current :: next => if current.email = email then INVALID_DUPLICATE
                       else is_email_duplicate_loop email next

def is_email_duplicate (email : CString) (book : AddressBook) : ValidationStatus :=
  is_email_duplicate_loop email book.head

/-! ## Standard input and the reading primitives

Standard input is the list of the characters typed so far and not yet read.  The
program is interactive: a read that needs more characters than are there waits for
them, which the embedding renders as `none` (no result yet).  Every loop below reads
at least one character per iteration, so the number of pending characters plus one is
fuel enough for it; that is the fuel each loop is started with, and the lemmas named
`..._fuel` show that more fuel never changes a result. -/

abbrev Stdin := List Char

def MAX_ATTEMPTS : Int := 4

def MAX_NAME_LENGTH : Nat := 50

def MAX_PHONE_LENGTH : Nat := 20

def MAX_EMAIL_LENGTH : Nat := 50

/-- The NUL character. -/
def NUL : Char := Char.ofNat 0

/-- The C string held by a buffer: its characters up to the first NUL. -/
def cstr (buf : List Char) : CString := buf.takeWhile (fun c => !(c == NUL))

/-- Reading of `fgets` with room for `k` more characters: stops after a newline or
when the room is used up. -/
def fgets_loop : Nat → Stdin → Option (List Char × Stdin)
  | 0, inp => some ([], inp)
  | _ + 1, [] => none
  | k + 1, c :: cs =>
    if c = '\n' then some ([c], cs)
    else
      match fgets_loop k cs with
      | none => none
      | some (buf, rest) => some (c :: buf, rest)

/-- Model of `fgets(buf, size, stdin)`: at most `size - 1` characters. -/
def fgets (size : Nat) (inp : Stdin) : Option (List Char × Stdin) :=
  fgets_loop (size - 1) inp

/-- Model of `remove_newline`: `str[strcspn(str, "\n")] = 0` cuts the string at its first
newline (the string itself ends at the first NUL of the buffer). -/
def remove_newline (buf : List Char) : CString :=
  (cstr buf).takeWhile (fun c => !(c == '\n'))

/-- Leading white space is skipped, as `scanf` does before `%d` and for a blank or
`\n` in the format. -/
def skip_space : List Char → List Char
  | [] => []
  | c :: cs => if isspace c then skip_space cs else c :: cs

/-- Value of a run of decimal digits, `acc` being the value read so far. -/
def digits_value : Nat → List Char → Nat
  | acc, [] => acc
  | acc, c :: cs => digits_value (acc * 10 + (c.toNat - 48)) cs

/-- Model of the conversion `%d`: white space, an optional sign, then at least one
digit.  The result is the number (`none` when no number is there: the sign, if any,
has been consumed) and the characters left. -/
def scanf_d (inp : List Char) : Option Int × List Char :=
  match skip_space inp with
  | [] => (none, [])
  | c :: cs =>
    if c = '-' then
      if cs.takeWhile isdigit = [] then (none, cs)
      else (some (- (digits_value 0 (cs.takeWhile isdigit) : Int)), cs.dropWhile isdigit)
    else if c = '+' then
      if cs.takeWhile isdigit = [] then (none, cs)
      else (some (digits_value 0 (cs.takeWhile isdigit) : Int), cs.dropWhile isdigit)
    else
      if (c :: cs).takeWhile isdigit = [] then (none, c :: cs)
      else (some (digits_value 0 ((c :: cs).takeWhile isdigit) : Int),
            (c :: cs).dropWhile isdigit)

/-- The loop `while ((c = getchar()) != '\n' && c != EOF);` of `get_int_input`. -/
def flush_line : Stdin → Option Stdin
  | [] => none
  | c :: cs => if c = '\n' then some cs else flush_line cs

/-- Model of `get_int_input`: the number typed, or -1 when the line does not start with
one; the rest of the line is discarded. -/
def get_int_input (inp : Stdin) : Option (Int × Stdin) :=
  match flush_line (scanf_d inp).2 with
  | none => none
  | some rest => some ((scanf_d inp).1.getD (-1), rest)

/-- Model of `scanf(" %c", &c)`: the first character that is not white space. -/
def scanf_c (inp : Stdin) : Option (Char × Stdin) :=
  match skip_space inp with
  | [] => none
  | c :: cs => some (c, cs)

def getchar : Stdin → Option (Char × Stdin)
  | [] => none
  | c :: cs => some (c, cs)

/-! ## The retry controller (`handle_attempt`) -/

inductive Choice where
  | TRY_AGAIN
  | CANCEL
  deriving DecidableEq, Repr

/-- The `do ... while` of `handle_attempt`: asks until 1 (try again) or 2 (cancel) is
answered. -/
def handle_attempt_loop : Nat → Stdin → Option (Choice × Stdin)
  | 0, _ => none
  | fuel + 1, inp =>
    match get_int_input inp with
    | none => none
    | some (retry_choice, rest) =>
      if retry_choice = 1 then some (Choice.TRY_AGAIN, rest)
      else if retry_choice = 2 then some (Choice.CANCEL, rest)
      else handle_attempt_loop fuel rest

/-- Model of `handle_attempt`: the choice, the new value of `*attempts`, the input left. -/
def handle_attempt (attempts : Int) (inp : Stdin) : Option (Choice × Int × Stdin) :=
  if attempts + 1 ≥ MAX_ATTEMPTS then some (Choice.CANCEL, attempts + 1, inp)
  else
    match handle_attempt_loop (inp.length + 1) inp with
    | none => none
    | some (choice, rest) => some (choice, attempts + 1, rest)

/-! ## `initialize` and `create_contact` -/

/-- Model of the function `initialize` of `address_book.c`, for a non-NULL `book` (the
name is a reserved word of Lean). -/
def initialize_book (_book : AddressBook) : AddressBook :=
  { head := [], contact_count := 0, next_id := 1 }

/-- Model of `generate_new_id`: `return book->next_id++`. -/
def generate_new_id (book : AddressBook) : Int × AddressBook :=
  (book.next_id, { book with next_id := book.next_id + 1 })

/-- The status computed for a phone in `create_contact` and `edit_contact`: the format
check and, when it passes, the duplicate check. -/
def phone_status (phone : CString) (book : AddressBook) : ValidationStatus :=
  if is_valid_phone phone = VALID then is_phone_duplicate phone book
  else is_valid_phone phone

/-- The status computed for an email in `create_contact` and `edit_contact`. -/
def email_status (email : CString) (book : AddressBook) : ValidationStatus :=
  if is_valid_email email = VALID then is_email_duplicate email book
  else is_valid_email email

/-- The name loop of `create_contact`: `some name` when a valid name was read (break),
`none` when the function returns without creating. -/
def create_name_loop : Nat → Int → Stdin → Option (Option CString × Stdin)
  | 0, _, _ => none
  | fuel + 1, attempts, inp =>
    match fgets MAX_NAME_LENGTH inp with
    | none => none
    | some (buf, inp1) =>
      if is_valid_name (remove_newline buf) = VALID then some (some (remove_newline buf), inp1)
      else
        match handle_attempt attempts inp1 with
        | none => none
        | some (Choice.CANCEL, _, inp2) => some (none, inp2)
        | some (Choice.TRY_AGAIN, attempts1, inp2) =>
          if attempts1 < MAX_ATTEMPTS then create_name_loop fuel attempts1 inp2
          else some (none, inp2)

/-- The phone loop of `create_contact`. -/
def create_phone_loop (book : AddressBook) : Nat → Int → Stdin → Option (Option CString × Stdin)
  | 0, _, _ => none
  | fuel + 1, attempts, inp =>
    match fgets MAX_PHONE_LENGTH inp with
    | none => none
    | some (buf, inp1) =>
      if phone_status (remove_newline buf) book = VALID then
        some (some (remove_newline buf), inp1)
      else
        match handle_attempt attempts inp1 with
        | none => none
        | some (Choice.CANCEL, _, inp2) => some (none, inp2)
        | some (Choice.TRY_AGAIN, attempts1, inp2) =>
          if attempts1 < MAX_ATTEMPTS then create_phone_loop book fuel attempts1 inp2
          else some (none, inp2)

/-- The email loop of `create_contact`. -/
def create_email_loop (book : AddressBook) : Nat → Int → Stdin → Option (Option CString × Stdin)
  | 0, _, _ => none
  | fuel + 1, attempts, inp =>
    match fgets MAX_EMAIL_LENGTH inp with
    | none => none
    | some (buf, inp1) =>
      if email_status (remove_newline buf) book = VALID then
        some (some (remove_newline buf), inp1)
      else
        match handle_attempt attempts inp1 with
        | none => none
        | some (Choice.CANCEL, _, inp2) => some (none, inp2)
        | some (Choice.TRY_AGAIN, attempts1, inp2) =>
          if attempts1 < MAX_ATTEMPTS then create_email_loop book fuel attempts1 inp2
          else some (none, inp2)

/-- The three entered fields of a new contact. -/
structure Fields where
  name : CString
  phone : CString
  email : CString
  deriving DecidableEq, Repr

/-- The input part of `create_contact` (the three loops): `some fields` when the three
fields were accepted, `none` when the creation was cancelled. -/
def create_input (book : AddressBook) (inp : Stdin) : Option (Option Fields × Stdin) :=
  match create_name_loop (inp.length + 1) 0 inp with
  | none => none
  | some (none, inp1) => some (none, inp1)
  | some (some name, inp1) =>
    match create_phone_loop book (inp1.length + 1) 0 inp1 with
    | none => none
    | some (none, inp2) => some (none, inp2)
    | some (some phone, inp2) =>
      match create_email_loop book (inp2.length + 1) 0 inp2 with
      | none => none
      | some (none, inp3) => some (none, inp3)
      | some (some email, inp3) => some (some ⟨name, phone, email⟩, inp3)

/-- Linking of a node after the last node of the list, as the walk
`while (current->next != NULL)` followed by `current->next = new_contact` does. -/
def append_node : List Contact → Contact → List Contact
  | [], new_contact => [new_contact]
  | current :: next, new_contact => current :: append_node next new_contact

/-- The storing part of `create_contact`: id generation, linking, count. -/
def create_store (book : AddressBook) (f : Fields) : AddressBook :=
  { head := append_node (generate_new_id book).2.head
      { id := (generate_new_id book).1, name := f.name, phone := f.phone, email := f.email },
    contact_count := (generate_new_id book).2.contact_count + 1,
    next_id := (generate_new_id book).2.next_id }

/-- Model of `create_contact`: the book and the input left when it returns. -/
def create_contact (book : AddressBook) (inp : Stdin) : Option (AddressBook × Stdin) :=
  match create_input book inp with
  | none => none
  | some (none, rest) => some (book, rest)
  | some (some f, rest) => some (create_store book f, rest)

/-! ## `search_contact` -/

/-- The scan of `search_contact` from the node at position `i` on: the positions of the
matching nodes, in list order (the array `matched_nodes`). -/
def search_matches (search_choice : Int) (search_query : CString) :
    List Contact → Nat → List Nat
  | [], _ => []
  | current :: next, i =>
    if (search_choice = 1 ∧ search_query = current.name) ∨
       (search_choice = 2 ∧ search_query = current.phone) ∨
       (search_choice = 3 ∧ search_query = current.email) then
      i :: search_matches search_choice search_query next (i + 1)
    else search_matches search_choice search_query next (i + 1)

/-- What follows an invalid step of the search loop: `handle_attempt`, `return NULL` on
CANCEL, else `continue`, which tests `attempts < MAX_ATTEMPTS`. -/
def search_retry (attempts : Int) (inp : Stdin)
    (again : Int → Stdin → Option (Option Nat × Stdin)) : Option (Option Nat × Stdin) :=
  match handle_attempt attempts inp with
  | none => none
  | some (Choice.CANCEL, _, inp1) => some (none, inp1)
  | some (Choice.TRY_AGAIN, attempts1, inp1) =>
    if attempts1 < MAX_ATTEMPTS then again attempts1 inp1 else some (none, inp1)

/-- The `do ... while (attempts < MAX_ATTEMPTS)` of `search_contact`: the position of
the selected node, or `none` for NULL. -/
def search_loop (book : AddressBook) : Nat → Int → Stdin → Option (Option Nat × Stdin)
  | 0, _, _ => none
  | fuel + 1, attempts, inp =>
    match get_int_input inp with
    | none => none
    | some (search_choice, inp1) =>
      if search_choice = -1 then search_retry attempts inp1 (search_loop book fuel)
      else if search_choice = 4 then some (none, inp1)
      else if 1 ≤ search_choice ∧ search_choice ≤ 3 then
        match fgets MAX_NAME_LENGTH inp1 with
        | none => none
        | some (buf, inp2) =>
          if (search_matches search_choice (remove_newline buf) book.head 0).length = 0 then
            search_retry attempts inp2 (search_loop book fuel)
          else if (search_matches search_choice (remove_newline buf) book.head 0).length = 1 then
            some ((search_matches search_choice (remove_newline buf) book.head 0)[0]?, inp2)
          else
            match get_int_input inp2 with
            | none => none
            | some (selection, inp3) =>
              if selection < 1 ∨
                  selection > (search_matches search_choice (remove_newline buf) book.head 0).length
              then search_retry attempts inp3 (search_loop book fuel)
              else some ((search_matches search_choice (remove_newline buf) book.head
                            0)[(selection - 1).toNat]?, inp3)
      else search_retry attempts inp1 (search_loop book fuel)

/-- Model of `search_contact`: the position of the contact found, `none` for NULL. -/
def search_contact (book : AddressBook) (inp : Stdin) : Option (Option Nat × Stdin) :=
  if book.head = [] then some (none, inp)
  else search_loop book (inp.length + 1) 0 inp

/-! ## `edit_contact` -/

/-- The scratch state of `edit_contact`: `temp_contact` and `has_changes`. -/
structure Scratch where
  temp_contact : Contact
  has_changes : Bool
  deriving DecidableEq, Repr

/-- The name loop of `edit_contact`: `some` scratch state when the loop is left (break or
loop condition), `none` when `edit_contact` returns from inside it. -/
def edit_name_loop : Nat → Int → Scratch → Stdin → Option (Option Scratch × Stdin)
  | 0, _, _, _ => none
  | fuel + 1, attempts, st, inp =>
    match fgets MAX_NAME_LENGTH inp with
    | none => none
    | some (buf, inp1) =>
      if is_valid_name (remove_newline buf) = VALID then
        some (some ⟨{ st.temp_contact with name := remove_newline buf }, true⟩, inp1)
      else
        match handle_attempt attempts inp1 with
        | none => none
        | some (Choice.CANCEL, _, inp2) => some (none, inp2)
        | some (Choice.TRY_AGAIN, attempts1, inp2) =>
          if attempts1 < MAX_ATTEMPTS then
            edit_name_loop fuel attempts1
              ⟨{ st.temp_contact with name := remove_newline buf }, st.has_changes⟩ inp2
          else
            some (some ⟨{ st.temp_contact with name := remove_newline buf }, st.has_changes⟩,
              inp2)

/-- The phone loop of `edit_contact`. -/
def edit_phone_loop (book : AddressBook) :
    Nat → Int → Scratch → Stdin → Option (Option Scratch × Stdin)
  | 0, _, _, _ => none
  | fuel + 1, attempts, st, inp =>
    match fgets MAX_PHONE_LENGTH inp with
    | none => none
    | some (buf, inp1) =>
      if phone_status (remove_newline buf) book = VALID then
        some (some ⟨{ st.temp_contact with phone := remove_newline buf }, true⟩, inp1)
      else
        match handle_attempt attempts inp1 with
        | none => none
        | some (Choice.CANCEL, _, inp2) => some (none, inp2)
        | some (Choice.TRY_AGAIN, attempts1, inp2) =>
          if attempts1 < MAX_ATTEMPTS then
            edit_phone_loop book fuel attempts1
              ⟨{ st.temp_contact with phone := remove_newline buf }, st.has_changes⟩ inp2
          else
            some (some ⟨{ st.temp_contact with phone := remove_newline buf }, st.has_changes⟩,
              inp2)

/-- The email loop of `edit_contact`. -/
def edit_email_loop (book : AddressBook) :
    Nat → Int → Scratch → Stdin → Option (Option Scratch × Stdin)
  | 0, _, _, _ => none
  | fuel + 1, attempts, st, inp =>
    match fgets MAX_EMAIL_LENGTH inp with
    | none => none
    | some (buf, inp1) =>
      if email_status (remove_newline buf) book = VALID then
        some (some ⟨{ st.temp_contact with email := remove_newline buf }, true⟩, inp1)
      else
        match handle_attempt attempts inp1 with
        | none => none
        | some (Choice.CANCEL, _, inp2) => some (none, inp2)
        | some (Choice.TRY_AGAIN, attempts1, inp2) =>
          if attempts1 < MAX_ATTEMPTS then
            edit_email_loop book fuel attempts1
              ⟨{ st.temp_contact with email := remove_newline buf }, st.has_changes⟩ inp2
          else
            some (some ⟨{ st.temp_contact with email := remove_newline buf }, st.has_changes⟩,
              inp2)

/-- The three `strcpy` of the Save case, applied to the node at position `target`. -/
def save_fields (temp_contact : Contact) : List Contact → Nat → List Contact
  | [], _ => []
  | node :: next, 0 =>
    { node with name := temp_contact.name, phone := temp_contact.phone,
                email := temp_contact.email } :: next
  | node :: next, target + 1 => node :: save_fields temp_contact next target

/-- The menu loop `do ... while (edit_choice != EDIT_SAVE)` of `edit_contact`. -/
def edit_loop (book : AddressBook) (target : Nat) :
    Nat → Scratch → Stdin → Option (AddressBook × Stdin)
  | 0, _, _ => none
  | fuel + 1, st, inp =>
    match get_int_input inp with
    | none => none
    | some (edit_choice, inp1) =>
      if edit_choice = 1 then
        match edit_name_loop (inp1.length + 1) 0 st inp1 with
        | none => none
        | some (none, inp2) => some (book, inp2)
        | some (some st1, inp2) => edit_loop book target fuel st1 inp2
      else if edit_choice = 2 then
        match edit_phone_loop book (inp1.length + 1) 0 st inp1 with
        | none => none
        | some (none, inp2) => some (book, inp2)
        | some (some st1, inp2) => edit_loop book target fuel st1 inp2
      else if edit_choice = 3 then
        match edit_email_loop book (inp1.length + 1) 0 st inp1 with
        | none => none
        | some (none, inp2) => some (book, inp2)
        | some (some st1, inp2) => edit_loop book target fuel st1 inp2
      else if edit_choice = 4 then
        if st.has_changes then
          some ({ book with head := save_fields st.temp_contact book.head target }, inp1)
        else some (book, inp1)
      else if edit_choice = 5 then some (book, inp1)
      else edit_loop book target fuel st inp1

/-- Model of `edit_contact`. -/
def edit_contact (book : AddressBook) (inp : Stdin) : Option (AddressBook × Stdin) :=
  if book.head = [] then some (book, inp)
  else
    match search_contact book inp with
    | none => none
    | some (none, inp1) => some (book, inp1)
    | some (some target, inp1) =>
      match book.head[target]? with
      | none => none
      | some node => edit_loop book target (inp1.length + 1) ⟨node, false⟩ inp1

/-! ## `delete_contact` -/

/-- The splice loop of `delete_contact`: the list without the node at position `target`,
`none` when the walk ends without meeting the target. -/
def splice : List Contact → Nat → Option (List Contact)
  | [], _ => none
  | _ :: next, 0 => some next
  | current :: next, target + 1 =>
    match splice next target with
    | none => none
    | some rest => some (current :: rest)

/-- The confirmation loop of `delete_contact`.  (The branch `scanf(...) != 1` needs an end
of input, which an interactive input does not have.) -/
def delete_loop (book : AddressBook) (target : Nat) :
    Nat → Int → Stdin → Option (AddressBook × Stdin)
  | 0, _, _ => none
  | fuel + 1, attempts, inp =>
    match scanf_c inp with
    | none => none
    | some (delete_confirm, inp1) =>
      match getchar inp1 with
      | none => none
      | some (_, inp2) =>
        if delete_confirm = 'y' ∨ delete_confirm = 'Y' then
          match splice book.head target with
          | some rest =>
            some ({ book with head := rest, contact_count := book.contact_count - 1 }, inp2)
          | none =>
            if attempts < MAX_ATTEMPTS then delete_loop book target fuel attempts inp2
            else some (book, inp2)
        else if delete_confirm = 'n' ∨ delete_confirm = 'N' then some (book, inp2)
        else
          match handle_attempt attempts inp2 with
          | none => none
          | some (Choice.CANCEL, _, inp3) => some (book, inp3)
          | some (Choice.TRY_AGAIN, attempts1, inp3) =>
            if attempts1 < MAX_ATTEMPTS then delete_loop book target fuel attempts1 inp3
            else some (book, inp3)

/-- Model of `delete_contact`. -/
def delete_contact (book : AddressBook) (inp : Stdin) : Option (AddressBook × Stdin) :=
  if book.contact_count = 0 ∨ book.head = [] then some (book, inp)
  else
    match search_contact book inp with
    | none => none
    | some (none, inp1) => some (book, inp1)
    | some (some target, inp1) => delete_loop book target (inp1.length + 1) 0 inp1

/-! ## `load_contacts_from_file`

The file is the list of its characters and, unlike standard input, it has an end.  A
failed `fscanf` leaves the file position where the scan stopped. -/

abbrev File := List Char

/-- Model of a conversion `%N[^stop]`: the longest run of at most `width` characters
other than `stop`, and the characters left. -/
def scan_set : Nat → Char → List Char → List Char × List Char
  | 0, _, f => ([], f)
  | _ + 1, _, [] => ([], [])
  | width + 1, stop, c :: cs =>
    if c = stop then ([], c :: cs)
    else ((c :: (scan_set width stop cs).1), (scan_set width stop cs).2)

/-- A literal character of the format: the characters left when the next one matches. -/
def scan_lit (lit : Char) : List Char → Option (List Char)
  | [] => none
  | c :: cs => if c = lit then some cs else none

/-- Model of `fscanf(fptr, "%d\n", &num_contacts)`: `some` when it returns 1. -/
def fscanf_count (f : File) : Option (Int × File) :=
  match scanf_d f with
  | (none, _) => none
  | (some n, rest) => some (n, skip_space rest)

/-- Model of `fscanf(fptr, "%d,%49[^,],%19[^,],%49[^\n]\n", ...)`: the record when the
call returns 4 (`none` otherwise), and the file from the position reached. -/
def fscanf_record (f : File) : Option Contact × File :=
  match scanf_d f with
  | (none, r0) => (none, r0)
  | (some id, r1) =>
    match scan_lit ',' r1 with
    | none => (none, r1)
    | some r2 =>
      if (scan_set 49 ',' r2).1 = [] then (none, r2)
      else
        match scan_lit ',' (scan_set 49 ',' r2).2 with
        | none => (none, (scan_set 49 ',' r2).2)
        | some r4 =>
          if (scan_set 19 ',' r4).1 = [] then (none, r4)
          else
            match scan_lit ',' (scan_set 19 ',' r4).2 with
            | none => (none, (scan_set 19 ',' r4).2)
            | some r6 =>
              if (scan_set 49 '\n' r6).1 = [] then (none, r6)
              else
                (some { id := id, name := cstr (scan_set 49 ',' r2).1,
                        phone := cstr (scan_set 19 ',' r4).1,
                        email := cstr (scan_set 49 '\n' r6).1 },
                 skip_space (scan_set 49 '\n' r6).2)

/-- The `for` loop of `load_contacts_from_file` with `n` iterations left; `tail` is the
position of the node the local `tail` points to (`none` for NULL).  The result is `none`
when `tail->next = new_contact` is executed with `tail` NULL. -/
def load_loop : Nat → File → AddressBook → Option Nat → Option AddressBook
  | 0, _, book, _ => some book
  | n + 1, f, book, tail =>
    match fscanf_record f with
    | (none, rest) => load_loop n rest book tail
    | (some new_contact, rest) =>
      if book.head = [] then
        load_loop n rest
          { book with head := [new_contact], contact_count := book.contact_count + 1 } (some 0)
      else
        match tail with
        | none => none
        | some t =>
          load_loop n rest
            { book with head := book.head.take (t + 1) ++ [new_contact],
                        contact_count := book.contact_count + 1 } (some (t + 1))

/-- Model of `load_contacts_from_file`; `file` is `none` when `fopen` fails. -/
def load_contacts_from_file (book : AddressBook) (file : Option File) : Option AddressBook :=
  match file with
  | none => some book
  | some f =>
    match fscanf_count f with
    | none => some book
    | some (num_contacts, rest) => load_loop num_contacts.toNat rest book none

/-! ## `main` -/

/-- The menu loop of `main`: the book at the moment Exit is chosen.  Searching, listing
and saving leave the book as it is. -/
def main_loop : Nat → AddressBook → Stdin → Option AddressBook
  | 0, _, _ => none
  | fuel + 1, book, inp =>
    match get_int_input inp with
    | none => none
    | some (menu_choice, inp1) =>
      if menu_choice = 1 then
        match create_contact book inp1 with
        | none => none
        | some (book1, inp2) => main_loop fuel book1 inp2
      else if menu_choice = 2 then
        match search_contact book inp1 with
        | none => none
        | some (_, inp2) => main_loop fuel book inp2
      else if menu_choice = 3 then
        match edit_contact book inp1 with
        | none => none
        | some (book1, inp2) => main_loop fuel book1 inp2
      else if menu_choice = 4 then
        match delete_contact book inp1 with
        | none => none
        | some (book1, inp2) => main_loop fuel book1 inp2
      else if menu_choice = 5 then main_loop fuel book inp1
      else if menu_choice = 6 then main_loop fuel book inp1
      else if menu_choice = 7 then some book
      else main_loop fuel book inp1

/-- Model of `main`: `initialize`, `load_contacts_from_file`, then the menu loop, for the
content `file` of `contacts.csv` (`none` when it cannot be opened) and the input typed.
The result is the book when Exit is chosen. -/
def main (file : Option File) (inp : Stdin) : Option AddressBook :=
  match load_contacts_from_file (initialize_book ⟨[], 0, 0⟩) file with
  | none => none
  | some book => main_loop (inp.length + 1) book inp

/-! ## Reachable stores and invariants -/

/-- The count invariant of the data model: `contact_count` is the length of the list. -/
def CountOk (book : AddressBook) : Prop :=
  book.contact_count = (book.head.length : Int)

/-- What `edit_contact` can hold in `temp_contact` when it saves on the node `node`: the
id of the node and, for each field, the value of the node or a value that passed the
checks against `book`. -/
def Staged (book : AddressBook) (node temp : Contact) : Prop :=
  temp.id = node.id ∧
  (temp.name = node.name ∨ is_valid_name temp.name = VALID) ∧
  (temp.phone = node.phone ∨ phone_status temp.phone book = VALID) ∧
  (temp.email = node.email ∨ email_status temp.email book = VALID)

/-- `Created k book`: `book` is reached from an initialized store by calls of
`create_contact`, `edit_contact` and `delete_contact` on any inputs, exactly `k` of the
calls of `create_contact` having stored a contact. -/
inductive Created : Nat → AddressBook → Prop
  | init (b0 : AddressBook) : Created 0 (initialize_book b0)
  | created {k : Nat} {book b' : AddressBook} (inp : Stdin) (f : Fields) (r : Stdin) :
      Created k book → create_input book inp = some (some f, r) →
      create_contact book inp = some (b', r) → Created (k + 1) b'
  | cancelled {k : Nat} {book b' : AddressBook} (inp : Stdin) (r : Stdin) :
      Created k book → create_input book inp = some (none, r) →
      create_contact book inp = some (b', r) → Created k b'
  | edited {k : Nat} {book b' : AddressBook} (inp : Stdin) (r : Stdin) :
      Created k book → edit_contact book inp = some (b', r) → Created k b'
  | deleted {k : Nat} {book b' : AddressBook} (inp : Stdin) (r : Stdin) :
      Created k book → delete_contact book inp = some (b', r) → Created k b'

/-- The phones of the store are pairwise distinct, and so are its emails. -/
def Distinct (book : AddressBook) : Prop :=
  (book.head.map (·.phone)).Nodup ∧ (book.head.map (·.email)).Nodup

/-! ## Example data -/

def al : Contact :=
  { id := 1, name := "al".toList, phone := "0123456789".toList, email := "a@b.c".toList }

def bo : Contact :=
  { id := 2, name := "bo".toList, phone := "1111111111".toList, email := "b@b.c".toList }

def cy : Contact :=
  { id := 3, name := "cy".toList, phone := "2222222222".toList, email := "c@b.c".toList }

def bob : Contact :=
  { id := 1, name := "bob".toList, phone := "1234567890".toList, email := "b@x.y".toList }

/-- Typed at the menu: three creations, then Exit. -/
def script_three_creates : Stdin :=
  "1\nal\n0123456789\na@b.c\n1\nbo\n1111111111\nb@b.c\n1\ncy\n2222222222\nc@b.c\n7\n".toList

/-- Typed at the menu: three creations, the deletion of the contact found by the phone
`1111111111` (the one with id 2), a fourth creation, then Exit. -/
def script_delete_then_create : Stdin :=
  ("1\nal\n0123456789\na@b.c\n1\nbo\n1111111111\nb@b.c\n1\ncy\n2222222222\nc@b.c\n" ++
   "4\n2\n1111111111\ny\n1\ndi\n3333333333\nd@b.c\n7\n").toList

/-- A `contacts.csv` as `save_contacts_to_file` writes it for a store holding `bob`. -/
def file_bob : File := "1\n1,bob,1234567890,b@x.y\n".toList

/-- A `contacts.csv` announcing three records, the second line being malformed. -/
def file_malformed : File := "3\n1,bob,1234567890,b@x.y\nxx\n2,al,0123456789,a@b.c\n".toList

/-- The string can be typed on one line: it holds neither a newline nor a NUL. -/
def OneLine (s : CString) : Prop := '\n' ∉ s ∧ NUL ∉ s

/-- What the specification calls a non-numeric header: after the leading white space the
file does not start with a decimal number (a digit, or a sign followed by a digit). -/
def NonNumericHeader (f : File) : Prop :=
  match skip_space f with
  | [] => True
  | c :: cs =>
    isdigit c = false ∧
    ¬ ((c = '-' ∨ c = '+') ∧ ∃ d rest, cs = d :: rest ∧ isdigit d = true)

/-- The scan of `search_contact` writing into the array `matched_nodes` of `capacity`
entries (`malloc(sizeof(Contact*) * book->contact_count)`): `matched_count` entries are
filled already, and the result is `none` when `matched_nodes[matched_count++] = current`
would write outside the array. -/
def search_scan (capacity : Int) (search_choice : Int) (search_query : CString) :
    List Contact → Nat → Nat → Option (List Nat)
  | [], _, _ => some []
  | current :: next, i, matched_count =>
    if (search_choice = 1 ∧ search_query = current.name) ∨
       (search_choice = 2 ∧ search_query = current.phone) ∨
       (search_choice = 3 ∧ search_query = current.email) then
      if (matched_count : Int) < capacity then
        match search_scan capacity search_choice search_query next (i + 1)
            (matched_count + 1) with
        | none => none
        | some rest => some (i :: rest)
      else none
    else search_scan capacity search_choice search_query next (i + 1) matched_count

/-- The field a search criterion looks at: 1 the name, 2 the phone, 3 the email. -/
def chosen_field (criterion : Int) (c : Contact) : CString :=
  if criterion = 1 then c.name else if criterion = 2 then c.phone else c.email

/-! ## `save_contacts_to_file` -/

/-- The character of the decimal digit `d`. -/
def digit_char : Nat → Char
  | 0 => '0'
  | 1 => '1'
  | 2 => '2'
  | 3 => '3'
  | 4 => '4'
  | 5 => '5'
  | 6 => '6'
  | 7 => '7'
  | 8 => '8'
  | _ => '9'

/-- The decimal digits of `n`, most significant first, followed by `acc`. -/
def nat_digits : Nat → Nat → List Char → List Char
  | 0, _, acc => acc
  | fuel + 1, n, acc =>
    if n < 10 then digit_char n :: acc
    else nat_digits fuel (n / 10) (digit_char (n % 10) :: acc)

/-- Model of the conversion `%d` of `fprintf`: the decimal notation of `i`. -/
def fprintf_d (i : Int) : List Char :=
  if i < 0 then '-' :: nat_digits (i.natAbs + 1) i.natAbs []
  else nat_digits (i.natAbs + 1) i.natAbs []

/-- The `while` loop of `save_contacts_to_file` from node `current` on: one
`fprintf(fptr, "%d,%s,%s,%s\n", ...)` per node. -/
def save_loop : List Contact → List Char
  | [] => []
  | current :: next =>
    fprintf_d current.id ++ ',' :: (current.name ++ ',' :: (current.phone ++ ',' ::
      (current.email ++ '\n' :: save_loop next)))

/-- Model of `save_contacts_to_file`: the content written to `contacts.csv`, `none` when
`fopen` fails (`opened` false) and nothing is written. -/
def save_contacts_to_file (book : AddressBook) (opened : Bool) : Option File :=
  if opened then some (fprintf_d book.contact_count ++ '\n' :: save_loop book.head)
  else none

/-- The string `s` is the decimal notation of the natural number `n`: digits only, at
least one, no leading zero except for `0` itself, of value `n`. -/
def IsDecimalNat (n : Nat) (s : List Char) : Prop :=
  s ≠ [] ∧ (∀ c ∈ s, isdigit c = true) ∧ digits_value 0 s = n ∧
  (s.head? = some '0' → s = ['0'])

/-- The string `s` is the decimal notation of the integer `i`. -/
def IsDecimal (i : Int) (s : List Char) : Prop :=
  (0 ≤ i ∧ IsDecimalNat i.toNat s) ∨
  (i < 0 ∧ ∃ s', s = '-' :: s' ∧ IsDecimalNat i.natAbs s')

/-- One record line of the file format: `id,name,phone,email` and a newline, the fields
written as they are. -/
def record_line (c : Contact) : List Char :=
  fprintf_d c.id ++ ',' :: (c.name ++ ',' :: (c.phone ++ ',' :: (c.email ++ ['\n'])))

/-- A contact with a comma in its email. -/
def al_comma : Contact :=
  { id := 12, name := "al".toList, phone := "0123456789".toList, email := "a@b.c,d".toList }

/-- A contact as the validators and the buffers allow it: a valid name, phone and email,
a positive id, name and email of at most 49 characters, no NUL inside the email (the
checks exclude it from the name and the phone). -/
def Storable (c : Contact) : Prop :=
  is_valid_name c.name = VALID ∧ is_valid_phone c.phone = VALID ∧
  is_valid_email c.email = VALID ∧ 0 < c.id ∧
  c.name.length ≤ 49 ∧ c.email.length ≤ 49 ∧ NUL ∉ c.email

/-- A contact whose email passes `is_valid_email` and holds a newline. -/
def al_newline : Contact :=
  { id := 1, name := "al".toList, phone := "0123456789".toList, email := "a@b.c\nx".toList }

/-- A `contacts.csv` whose first record line has two fields only. -/
def file_short_line : File := "2\n7,xx\n2,al,0123456789,a@b.c\n".toList

/-- The executions of `tail->next = new_contact` in the `for` loop of
`load_contacts_from_file`, in order: for each one the value of the local `tail` (`none`
for NULL) and the length of the list at that moment.  With `tail` NULL the write is the
last thing the loop does. -/
def load_writes : Nat → File → AddressBook → Option Nat → List (Option Nat × Nat)
  | 0, _, _, _ => []
  | n + 1, f, book, tail =>
    match fscanf_record f with
    | (none, rest) => load_writes n rest book tail
    | (some new_contact, rest) =>
      if book.head = [] then
        load_writes n rest
          { book with head := [new_contact], contact_count := book.contact_count + 1 } (some 0)
      else
        match tail with
        | none => [(none, book.head.length)]
        | some t =>
          (some t, book.head.length) ::
            load_writes n rest
              { book with head := book.head.take (t + 1) ++ [new_contact],
                          contact_count := book.contact_count + 1 } (some (t + 1))

/-- The executions of `tail->next = new_contact` during `load_contacts_from_file`. -/
def load_file_writes (book : AddressBook) (file : Option File) : List (Option Nat × Nat) :=
  match file with
  | none => []
  | some f =>
    match fscanf_count f with
    | none => []
    | some (num_contacts, rest) => load_writes num_contacts.toNat rest book none

/-- The ids of the store are strictly increasing along the list, each at least 1 and
below `next_id`, which is at least 1. -/
def IdsOk (book : AddressBook) : Prop :=
  (book.head.map (·.id)).Pairwise (· < ·) ∧
  (∀ i ∈ book.head.map (·.id), 1 ≤ i ∧ i < book.next_id) ∧
  1 ≤ book.next_id

/-- A `contacts.csv` with two records. -/
def file_bob_al : File := "2\n1,bob,1234567890,b@x.y\n2,al,0123456789,a@b.c\n".toList

/-- Position `i` holds the first `c` of `s`. -/
def IsFirst (s : CString) (c : Char) (i : Nat) : Prop :=
  s[i]? = some c ∧ ∀ j, j < i → s[j]? ≠ some c

/-- Position `i` holds the last `c` of `s`. -/
def IsLast (s : CString) (c : Char) (i : Nat) : Prop :=
  s[i]? = some c ∧ ∀ j, i < j → s[j]? ≠ some c

/-- Position `i` of `s` exists and holds an alphanumeric character. -/
def AlnumAt (s : CString) (i : Nat) : Prop :=
  ∃ c, s[i]? = some c ∧ isalnum c = true

/-- The acceptance condition of the specification for an email: non-empty, no
upper-case letter, an `@` and a `.`, the last `.` not before the first `@`, an
alphanumeric character right before the first `@` and right before the last `.`. -/
def EmailWellFormed (s : CString) : Prop :=
  s ≠ [] ∧ (∀ c ∈ s, isupper c = false) ∧ '@' ∈ s ∧ '.' ∈ s ∧
  ∃ a d, IsFirst s '@' a ∧ IsLast s '.' d ∧ ¬ d < a ∧
    (0 < a ∧ AlnumAt s (a - 1)) ∧ (0 < d ∧ AlnumAt s (d - 1))

/-- The situation of a `.` right after the `@`: no upper-case letter, the first `@`
at `a` has an alphanumeric character right before it and a `.` right after it. -/
def DotAfterAt (s : CString) (a : Nat) : Prop :=
  (∀ c ∈ s, isupper c = false) ∧ IsFirst s '@' a ∧ (0 < a ∧ AlnumAt s (a - 1)) ∧
  s[a + 1]? = some '.'

/-! ## Lemmas on the string functions -/

theorem strchr_isFirst (c : Char) : ∀ (s : CString) (i : Nat), strchr s c = some i → IsFirst s c i
  | [], i, h => by simp [strchr] at h
  | x :: xs, i, h => by
    unfold strchr at h
    by_cases hx : x = c
    · simp [hx] at h
      subst h
      exact ⟨by simp [hx], fun j hj => absurd hj (Nat.not_lt_zero j)⟩
    · simp only [hx, if_false, Option.map_eq_some'] at h
      obtain ⟨k, hk, rfl⟩ := h
      have ih := strchr_isFirst c xs k hk
      refine ⟨by simpa using ih.1, fun j hj => ?_⟩
      cases j with
      | zero => simpa using hx
      | succ j => simpa using ih.2 j (by omega)

theorem strchr_none_not_mem (c : Char) : ∀ (s : CString), strchr s c = none → c ∉ s
  | [], _ => by simp
  | x :: xs, h => by
    unfold strchr at h
    by_cases hx : x = c
    · simp [hx] at h
    · simp only [hx, if_false, Option.map_eq_none'] at h
      have ih := strchr_none_not_mem c xs h
      simp only [List.mem_cons, not_or]
      exact ⟨fun e => hx e.symm, ih⟩

theorem strrchr_none_not_mem (c : Char) : ∀ (s : CString), strrchr s c = none → c ∉ s
  | [], _ => by simp
  | x :: xs, h => by
    unfold strrchr at h
    cases hr : strrchr xs c with
    | some k => simp [hr] at h
    | none =>
      simp only [hr] at h
      by_cases hx : x = c
      · simp [hx] at h
      · simp only [List.mem_cons, not_or]
        exact ⟨fun e => hx e.symm, strrchr_none_not_mem c xs hr⟩

theorem strrchr_isLast (c : Char) : ∀ (s : CString) (i : Nat), strrchr s c = some i → IsLast s c i
  | [], i, h => by simp [strrchr] at h
  | x :: xs, i, h => by
    unfold strrchr at h
    cases hr : strrchr xs c with
    | some k =>
      simp only [hr, Option.some.injEq] at h
      subst h
      have ih := strrchr_isLast c xs k hr
      refine ⟨by simpa using ih.1, fun j hj => ?_⟩
      cases j with
      | zero => omega
      | succ j => simpa using ih.2 j (by omega)
    | none =>
      simp only [hr] at h
      by_cases hx : x = c
      · simp [hx] at h
        subst h
        refine ⟨by simp [hx], fun j hj => ?_⟩
        cases j with
        | zero => omega
        | succ j =>
          have hn := strrchr_none_not_mem c xs hr
          intro e
          have e2 : xs[j]? = some c := by simpa using e
          exact hn (List.getElem?_mem e2)
      · simp [hx] at h

theorem isFirst_unique {s : CString} {c : Char} {i j : Nat}
    (hi : IsFirst s c i) (hj : IsFirst s c j) : i = j := by
  rcases Nat.lt_trichotomy i j with h | h | h
  · exact absurd hi.1 (hj.2 i h)
  · exact h
  · exact absurd hj.1 (hi.2 j h)

theorem isLast_unique {s : CString} {c : Char} {i j : Nat}
    (hi : IsLast s c i) (hj : IsLast s c j) : i = j := by
  rcases Nat.lt_trichotomy i j with h | h | h
  · exact absurd hj.1 (hi.2 j h)
  · exact h
  · exact absurd hi.1 (hj.2 i h)

theorem strchr_eq_of_isFirst {s : CString} {c : Char} {i : Nat} (h : IsFirst s c i) :
    strchr s c = some i := by
  cases hs : strchr s c with
  | none => exact absurd (List.getElem?_mem h.1) (strchr_none_not_mem c s hs)
  | some k => rw [isFirst_unique (strchr_isFirst c s k hs) h]

theorem strrchr_eq_of_isLast {s : CString} {c : Char} {i : Nat} (h : IsLast s c i) :
    strrchr s c = some i := by
  cases hs : strrchr s c with
  | none => exact absurd (List.getElem?_mem h.1) (strrchr_none_not_mem c s hs)
  | some k => rw [isLast_unique (strrchr_isLast c s k hs) h]

theorem has_upper_false_iff : ∀ (s : CString), has_upper s = false ↔ ∀ c ∈ s, isupper c = false
  | [] => by simp [has_upper]
  | x :: xs => by
    unfold has_upper
    by_cases hx : isupper x = true
    · simp [hx]
    · have ih := has_upper_false_iff xs
      simp only [Bool.not_eq_true] at hx
      simp [hx, ih]

theorem alnum_getD_iff (s : CString) (i : Nat) :
    isalnum (s.getD i (Char.ofNat 0)) = true ↔ AlnumAt s i := by
  unfold AlnumAt
  rw [List.getD_eq_getElem?_getD]
  cases h : s[i]? with
  | none => simp; decide
  | some c => simp

theorem is_valid_email_cases (s : CString) :
    (s = [] ∧ is_valid_email s = INVALID_EMPTY) ∨
    (s ≠ [] ∧ (is_valid_email s = VALID ∨ is_valid_email s = INVALID_FORMAT)) := by
  cases s with
  | nil => left; exact ⟨rfl, rfl⟩
  | cons x xs =>
    right
    refine ⟨by simp, ?_⟩
    unfold is_valid_email
    simp only [List.length_cons, Nat.succ_ne_zero, if_false]
    split
    · right; rfl
    · split
      · split
        · right; rfl
        · split
          · right; rfl
          · split
            · right; rfl
            · left; rfl
      · right; rfl

theorem is_valid_email_valid_iff (s : CString) :
    is_valid_email s = VALID ↔ EmailWellFormed s := by
  constructor
  · intro h
    unfold is_valid_email at h
    by_cases h0 : s.length = 0
    · simp [h0] at h
    · simp only [h0, if_false] at h
      by_cases hu : has_upper s = true
      · simp [hu] at h
      · simp only [hu] at h
        cases ha : strchr s '@' with
        | none => simp [ha] at h
        | some a =>
          cases hd : strrchr s '.' with
          | none => simp [ha, hd] at h
          | some d =>
            simp only [ha, hd] at h
            by_cases h1 : d < a
            · simp [h1] at h
            · simp only [h1, if_false] at h
              by_cases h2 : (a = 0 || !isalnum (s.getD (a - 1) (Char.ofNat 0))) = true
              · rw [if_pos h2] at h; exact absurd h (by decide)
              · rw [if_neg h2] at h
                by_cases h3 : (d = 0 || !isalnum (s.getD (d - 1) (Char.ofNat 0))) = true
                · rw [if_pos h3] at h; exact absurd h (by decide)
                · have hF := strchr_isFirst _ _ _ ha
                  have hL := strrchr_isLast _ _ _ hd
                  simp only [Bool.or_eq_true, decide_eq_true_eq, Bool.not_eq_true',
                    not_or, Bool.not_eq_false] at h2 h3
                  refine ⟨fun e => h0 (by simp [e]), ?_, List.getElem?_mem hF.1,
                    List.getElem?_mem hL.1, a, d, hF, hL, h1, ?_, ?_⟩
                  · exact (has_upper_false_iff s).1 (by simpa using hu)
                  · exact ⟨Nat.pos_of_ne_zero h2.1, (alnum_getD_iff s _).1 h2.2⟩
                  · exact ⟨Nat.pos_of_ne_zero h3.1, (alnum_getD_iff s _).1 h3.2⟩
  · rintro ⟨hne, hu, -, -, a, d, hF, hL, hda, ⟨ha0, haA⟩, ⟨hd0, hdA⟩⟩
    unfold is_valid_email
    have h0 : s.length ≠ 0 := fun e => hne (List.length_eq_zero.1 e)
    have hu2 : has_upper s = false := (has_upper_false_iff s).2 hu
    have e1 : isalnum (s.getD (a - 1) (Char.ofNat 0)) = true := (alnum_getD_iff s _).2 haA
    have e2 : isalnum (s.getD (d - 1) (Char.ofNat 0)) = true := (alnum_getD_iff s _).2 hdA
    have a0 : a ≠ 0 := by omega
    have d0 : d ≠ 0 := by omega
    simp only [List.getD_eq_getElem?_getD] at e1 e2
    simp [h0, hu2, strchr_eq_of_isFirst hF, strrchr_eq_of_isLast hL, hda, e1, e2, a0, d0]

theorem is_valid_name_loop_eq : ∀ (s : CString),
    is_valid_name_loop s =
      if s.all (fun c => isalpha c || isspace c) = true then VALID else INVALID_CHARACTERS
  | [] => by simp [is_valid_name_loop]
  | x :: xs => by
    unfold is_valid_name_loop
    rw [is_valid_name_loop_eq xs]
    cases h1 : isalpha x <;> cases h2 : isspace x <;> simp [h1, h2]

theorem is_valid_phone_loop_eq (s : CString) : ∀ (k i : Nat), i + k = s.length →
    is_valid_phone_loop s k i =
      if (s.drop i).all isdigit = true then VALID else INVALID_CHARACTERS
  | 0, i, h => by
    have : s.drop i = [] := List.drop_eq_nil_of_le (by omega)
    simp [is_valid_phone_loop, this]
  | k + 1, i, h => by
    have hi : i < s.length := by omega
    unfold is_valid_phone_loop
    rw [is_valid_phone_loop_eq s k (i + 1) (by omega), List.getD_eq_getElem?_getD,
      List.getElem?_eq_getElem hi, Option.getD_some, List.drop_eq_getElem_cons hi,
      List.all_cons]
    cases h1 : isdigit s[i]
    · rfl
    · rw [Bool.true_and]; rfl

theorem is_phone_duplicate_loop_eq (phone : CString) : ∀ (l : List Contact),
    ((∃ c ∈ l, c.phone = phone) ∧ is_phone_duplicate_loop phone l = INVALID_DUPLICATE) ∨
    ((∀ c ∈ l, c.phone ≠ phone) ∧ is_phone_duplicate_loop phone l = VALID)
  | [] => by right; simp [is_phone_duplicate_loop]
  | x :: xs => by
    unfold is_phone_duplicate_loop
    by_cases hx : x.phone = phone
    · left; simp [hx]
    · rcases is_phone_duplicate_loop_eq phone xs with ⟨⟨c, hc, e⟩, h⟩ | ⟨h1, h2⟩
      · left; exact ⟨⟨c, List.mem_cons_of_mem _ hc, e⟩, by simp [hx, h]⟩
      · right; simp [hx, h2]; exact h1

theorem is_email_duplicate_loop_eq (email : CString) : ∀ (l : List Contact),
    ((∃ c ∈ l, c.email = email) ∧ is_email_duplicate_loop email l = INVALID_DUPLICATE) ∨
    ((∀ c ∈ l, c.email ≠ email) ∧ is_email_duplicate_loop email l = VALID)
  | [] => by right; simp [is_email_duplicate_loop]
  | x :: xs => by
    unfold is_email_duplicate_loop
    by_cases hx : x.email = email
    · left; simp [hx]
    · rcases is_email_duplicate_loop_eq email xs with ⟨⟨c, hc, e⟩, h⟩ | ⟨h1, h2⟩
      · left; exact ⟨⟨c, List.mem_cons_of_mem _ hc, e⟩, by simp [hx, h]⟩
      · right; simp [hx, h2]; exact h1

/-! ## Lemmas on the operations -/

theorem append_node_eq : ∀ (l : List Contact) (c : Contact), append_node l c = l ++ [c]
  | [], _ => rfl
  | x :: xs, c => by simp [append_node, append_node_eq xs c]

theorem create_store_eq (book : AddressBook) (f : Fields) :
    create_store book f =
      { head := book.head ++ [{ id := book.next_id, name := f.name, phone := f.phone,
                                email := f.email }],
        contact_count := book.contact_count + 1,
        next_id := book.next_id + 1 } := by
  simp [create_store, generate_new_id, append_node_eq]

theorem handle_attempt_try_again {a : Int} {inp : Stdin} {a1 : Int} {inp1 : Stdin}
    (h : handle_attempt a inp = some (Choice.TRY_AGAIN, a1, inp1)) :
    a1 = a + 1 ∧ a1 < MAX_ATTEMPTS := by
  unfold handle_attempt at h
  split at h
  · simp at h
  · split at h
    · simp at h
    · simp only [Option.some.injEq, Prod.mk.injEq] at h
      obtain ⟨-, rfl, -⟩ := h
      exact ⟨rfl, by omega⟩

theorem create_name_loop_valid : ∀ (fuel : Nat) (a : Int) (inp : Stdin) (name : CString)
    (r : Stdin), create_name_loop fuel a inp = some (some name, r) →
    is_valid_name name = VALID
  | 0, _, _, _, _, h => by simp [create_name_loop] at h
  | fuel + 1, a, inp, name, r, h => by
    unfold create_name_loop at h
    split at h
    · simp at h
    · split at h
      · simp only [Option.some.injEq, Prod.mk.injEq] at h
        obtain ⟨rfl, -⟩ := h
        assumption
      · split at h
        · simp at h
        · simp at h
        · split at h
          · exact create_name_loop_valid fuel _ _ _ _ h
          · simp at h

theorem create_phone_loop_valid (book : AddressBook) : ∀ (fuel : Nat) (a : Int) (inp : Stdin)
    (phone : CString) (r : Stdin), create_phone_loop book fuel a inp = some (some phone, r) →
    phone_status phone book = VALID
  | 0, _, _, _, _, h => by simp [create_phone_loop] at h
  | fuel + 1, a, inp, phone, r, h => by
    unfold create_phone_loop at h
    split at h
    · simp at h
    · split at h
      · simp only [Option.some.injEq, Prod.mk.injEq] at h
        obtain ⟨rfl, -⟩ := h
        assumption
      · split at h
        · simp at h
        · simp at h
        · split at h
          · exact create_phone_loop_valid book fuel _ _ _ _ h
          · simp at h

theorem create_email_loop_valid (book : AddressBook) : ∀ (fuel : Nat) (a : Int) (inp : Stdin)
    (email : CString) (r : Stdin), create_email_loop book fuel a inp = some (some email, r) →
    email_status email book = VALID
  | 0, _, _, _, _, h => by simp [create_email_loop] at h
  | fuel + 1, a, inp, email, r, h => by
    unfold create_email_loop at h
    split at h
    · simp at h
    · split at h
      · simp only [Option.some.injEq, Prod.mk.injEq] at h
        obtain ⟨rfl, -⟩ := h
        assumption
      · split at h
        · simp at h
        · simp at h
        · split at h
          · exact create_email_loop_valid book fuel _ _ _ _ h
          · simp at h

/-- The fields accepted by the input part of `create_contact` passed every check. -/
theorem create_input_valid {book : AddressBook} {inp : Stdin} {f : Fields} {r : Stdin}
    (h : create_input book inp = some (some f, r)) :
    is_valid_name f.name = VALID ∧ phone_status f.phone book = VALID ∧
    email_status f.email book = VALID := by
  unfold create_input at h
  split at h
  · simp at h
  · simp at h
  · rename_i name inp1 hn
    split at h
    · simp at h
    · simp at h
    · rename_i phone inp2 hp
      split at h
      · simp at h
      · simp at h
      · rename_i email inp3 he
        simp only [Option.some.injEq, Prod.mk.injEq] at h
        obtain ⟨rfl, -⟩ := h
        exact ⟨create_name_loop_valid _ _ _ _ _ hn, create_phone_loop_valid _ _ _ _ _ _ hp,
          create_email_loop_valid _ _ _ _ _ _ he⟩

/-- The two ways `create_contact` returns: cancelled with the book untouched, or the
accepted fields stored. -/
theorem create_contact_cases {book : AddressBook} {inp : Stdin} {b' : AddressBook} {r : Stdin}
    (h : create_contact book inp = some (b', r)) :
    (create_input book inp = some (none, r) ∧ b' = book) ∨
    (∃ f, create_input book inp = some (some f, r) ∧ b' = create_store book f) := by
  unfold create_contact at h
  split at h
  · simp at h
  · rename_i rest hi
    simp only [Option.some.injEq, Prod.mk.injEq] at h
    obtain ⟨rfl, rfl⟩ := h
    exact Or.inl ⟨hi, rfl⟩
  · rename_i f rest hi
    simp only [Option.some.injEq, Prod.mk.injEq] at h
    obtain ⟨rfl, rfl⟩ := h
    exact Or.inr ⟨f, hi, rfl⟩

theorem phone_status_valid {phone : CString} {book : AddressBook}
    (h : phone_status phone book = VALID) :
    is_valid_phone phone = VALID ∧ ∀ c ∈ book.head, c.phone ≠ phone := by
  unfold phone_status at h
  by_cases hv : is_valid_phone phone = VALID
  · rw [if_pos hv] at h
    refine ⟨hv, ?_⟩
    unfold is_phone_duplicate at h
    rcases is_phone_duplicate_loop_eq phone book.head with ⟨-, e⟩ | ⟨h1, -⟩
    · rw [e] at h; exact absurd h (by decide)
    · exact h1
  · rw [if_neg hv] at h; exact absurd h hv

theorem email_status_valid {email : CString} {book : AddressBook}
    (h : email_status email book = VALID) :
    is_valid_email email = VALID ∧ ∀ c ∈ book.head, c.email ≠ email := by
  unfold email_status at h
  by_cases hv : is_valid_email email = VALID
  · rw [if_pos hv] at h
    refine ⟨hv, ?_⟩
    unfold is_email_duplicate at h
    rcases is_email_duplicate_loop_eq email book.head with ⟨-, e⟩ | ⟨h1, -⟩
    · rw [e] at h; exact absurd h (by decide)
    · exact h1
  · rw [if_neg hv] at h; exact absurd h hv

theorem search_matches_bound (c : Int) (q : CString) : ∀ (l : List Contact) (i x : Nat),
    x ∈ search_matches c q l i → i ≤ x ∧ x < i + l.length
  | [], _, _, h => by simp [search_matches] at h
  | y :: ys, i, x, h => by
    unfold search_matches at h
    split at h
    · rcases List.mem_cons.1 h with e | e
      · subst e; simp
      · have := search_matches_bound c q ys (i + 1) x e
        simp only [List.length_cons]; omega
    · have := search_matches_bound c q ys (i + 1) x h
      simp only [List.length_cons]; omega

theorem search_retry_some {a : Int} {inp : Stdin}
    {again : Int → Stdin → Option (Option Nat × Stdin)} {t : Nat} {r : Stdin}
    (h : search_retry a inp again = some (some t, r)) :
    ∃ a1 inp1, again a1 inp1 = some (some t, r) := by
  unfold search_retry at h
  split at h
  · simp at h
  · simp at h
  · split at h
    · exact ⟨_, _, h⟩
    · simp at h

theorem search_loop_bound (book : AddressBook) : ∀ (fuel : Nat) (a : Int) (inp : Stdin)
    (t : Nat) (r : Stdin), search_loop book fuel a inp = some (some t, r) →
    t < book.head.length
  | 0, _, _, _, _, h => by simp [search_loop] at h
  | fuel + 1, a, inp, t, r, h => by
    unfold search_loop at h
    split at h
    · simp at h
    · split at h
      · obtain ⟨a1, i1, h1⟩ := search_retry_some h
        exact search_loop_bound book fuel _ _ _ _ h1
      · split at h
        · simp at h
        · split at h
          · split at h
            · simp at h
            · split at h
              · obtain ⟨a1, i1, h1⟩ := search_retry_some h
                exact search_loop_bound book fuel _ _ _ _ h1
              · split at h
                · simp only [Option.some.injEq, Prod.mk.injEq] at h
                  have := search_matches_bound _ _ _ _ _ (List.getElem?_mem h.1)
                  omega
                · split at h
                  · simp at h
                  · split at h
                    · obtain ⟨a1, i1, h1⟩ := search_retry_some h
                      exact search_loop_bound book fuel _ _ _ _ h1
                    · simp only [Option.some.injEq, Prod.mk.injEq] at h
                      have := search_matches_bound _ _ _ _ _ (List.getElem?_mem h.1)
                      omega
          · obtain ⟨a1, i1, h1⟩ := search_retry_some h
            exact search_loop_bound book fuel _ _ _ _ h1

/-- A contact returned by `search_contact` is a node of the list. -/
theorem search_contact_bound {book : AddressBook} {inp : Stdin} {t : Nat} {r : Stdin}
    (h : search_contact book inp = some (some t, r)) : t < book.head.length := by
  unfold search_contact at h
  split at h
  · simp at h
  · exact search_loop_bound book _ _ _ _ _ h

theorem edit_name_loop_some : ∀ (fuel : Nat) (a : Int) (st : Scratch) (inp : Stdin)
    (st1 : Scratch) (r : Stdin), edit_name_loop fuel a st inp = some (some st1, r) →
    ∃ name, is_valid_name name = VALID ∧ st1 = ⟨{ st.temp_contact with name := name }, true⟩
  | 0, _, _, _, _, _, h => by simp [edit_name_loop] at h
  | fuel + 1, a, st, inp, st1, r, h => by
    unfold edit_name_loop at h
    split at h
    · simp at h
    · split at h
      · rename_i hv
        simp only [Option.some.injEq, Prod.mk.injEq] at h
        exact ⟨_, hv, h.1.symm⟩
      · split at h
        · simp at h
        · simp at h
        · rename_i ha
          split at h
          · obtain ⟨x, hx, e⟩ := edit_name_loop_some fuel _ _ _ _ _ h
            exact ⟨x, hx, e⟩
          · exact absurd (handle_attempt_try_again ha).2 (by assumption)

theorem edit_phone_loop_some (book : AddressBook) : ∀ (fuel : Nat) (a : Int) (st : Scratch)
    (inp : Stdin) (st1 : Scratch) (r : Stdin),
    edit_phone_loop book fuel a st inp = some (some st1, r) →
    ∃ phone, phone_status phone book = VALID ∧
      st1 = ⟨{ st.temp_contact with phone := phone }, true⟩
  | 0, _, _, _, _, _, h => by simp [edit_phone_loop] at h
  | fuel + 1, a, st, inp, st1, r, h => by
    unfold edit_phone_loop at h
    split at h
    · simp at h
    · split at h
      · rename_i hv
        simp only [Option.some.injEq, Prod.mk.injEq] at h
        exact ⟨_, hv, h.1.symm⟩
      · split at h
        · simp at h
        · simp at h
        · rename_i ha
          split at h
          · obtain ⟨x, hx, e⟩ := edit_phone_loop_some book fuel _ _ _ _ _ h
            exact ⟨x, hx, e⟩
          · exact absurd (handle_attempt_try_again ha).2 (by assumption)

theorem edit_email_loop_some (book : AddressBook) : ∀ (fuel : Nat) (a : Int) (st : Scratch)
    (inp : Stdin) (st1 : Scratch) (r : Stdin),
    edit_email_loop book fuel a st inp = some (some st1, r) →
    ∃ email, email_status email book = VALID ∧
      st1 = ⟨{ st.temp_contact with email := email }, true⟩
  | 0, _, _, _, _, _, h => by simp [edit_email_loop] at h
  | fuel + 1, a, st, inp, st1, r, h => by
    unfold edit_email_loop at h
    split at h
    · simp at h
    · split at h
      · rename_i hv
        simp only [Option.some.injEq, Prod.mk.injEq] at h
        exact ⟨_, hv, h.1.symm⟩
      · split at h
        · simp at h
        · simp at h
        · rename_i ha
          split at h
          · obtain ⟨x, hx, e⟩ := edit_email_loop_some book fuel _ _ _ _ _ h
            exact ⟨x, hx, e⟩
          · exact absurd (handle_attempt_try_again ha).2 (by assumption)

/-- The two ways the menu loop of `edit_contact` returns: the book untouched, or the
staged fields saved on the target. -/
theorem edit_loop_cases (book : AddressBook) (target : Nat) (node : Contact) :
    ∀ (fuel : Nat) (st : Scratch) (inp : Stdin) (b' : AddressBook) (r : Stdin),
    Staged book node st.temp_contact → edit_loop book target fuel st inp = some (b', r) →
    b' = book ∨ ∃ temp, Staged book node temp ∧
      b' = { book with head := save_fields temp book.head target }
  | 0, _, _, _, _, _, h => by simp [edit_loop] at h
  | fuel + 1, st, inp, b', r, hs, h => by
    unfold edit_loop at h
    split at h
    · simp at h
    · split at h
      · split at h
        · simp at h
        · simp only [Option.some.injEq, Prod.mk.injEq] at h
          exact Or.inl h.1.symm
        · rename_i st1 inp2 hl
          obtain ⟨name, hv, rfl⟩ := edit_name_loop_some _ _ _ _ _ _ hl
          have hs1 : Staged book node { st.temp_contact with name := name } :=
            ⟨hs.1, Or.inr hv, hs.2.2.1, hs.2.2.2⟩
          exact edit_loop_cases book target node fuel _ _ _ _ hs1 h
      · split at h
        · split at h
          · simp at h
          · simp only [Option.some.injEq, Prod.mk.injEq] at h
            exact Or.inl h.1.symm
          · rename_i st1 inp2 hl
            obtain ⟨phone, hv, rfl⟩ := edit_phone_loop_some _ _ _ _ _ _ _ hl
            have hs1 : Staged book node { st.temp_contact with phone := phone } :=
              ⟨hs.1, hs.2.1, Or.inr hv, hs.2.2.2⟩
            exact edit_loop_cases book target node fuel _ _ _ _ hs1 h
        · split at h
          · split at h
            · simp at h
            · simp only [Option.some.injEq, Prod.mk.injEq] at h
              exact Or.inl h.1.symm
            · rename_i st1 inp2 hl
              obtain ⟨email, hv, rfl⟩ := edit_email_loop_some _ _ _ _ _ _ _ hl
              have hs1 : Staged book node { st.temp_contact with email := email } :=
                ⟨hs.1, hs.2.1, hs.2.2.1, Or.inr hv⟩
              exact edit_loop_cases book target node fuel _ _ _ _ hs1 h
          · split at h
            · split at h
              · simp only [Option.some.injEq, Prod.mk.injEq] at h
                exact Or.inr ⟨st.temp_contact, hs, h.1.symm⟩
              · simp only [Option.some.injEq, Prod.mk.injEq] at h
                exact Or.inl h.1.symm
            · split at h
              · simp only [Option.some.injEq, Prod.mk.injEq] at h
                exact Or.inl h.1.symm
              · exact edit_loop_cases book target node fuel _ _ _ _ hs h

/-- The two ways `edit_contact` returns. -/
theorem edit_contact_cases {book : AddressBook} {inp : Stdin} {b' : AddressBook} {r : Stdin}
    (h : edit_contact book inp = some (b', r)) :
    b' = book ∨ ∃ target node temp, book.head[target]? = some node ∧ Staged book node temp ∧
      b' = { book with head := save_fields temp book.head target } := by
  unfold edit_contact at h
  split at h
  · simp only [Option.some.injEq, Prod.mk.injEq] at h
    exact Or.inl h.1.symm
  · split at h
    · simp at h
    · simp only [Option.some.injEq, Prod.mk.injEq] at h
      exact Or.inl h.1.symm
    · rename_i target inp1 hsrch
      split at h
      · simp at h
      · rename_i node hn
        rcases edit_loop_cases book target node _ _ _ _ _
            ⟨rfl, Or.inl rfl, Or.inl rfl, Or.inl rfl⟩ h with e | ⟨temp, hs, e⟩
        · exact Or.inl e
        · exact Or.inr ⟨target, node, temp, hn, hs, e⟩

theorem splice_eq : ∀ (l : List Contact) (t : Nat) (rest : List Contact),
    splice l t = some rest → t < l.length ∧ rest = l.eraseIdx t
  | [], _, _, h => by simp [splice] at h
  | x :: xs, 0, rest, h => by
    simp only [splice, Option.some.injEq] at h
    subst h; simp
  | x :: xs, t + 1, rest, h => by
    unfold splice at h
    split at h
    · simp at h
    · rename_i rest1 hr
      simp only [Option.some.injEq] at h
      subst h
      have := splice_eq xs t rest1 hr
      simp [this.1, this.2]

/-- The two ways the confirmation loop of `delete_contact` returns. -/
theorem delete_loop_cases (book : AddressBook) (target : Nat) :
    ∀ (fuel : Nat) (a : Int) (inp : Stdin) (b' : AddressBook) (r : Stdin),
    delete_loop book target fuel a inp = some (b', r) →
    b' = book ∨ ∃ rest, splice book.head target = some rest ∧
      b' = { book with head := rest, contact_count := book.contact_count - 1 }
  | 0, _, _, _, _, h => by simp [delete_loop] at h
  | fuel + 1, a, inp, b', r, h => by
    unfold delete_loop at h
    split at h
    · simp at h
    · split at h
      · simp at h
      · split at h
        · split at h
          · rename_i rest hsp
            simp only [Option.some.injEq, Prod.mk.injEq] at h
            exact Or.inr ⟨rest, hsp, h.1.symm⟩
          · split at h
            · exact delete_loop_cases book target fuel _ _ _ _ h
            · simp only [Option.some.injEq, Prod.mk.injEq] at h
              exact Or.inl h.1.symm
        · split at h
          · simp only [Option.some.injEq, Prod.mk.injEq] at h
            exact Or.inl h.1.symm
          · split at h
            · simp at h
            · simp only [Option.some.injEq, Prod.mk.injEq] at h
              exact Or.inl h.1.symm
            · split at h
              · exact delete_loop_cases book target fuel _ _ _ _ h
              · simp only [Option.some.injEq, Prod.mk.injEq] at h
                exact Or.inl h.1.symm

/-- The two ways `delete_contact` returns: the book untouched, or one node removed and
the count decreased. -/
theorem delete_contact_cases {book : AddressBook} {inp : Stdin} {b' : AddressBook} {r : Stdin}
    (h : delete_contact book inp = some (b', r)) :
    b' = book ∨ ∃ target, target < book.head.length ∧
      b' = { book with head := book.head.eraseIdx target,
                       contact_count := book.contact_count - 1 } := by
  unfold delete_contact at h
  split at h
  · simp only [Option.some.injEq, Prod.mk.injEq] at h
    exact Or.inl h.1.symm
  · split at h
    · simp at h
    · simp only [Option.some.injEq, Prod.mk.injEq] at h
      exact Or.inl h.1.symm
    · rename_i target inp1 hsrch
      rcases delete_loop_cases book target _ _ _ _ _ h with e | ⟨rest, hsp, e⟩
      · exact Or.inl e
      · obtain ⟨hlt, rfl⟩ := splice_eq _ _ _ hsp
        exact Or.inr ⟨target, hlt, e⟩

/-- On a store where the local `tail` is NULL with an empty list, or points to the last
node, the loading loop ends and has appended the records it parsed. -/
theorem load_loop_appends : ∀ (n : Nat) (f : File) (book : AddressBook) (tail : Option Nat),
    (book.head = [] ∨ ∃ t, tail = some t ∧ t + 1 = book.head.length) →
    ∃ loaded : List Contact, load_loop n f book tail =
      some { book with head := book.head ++ loaded,
                       contact_count := book.contact_count + (loaded.length : Int) }
  | 0, _, book, _, _ => ⟨[], by simp [load_loop]⟩
  | n + 1, f, book, tail, hp => by
    unfold load_loop
    split
    · exact load_loop_appends n _ book tail hp
    · rename_i new_contact rest hrec
      by_cases hh : book.head = []
      · rw [if_pos hh]
        obtain ⟨loaded, hl⟩ := load_loop_appends n rest
          { book with head := [new_contact], contact_count := book.contact_count + 1 }
          (some 0) (Or.inr ⟨0, rfl, rfl⟩)
        refine ⟨new_contact :: loaded, ?_⟩
        rw [hl, hh]
        simp only [List.nil_append, List.singleton_append, List.length_cons, Nat.cast_succ,
          Option.some.injEq, AddressBook.mk.injEq, true_and, and_true]
        omega
      · rw [if_neg hh]
        rcases hp with hp | ⟨t, rfl, ht⟩
        · exact absurd hp hh
        · obtain ⟨loaded, hl⟩ := load_loop_appends n rest
            { book with head := book.head.take (t + 1) ++ [new_contact],
                        contact_count := book.contact_count + 1 }
            (some (t + 1)) (Or.inr ⟨t + 1, rfl, by simp [ht]⟩)
          refine ⟨new_contact :: loaded, ?_⟩
          simp only [hl]
          rw [ht, List.take_length]
          simp only [List.append_assoc, List.singleton_append, List.length_cons, Nat.cast_succ,
            Option.some.injEq, AddressBook.mk.injEq, true_and, and_true]
          omega

/-- Loading into an empty store ends, appends the parsed records and leaves `next_id`. -/
theorem load_empty_appends (book : AddressBook) (file : Option File) (h : book.head = []) :
    ∃ loaded : List Contact, load_contacts_from_file book file =
      some { book with head := loaded,
                       contact_count := book.contact_count + (loaded.length : Int) } := by
  obtain ⟨hd, cc, ni⟩ := book
  simp only at h
  subst h
  unfold load_contacts_from_file
  split
  · exact ⟨[], by simp⟩
  · split
    · exact ⟨[], by simp⟩
    · obtain ⟨loaded, hl⟩ := load_loop_appends _ _ ⟨[], cc, ni⟩ none (Or.inl rfl)
      exact ⟨loaded, by rw [hl]; simp⟩

theorem save_fields_length (temp : Contact) : ∀ (l : List Contact) (t : Nat),
    (save_fields temp l t).length = l.length
  | [], _ => rfl
  | _ :: _, 0 => rfl
  | _ :: xs, t + 1 => by simp [save_fields, save_fields_length temp xs t]

theorem save_fields_map_id (temp : Contact) : ∀ (l : List Contact) (t : Nat),
    (save_fields temp l t).map (·.id) = l.map (·.id)
  | [], _ => rfl
  | _ :: _, 0 => rfl
  | _ :: xs, t + 1 => by simp [save_fields, save_fields_map_id temp xs t]

theorem save_fields_map_phone (temp : Contact) : ∀ (l : List Contact) (t : Nat),
    (save_fields temp l t).map (·.phone) = (l.map (·.phone)).set t temp.phone
  | [], _ => rfl
  | _ :: _, 0 => rfl
  | _ :: xs, t + 1 => by simp [save_fields, save_fields_map_phone temp xs t]

theorem save_fields_map_email (temp : Contact) : ∀ (l : List Contact) (t : Nat),
    (save_fields temp l t).map (·.email) = (l.map (·.email)).set t temp.email
  | [], _ => rfl
  | _ :: _, 0 => rfl
  | _ :: xs, t + 1 => by simp [save_fields, save_fields_map_email temp xs t]

theorem set_same {α : Type} : ∀ (l : List α) (t : Nat) (x : α), l[t]? = some x → l.set t x = l
  | [], _, _, h => by simp at h
  | y :: ys, 0, x, h => by
    simp only [List.getElem?_cons_zero, Option.some.injEq] at h
    subst h; rfl
  | y :: ys, t + 1, x, h => by
    simp only [List.getElem?_cons_succ] at h
    simp [set_same ys t x h]

/-- Writing at position `t` the value already there, or a value that occurs nowhere,
keeps a list free of duplicates. -/
theorem nodup_set_same_or_new {α : Type} {l : List α} {t : Nat} {x y : α}
    (hl : l.Nodup) (hy : l[t]? = some y) (hx : x = y ∨ x ∉ l) : (l.set t x).Nodup := by
  rcases hx with rfl | hx
  · rw [set_same l t x hy]; exact hl
  · exact hl.set hx

/-- An edit keeps the phones pairwise distinct and the emails pairwise distinct. -/
theorem distinct_save_fields {book : AddressBook} {target : Nat} {node temp : Contact}
    (hd : Distinct book) (hn : book.head[target]? = some node) (hs : Staged book node temp) :
    Distinct { book with head := save_fields temp book.head target } := by
  obtain ⟨-, -, hp, he⟩ := hs
  constructor
  · show ((save_fields temp book.head target).map (·.phone)).Nodup
    rw [save_fields_map_phone]
    refine nodup_set_same_or_new hd.1 (y := node.phone) (by simp [hn]) ?_
    rcases hp with e | e
    · exact Or.inl e
    · right
      intro hm
      obtain ⟨c, hc, hce⟩ := List.mem_map.1 hm
      exact (phone_status_valid e).2 c hc hce
  · show ((save_fields temp book.head target).map (·.email)).Nodup
    rw [save_fields_map_email]
    refine nodup_set_same_or_new hd.2 (y := node.email) (by simp [hn]) ?_
    rcases he with e | e
    · exact Or.inl e
    · right
      intro hm
      obtain ⟨c, hc, hce⟩ := List.mem_map.1 hm
      exact (email_status_valid e).2 c hc hce

/-- A creation keeps the phones pairwise distinct and the emails pairwise distinct. -/
theorem distinct_create_store {book : AddressBook} {f : Fields} (hd : Distinct book)
    (hp : phone_status f.phone book = VALID) (he : email_status f.email book = VALID) :
    Distinct (create_store book f) := by
  rw [create_store_eq]
  constructor
  · show ((book.head ++ [_]).map Contact.phone).Nodup
    rw [List.map_append, List.nodup_append]
    refine ⟨hd.1, by simp, ?_⟩
    intro x hx hx2
    simp only [List.map_cons, List.map_nil, List.mem_singleton] at hx2
    subst hx2
    obtain ⟨c, hc, hce⟩ := List.mem_map.1 hx
    exact (phone_status_valid hp).2 c hc hce
  · show ((book.head ++ [_]).map Contact.email).Nodup
    rw [List.map_append, List.nodup_append]
    refine ⟨hd.2, by simp, ?_⟩
    intro x hx hx2
    simp only [List.map_cons, List.map_nil, List.mem_singleton] at hx2
    subst hx2
    obtain ⟨c, hc, hce⟩ := List.mem_map.1 hx
    exact (email_status_valid he).2 c hc hce

theorem distinct_eraseIdx {book : AddressBook} (target : Nat) (cnt : Int) (hd : Distinct book) :
    Distinct { book with head := book.head.eraseIdx target, contact_count := cnt } :=
  ⟨hd.1.sublist ((List.eraseIdx_sublist _ _).map _),
   hd.2.sublist ((List.eraseIdx_sublist _ _).map _)⟩

/-- After `k` stored creations from an initialized store, `next_id` is `k + 1`. -/
theorem created_next_id {k : Nat} {book : AddressBook} (h : Created k book) :
    book.next_id = (k : Int) + 1 := by
  induction h with
  | init b0 => simp [initialize_book]
  | created inp f r _ hi hc ih =>
    rcases create_contact_cases hc with ⟨h1, -⟩ | ⟨f2, -, rfl⟩
    · rw [hi] at h1; simp at h1
    · rw [create_store_eq]; simp [ih]
  | cancelled inp r _ hi hc ih =>
    rcases create_contact_cases hc with ⟨-, rfl⟩ | ⟨f2, h2, -⟩
    · exact ih
    · rw [hi] at h2; simp at h2
  | edited inp r _ he ih =>
    rcases edit_contact_cases he with rfl | ⟨_, _, _, -, -, rfl⟩
    · exact ih
    · exact ih
  | deleted inp r _ hd ih =>
    rcases delete_contact_cases hd with rfl | ⟨_, -, rfl⟩
    · exact ih
    · exact ih

theorem fgets_loop_line : ∀ (s : List Char) (k : Nat) (rest : Stdin),
    '\n' ∉ s → s.length < k → fgets_loop k (s ++ '\n' :: rest) = some (s ++ ['\n'], rest)
  | [], k + 1, rest, _, _ => by simp [fgets_loop]
  | [], 0, _, _, h => by simp at h
  | c :: cs, 0, _, _, h => by simp at h
  | c :: cs, k + 1, rest, hn, hk => by
    have hc : c ≠ '\n' := fun e => hn (by simp [e])
    have hcs : '\n' ∉ cs := fun e => hn (List.mem_cons_of_mem _ e)
    have ih := fgets_loop_line cs k rest hcs (by simpa using hk)
    show fgets_loop (k + 1) (c :: (cs ++ '\n' :: rest)) = some (c :: (cs ++ ['\n']), rest)
    simp only [fgets_loop, hc, if_false, ih]

theorem takeWhile_append_stop {p : Char → Bool} : ∀ (s : List Char) (c : Char),
    (∀ x ∈ s, p x = true) → p c = false → (s ++ [c]).takeWhile p = s
  | [], c, _, hc => by simp [List.takeWhile, hc]
  | x :: xs, c, hs, hc => by
    have hx : p x = true := hs x (List.mem_cons_self _ _)
    have ih := takeWhile_append_stop xs c (fun y hy => hs y (List.mem_cons_of_mem _ hy)) hc
    simp [List.takeWhile, hx, ih]

theorem takeWhile_all {p : Char → Bool} : ∀ (s : List Char),
    (∀ x ∈ s, p x = true) → s.takeWhile p = s
  | [], _ => rfl
  | x :: xs, hs => by
    have hx : p x = true := hs x (List.mem_cons_self _ _)
    have ih := takeWhile_all xs (fun y hy => hs y (List.mem_cons_of_mem _ hy))
    simp [List.takeWhile, hx, ih]

/-- A line typed without NUL is returned by `remove_newline` without its newline. -/
theorem remove_newline_line {s : CString} (h : OneLine s) : remove_newline (s ++ ['\n']) = s := by
  unfold remove_newline cstr
  have h1 : (s ++ ['\n']).takeWhile (fun c => !(c == NUL)) = s ++ ['\n'] := by
    apply takeWhile_all
    intro x hx
    rcases List.mem_append.1 hx with hx | hx
    · have : x ≠ NUL := fun e => h.2 (e ▸ hx)
      simpa using this
    · simp only [List.mem_singleton] at hx
      subst hx; decide
  rw [h1]
  apply takeWhile_append_stop
  · intro x hx
    have : x ≠ '\n' := fun e => h.1 (e ▸ hx)
    simpa using this
  · decide

theorem fgets_line {s : CString} {size : Nat} (rest : Stdin) (h : OneLine s)
    (hl : s.length + 2 ≤ size) :
    fgets size (s ++ '\n' :: rest) = some (s ++ ['\n'], rest) :=
  fgets_loop_line s (size - 1) rest h.1 (by omega)

theorem is_valid_phone_length {s : CString} (h : is_valid_phone s = VALID) : s.length = 10 := by
  unfold is_valid_phone at h
  by_cases h0 : s.length = 0
  · simp [h0] at h
  · by_cases h10 : s.length = 10
    · exact h10
    · simp [h0, h10] at h

/-- Typed on three lines, fields that pass the checks are accepted by the input part of
`create_contact`. -/
theorem create_input_accepts (book : AddressBook) (name phone email : CString) (rest : Stdin)
    (hn : is_valid_name name = VALID) (hp : phone_status phone book = VALID)
    (he : email_status email book = VALID)
    (h1 : OneLine name) (h2 : OneLine phone) (h3 : OneLine email)
    (l1 : name.length ≤ 48) (l3 : email.length ≤ 48) :
    create_input book (name ++ '\n' :: (phone ++ '\n' :: (email ++ '\n' :: rest))) =
      some (some ⟨name, phone, email⟩, rest) := by
  have l2 : phone.length = 10 := is_valid_phone_length (phone_status_valid hp).1
  unfold create_input
  have e1 : ∀ (fuel : Nat) (r : Stdin),
      create_name_loop (fuel + 1) 0 (name ++ '\n' :: r) = some (some name, r) := by
    intro fuel r
    unfold create_name_loop
    rw [fgets_line r h1 (by simp [MAX_NAME_LENGTH]; omega)]
    simp [remove_newline_line h1, hn]
  have e2 : ∀ (fuel : Nat) (r : Stdin),
      create_phone_loop book (fuel + 1) 0 (phone ++ '\n' :: r) = some (some phone, r) := by
    intro fuel r
    unfold create_phone_loop
    rw [fgets_line r h2 (by simp [MAX_PHONE_LENGTH]; omega)]
    simp [remove_newline_line h2, hp]
  have e3 : ∀ (fuel : Nat) (r : Stdin),
      create_email_loop book (fuel + 1) 0 (email ++ '\n' :: r) = some (some email, r) := by
    intro fuel r
    unfold create_email_loop
    rw [fgets_line r h3 (by simp [MAX_EMAIL_LENGTH]; omega)]
    simp [remove_newline_line h3, he]
  simp only [e1, e2, e3]

/-- The menu loop of `main` stays within the stores reached by creations, edits and
deletions. -/
theorem main_loop_created : ∀ (fuel : Nat) (k : Nat) (book : AddressBook) (inp : Stdin)
    (b : AddressBook), Created k book → main_loop fuel book inp = some b → ∃ k', Created k' b
  | 0, _, _, _, _, _, h => by simp [main_loop] at h
  | fuel + 1, k, book, inp, b, hc, h => by
    unfold main_loop at h
    split at h
    · simp at h
    · split at h
      · split at h
        · simp at h
        · rename_i b1 inp2 hcr
          rcases create_contact_cases hcr with ⟨hi, -⟩ | ⟨f, hi, -⟩
          · exact main_loop_created fuel k b1 inp2 b (Created.cancelled _ _ hc hi hcr) h
          · exact main_loop_created fuel (k + 1) b1 inp2 b (Created.created _ f _ hc hi hcr) h
      · split at h
        · split at h
          · simp at h
          · exact main_loop_created fuel k book _ b hc h
        · split at h
          · split at h
            · simp at h
            · rename_i b1 inp2 he
              exact main_loop_created fuel k b1 inp2 b (Created.edited _ _ hc he) h
          · split at h
            · split at h
              · simp at h
              · rename_i b1 inp2 hd
                exact main_loop_created fuel k b1 inp2 b (Created.deleted _ _ hc hd) h
            · split at h
              · exact main_loop_created fuel k book _ b hc h
              · split at h
                · exact main_loop_created fuel k book _ b hc h
                · split at h
                  · simp only [Option.some.injEq] at h
                    exact ⟨k, h ▸ hc⟩
                  · exact main_loop_created fuel k book _ b hc h

/-- A run of `main` that finds no `contacts.csv` ends in a store reached by creations,
edits and deletions from the initialized one. -/
theorem main_created {inp : Stdin} {b : AddressBook} (h : main none inp = some b) :
    ∃ k, Created k b := by
  unfold main load_contacts_from_file at h
  exact main_loop_created _ 0 _ inp b (Created.init _) h

/-! ## Every read consumes input, so the fuel of the loops is enough -/

theorem skip_space_length : ∀ (l : List Char), (skip_space l).length ≤ l.length
  | [] => by simp [skip_space]
  | c :: cs => by
    unfold skip_space
    split
    · have := skip_space_length cs
      simp only [List.length_cons]; omega
    · exact Nat.le_refl _

theorem dropWhile_length_le (p : Char → Bool) : ∀ (l : List Char),
    (l.dropWhile p).length ≤ l.length
  | [] => by simp
  | c :: cs => by
    have := dropWhile_length_le p cs
    by_cases h : p c = true
    · simp only [List.dropWhile_cons, h, if_true, List.length_cons]; omega
    · simp [List.dropWhile_cons, h]

theorem scanf_d_length (inp : List Char) : (scanf_d inp).2.length ≤ inp.length := by
  have hs := skip_space_length inp
  unfold scanf_d
  split
  · simp
  · rename_i c cs heq
    rw [heq] at hs
    have hd := dropWhile_length_le isdigit cs
    have hd2 := dropWhile_length_le isdigit (c :: cs)
    simp only [List.length_cons] at hs hd2
    split
    · split
      · simp only []; omega
      · simp only []; omega
    · split
      · split
        · simp only []; omega
        · simp only []; omega
      · split
        · simp only [List.length_cons]; omega
        · simp only []; omega

theorem flush_line_lt : ∀ (inp rest : Stdin), flush_line inp = some rest →
    rest.length < inp.length
  | [], _, h => by simp [flush_line] at h
  | c :: cs, rest, h => by
    unfold flush_line at h
    split at h
    · simp only [Option.some.injEq] at h
      subst h; simp
    · have := flush_line_lt cs rest h
      simp only [List.length_cons]; omega

theorem get_int_input_lt {inp : Stdin} {v : Int} {rest : Stdin}
    (h : get_int_input inp = some (v, rest)) : rest.length < inp.length := by
  unfold get_int_input at h
  split at h
  · simp at h
  · rename_i r hf
    simp only [Option.some.injEq, Prod.mk.injEq] at h
    have h1 := flush_line_lt _ _ hf
    have h2 := scanf_d_length inp
    rw [← h.2]; omega

theorem fgets_loop_lt : ∀ (k : Nat) (inp : Stdin) (buf : List Char) (rest : Stdin),
    fgets_loop (k + 1) inp = some (buf, rest) → rest.length < inp.length
  | _, [], _, _, h => by simp [fgets_loop] at h
  | 0, c :: cs, buf, rest, h => by
    unfold fgets_loop at h
    split at h
    · simp only [Option.some.injEq, Prod.mk.injEq] at h
      rw [← h.2]; simp
    · simp only [fgets_loop, Option.some.injEq, Prod.mk.injEq] at h
      rw [← h.2]; simp
  | k + 1, c :: cs, buf, rest, h => by
    unfold fgets_loop at h
    split at h
    · simp only [Option.some.injEq, Prod.mk.injEq] at h
      rw [← h.2]; simp
    · split at h
      · simp at h
      · rename_i b r hr
        simp only [Option.some.injEq, Prod.mk.injEq] at h
        have := fgets_loop_lt k cs b r hr
        rw [← h.2]; simp only [List.length_cons]; omega

theorem fgets_lt {size : Nat} {inp : Stdin} {buf : List Char} {rest : Stdin}
    (hs : 2 ≤ size) (h : fgets size inp = some (buf, rest)) : rest.length < inp.length := by
  unfold fgets at h
  obtain ⟨k, hk⟩ : ∃ k, size - 1 = k + 1 := ⟨size - 2, by omega⟩
  rw [hk] at h
  exact fgets_loop_lt k inp buf rest h

theorem scanf_c_lt {inp : Stdin} {c : Char} {rest : Stdin}
    (h : scanf_c inp = some (c, rest)) : rest.length < inp.length := by
  unfold scanf_c at h
  have hs := skip_space_length inp
  split at h
  · simp at h
  · rename_i c2 cs heq
    rw [heq] at hs
    simp only [Option.some.injEq, Prod.mk.injEq] at h
    rw [← h.2]
    simp only [List.length_cons] at hs; omega

theorem getchar_lt {inp : Stdin} {c : Char} {rest : Stdin}
    (h : getchar inp = some (c, rest)) : rest.length < inp.length := by
  cases inp with
  | nil => simp [getchar] at h
  | cons x xs =>
    simp only [getchar, Option.some.injEq, Prod.mk.injEq] at h
    rw [← h.2]; simp

theorem handle_attempt_loop_lt : ∀ (fuel : Nat) (inp : Stdin) (c : Choice) (rest : Stdin),
    handle_attempt_loop fuel inp = some (c, rest) → rest.length < inp.length
  | 0, _, _, _, h => by simp [handle_attempt_loop] at h
  | fuel + 1, inp, c, rest, h => by
    unfold handle_attempt_loop at h
    split at h
    · simp at h
    · rename_i v r hg
      have hl := get_int_input_lt hg
      split at h
      · simp only [Option.some.injEq, Prod.mk.injEq] at h
        rw [← h.2]; exact hl
      · split at h
        · simp only [Option.some.injEq, Prod.mk.injEq] at h
          rw [← h.2]; exact hl
        · have := handle_attempt_loop_lt fuel r c rest h
          omega

theorem handle_attempt_le {a : Int} {inp : Stdin} {c : Choice} {a1 : Int} {rest : Stdin}
    (h : handle_attempt a inp = some (c, a1, rest)) : rest.length ≤ inp.length := by
  unfold handle_attempt at h
  split at h
  · simp only [Option.some.injEq, Prod.mk.injEq] at h
    rw [← h.2.2]
  · split at h
    · simp at h
    · rename_i c2 r hl
      simp only [Option.some.injEq, Prod.mk.injEq] at h
      have := handle_attempt_loop_lt _ _ _ _ hl
      rw [← h.2.2]; omega

/-- More fuel than pending characters never changes the result of the loop of
`handle_attempt`. -/
theorem handle_attempt_loop_fuel : ∀ (f1 f2 : Nat) (inp : Stdin),
    inp.length < f1 → inp.length < f2 →
    handle_attempt_loop f1 inp = handle_attempt_loop f2 inp
  | 0, _, _, h, _ => absurd h (Nat.not_lt_zero _)
  | _ + 1, 0, _, _, h => absurd h (Nat.not_lt_zero _)
  | f1 + 1, f2 + 1, inp, h1, h2 => by
    unfold handle_attempt_loop
    cases hg : get_int_input inp with
    | none => rfl
    | some p =>
      obtain ⟨v, rest⟩ := p
      have hl := get_int_input_lt hg
      simp only []
      rw [handle_attempt_loop_fuel f1 f2 rest (by omega) (by omega)]

theorem create_name_loop_lt : ∀ (fuel : Nat) (a : Int) (inp : Stdin)
    (x : Option CString) (rest : Stdin), create_name_loop fuel a inp = some (x, rest) →
    rest.length < inp.length
  | 0, _, _, _, _, h => by simp [create_name_loop] at h
  | fuel + 1, a, inp, x, rest, h => by
    unfold create_name_loop at h
    split at h
    · simp at h
    · rename_i buf inp1 hf
      have h1 := fgets_lt (by decide) hf
      split at h
      · simp only [Option.some.injEq, Prod.mk.injEq] at h
        rw [← h.2]; exact h1
      · split at h
        · simp at h
        · rename_i _ inp2 ha
          have h2 := handle_attempt_le ha
          simp only [Option.some.injEq, Prod.mk.injEq] at h
          rw [← h.2]; omega
        · rename_i a1 inp2 ha
          have h2 := handle_attempt_le ha
          split at h
          · have := create_name_loop_lt fuel _ _ _ _ h
            omega
          · simp only [Option.some.injEq, Prod.mk.injEq] at h
            rw [← h.2]; omega

/-- More fuel than pending characters never changes the result of the name loop of
`create_contact`. -/
theorem create_name_loop_fuel : ∀ (f1 f2 : Nat) (a : Int) (inp : Stdin),
    inp.length < f1 → inp.length < f2 →
    create_name_loop f1 a inp = create_name_loop f2 a inp
  | 0, _, _, _, h, _ => absurd h (Nat.not_lt_zero _)
  | _ + 1, 0, _, _, _, h => absurd h (Nat.not_lt_zero _)
  | f1 + 1, f2 + 1, a, inp, h1, h2 => by
    unfold create_name_loop
    cases hf : fgets MAX_NAME_LENGTH inp with
    | none => rfl
    | some p =>
      obtain ⟨buf, inp1⟩ := p
      have hl := fgets_lt (by decide) hf
      simp only []
      split
      · rfl
      · cases ha : handle_attempt a inp1 with
        | none => rfl
        | some q =>
          obtain ⟨c, a1, inp2⟩ := q
          have hl2 := handle_attempt_le ha
          cases c with
          | CANCEL => rfl
          | TRY_AGAIN =>
            simp only []
            rw [create_name_loop_fuel f1 f2 a1 inp2 (by omega) (by omega)]

theorem create_phone_loop_lt (book : AddressBook) : ∀ (fuel : Nat) (a : Int) (inp : Stdin)
    (x : Option CString) (rest : Stdin), create_phone_loop book fuel a inp = some (x, rest) →
    rest.length < inp.length
  | 0, _, _, _, _, h => by simp [create_phone_loop] at h
  | fuel + 1, a, inp, x, rest, h => by
    unfold create_phone_loop at h
    split at h
    · simp at h
    · rename_i buf inp1 hf
      have h1 := fgets_lt (by decide) hf
      split at h
      · simp only [Option.some.injEq, Prod.mk.injEq] at h
        rw [← h.2]; exact h1
      · split at h
        · simp at h
        · rename_i _ inp2 ha
          have h2 := handle_attempt_le ha
          simp only [Option.some.injEq, Prod.mk.injEq] at h
          rw [← h.2]; omega
        · rename_i a1 inp2 ha
          have h2 := handle_attempt_le ha
          split at h
          · have := create_phone_loop_lt book fuel _ _ _ _ h
            omega
          · simp only [Option.some.injEq, Prod.mk.injEq] at h
            rw [← h.2]; omega

/-- More fuel than pending characters never changes the result of the phone loop of
`create_contact`. -/
theorem create_phone_loop_fuel (book : AddressBook) : ∀ (f1 f2 : Nat) (a : Int) (inp : Stdin),
    inp.length < f1 → inp.length < f2 →
    create_phone_loop book f1 a inp = create_phone_loop book f2 a inp
  | 0, _, _, _, h, _ => absurd h (Nat.not_lt_zero _)
  | _ + 1, 0, _, _, _, h => absurd h (Nat.not_lt_zero _)
  | f1 + 1, f2 + 1, a, inp, h1, h2 => by
    unfold create_phone_loop
    cases hf : fgets MAX_PHONE_LENGTH inp with
    | none => rfl
    | some p =>
      obtain ⟨buf, inp1⟩ := p
      have hl := fgets_lt (by decide) hf
      simp only []
      split
      · rfl
      · cases ha : handle_attempt a inp1 with
        | none => rfl
        | some q =>
          obtain ⟨c, a1, inp2⟩ := q
          have hl2 := handle_attempt_le ha
          cases c with
          | CANCEL => rfl
          | TRY_AGAIN =>
            simp only []
            rw [create_phone_loop_fuel book f1 f2 a1 inp2 (by omega) (by omega)]

theorem create_email_loop_lt (book : AddressBook) : ∀ (fuel : Nat) (a : Int) (inp : Stdin)
    (x : Option CString) (rest : Stdin), create_email_loop book fuel a inp = some (x, rest) →
    rest.length < inp.length
  | 0, _, _, _, _, h => by simp [create_email_loop] at h
  | fuel + 1, a, inp, x, rest, h => by
    unfold create_email_loop at h
    split at h
    · simp at h
    · rename_i buf inp1 hf
      have h1 := fgets_lt (by decide) hf
      split at h
      · simp only [Option.some.injEq, Prod.mk.injEq] at h
        rw [← h.2]; exact h1
      · split at h
        · simp at h
        · rename_i _ inp2 ha
          have h2 := handle_attempt_le ha
          simp only [Option.some.injEq, Prod.mk.injEq] at h
          rw [← h.2]; omega
        · rename_i a1 inp2 ha
          have h2 := handle_attempt_le ha
          split at h
          · have := create_email_loop_lt book fuel _ _ _ _ h
            omega
          · simp only [Option.some.injEq, Prod.mk.injEq] at h
            rw [← h.2]; omega

/-- More fuel than pending characters never changes the result of the email loop of
`create_contact`. -/
theorem create_email_loop_fuel (book : AddressBook) : ∀ (f1 f2 : Nat) (a : Int) (inp : Stdin),
    inp.length < f1 → inp.length < f2 →
    create_email_loop book f1 a inp = create_email_loop book f2 a inp
  | 0, _, _, _, h, _ => absurd h (Nat.not_lt_zero _)
  | _ + 1, 0, _, _, _, h => absurd h (Nat.not_lt_zero _)
  | f1 + 1, f2 + 1, a, inp, h1, h2 => by
    unfold create_email_loop
    cases hf : fgets MAX_EMAIL_LENGTH inp with
    | none => rfl
    | some p =>
      obtain ⟨buf, inp1⟩ := p
      have hl := fgets_lt (by decide) hf
      simp only []
      split
      · rfl
      · cases ha : handle_attempt a inp1 with
        | none => rfl
        | some q =>
          obtain ⟨c, a1, inp2⟩ := q
          have hl2 := handle_attempt_le ha
          cases c with
          | CANCEL => rfl
          | TRY_AGAIN =>
            simp only []
            rw [create_email_loop_fuel book f1 f2 a1 inp2 (by omega) (by omega)]

theorem edit_name_loop_lt : ∀ (fuel : Nat) (a : Int) (st : Scratch) (inp : Stdin)
    (x : Option Scratch) (rest : Stdin), edit_name_loop fuel a st inp = some (x, rest) →
    rest.length < inp.length
  | 0, _, _, _, _, _, h => by simp [edit_name_loop] at h
  | fuel + 1, a, st, inp, x, rest, h => by
    unfold edit_name_loop at h
    split at h
    · simp at h
    · rename_i buf inp1 hf
      have h1 := fgets_lt (by decide) hf
      split at h
      · simp only [Option.some.injEq, Prod.mk.injEq] at h
        rw [← h.2]; exact h1
      · split at h
        · simp at h
        · rename_i _ inp2 ha
          have h2 := handle_attempt_le ha
          simp only [Option.some.injEq, Prod.mk.injEq] at h
          rw [← h.2]; omega
        · rename_i a1 inp2 ha
          have h2 := handle_attempt_le ha
          split at h
          · have := edit_name_loop_lt fuel _ _ _ _ _ h
            omega
          · simp only [Option.some.injEq, Prod.mk.injEq] at h
            rw [← h.2]; omega

/-- More fuel than pending characters never changes the result of the name loop of
`edit_contact`. -/
theorem edit_name_loop_fuel : ∀ (f1 f2 : Nat) (a : Int) (st : Scratch) (inp : Stdin),
    inp.length < f1 → inp.length < f2 →
    edit_name_loop f1 a st inp = edit_name_loop f2 a st inp
  | 0, _, _, _, _, h, _ => absurd h (Nat.not_lt_zero _)
  | _ + 1, 0, _, _, _, _, h => absurd h (Nat.not_lt_zero _)
  | f1 + 1, f2 + 1, a, st, inp, h1, h2 => by
    unfold edit_name_loop
    cases hf : fgets MAX_NAME_LENGTH inp with
    | none => rfl
    | some p =>
      obtain ⟨buf, inp1⟩ := p
      have hl := fgets_lt (by decide) hf
      simp only []
      split
      · rfl
      · cases ha : handle_attempt a inp1 with
        | none => rfl
        | some q =>
          obtain ⟨c, a1, inp2⟩ := q
          have hl2 := handle_attempt_le ha
          cases c with
          | CANCEL => rfl
          | TRY_AGAIN =>
            simp only []
            rw [edit_name_loop_fuel f1 f2 a1 _ inp2 (by omega) (by omega)]

theorem edit_phone_loop_lt (book : AddressBook) : ∀ (fuel : Nat) (a : Int) (st : Scratch) (inp : Stdin)
    (x : Option Scratch) (rest : Stdin), edit_phone_loop book fuel a st inp = some (x, rest) →
    rest.length < inp.length
  | 0, _, _, _, _, _, h => by simp [edit_phone_loop] at h
  | fuel + 1, a, st, inp, x, rest, h => by
    unfold edit_phone_loop at h
    split at h
    · simp at h
    · rename_i buf inp1 hf
      have h1 := fgets_lt (by decide) hf
      split at h
      · simp only [Option.some.injEq, Prod.mk.injEq] at h
        rw [← h.2]; exact h1
      · split at h
        · simp at h
        · rename_i _ inp2 ha
          have h2 := handle_attempt_le ha
          simp only [Option.some.injEq, Prod.mk.injEq] at h
          rw [← h.2]; omega
        · rename_i a1 inp2 ha
          have h2 := handle_attempt_le ha
          split at h
          · have := edit_phone_loop_lt book fuel _ _ _ _ _ h
            omega
          · simp only [Option.some.injEq, Prod.mk.injEq] at h
            rw [← h.2]; omega

/-- More fuel than pending characters never changes the result of the phone loop of
`edit_contact`. -/
theorem edit_phone_loop_fuel (book : AddressBook) : ∀ (f1 f2 : Nat) (a : Int) (st : Scratch) (inp : Stdin),
    inp.length < f1 → inp.length < f2 →
    edit_phone_loop book f1 a st inp = edit_phone_loop book f2 a st inp
  | 0, _, _, _, _, h, _ => absurd h (Nat.not_lt_zero _)
  | _ + 1, 0, _, _, _, _, h => absurd h (Nat.not_lt_zero _)
  | f1 + 1, f2 + 1, a, st, inp, h1, h2 => by
    unfold edit_phone_loop
    cases hf : fgets MAX_PHONE_LENGTH inp with
    | none => rfl
    | some p =>
      obtain ⟨buf, inp1⟩ := p
      have hl := fgets_lt (by decide) hf
      simp only []
      split
      · rfl
      · cases ha : handle_attempt a inp1 with
        | none => rfl
        | some q =>
          obtain ⟨c, a1, inp2⟩ := q
          have hl2 := handle_attempt_le ha
          cases c with
          | CANCEL => rfl
          | TRY_AGAIN =>
            simp only []
            rw [edit_phone_loop_fuel book f1 f2 a1 _ inp2 (by omega) (by omega)]

theorem edit_email_loop_lt (book : AddressBook) : ∀ (fuel : Nat) (a : Int) (st : Scratch) (inp : Stdin)
    (x : Option Scratch) (rest : Stdin), edit_email_loop book fuel a st inp = some (x, rest) →
    rest.length < inp.length
  | 0, _, _, _, _, _, h => by simp [edit_email_loop] at h
  | fuel + 1, a, st, inp, x, rest, h => by
    unfold edit_email_loop at h
    split at h
    · simp at h
    · rename_i buf inp1 hf
      have h1 := fgets_lt (by decide) hf
      split at h
      · simp only [Option.some.injEq, Prod.mk.injEq] at h
        rw [← h.2]; exact h1
      · split at h
        · simp at h
        · rename_i _ inp2 ha
          have h2 := handle_attempt_le ha
          simp only [Option.some.injEq, Prod.mk.injEq] at h
          rw [← h.2]; omega
        · rename_i a1 inp2 ha
          have h2 := handle_attempt_le ha
          split at h
          · have := edit_email_loop_lt book fuel _ _ _ _ _ h
            omega
          · simp only [Option.some.injEq, Prod.mk.injEq] at h
            rw [← h.2]; omega

/-- More fuel than pending characters never changes the result of the email loop of
`edit_contact`. -/
theorem edit_email_loop_fuel (book : AddressBook) : ∀ (f1 f2 : Nat) (a : Int) (st : Scratch) (inp : Stdin),
    inp.length < f1 → inp.length < f2 →
    edit_email_loop book f1 a st inp = edit_email_loop book f2 a st inp
  | 0, _, _, _, _, h, _ => absurd h (Nat.not_lt_zero _)
  | _ + 1, 0, _, _, _, _, h => absurd h (Nat.not_lt_zero _)
  | f1 + 1, f2 + 1, a, st, inp, h1, h2 => by
    unfold edit_email_loop
    cases hf : fgets MAX_EMAIL_LENGTH inp with
    | none => rfl
    | some p =>
      obtain ⟨buf, inp1⟩ := p
      have hl := fgets_lt (by decide) hf
      simp only []
      split
      · rfl
      · cases ha : handle_attempt a inp1 with
        | none => rfl
        | some q =>
          obtain ⟨c, a1, inp2⟩ := q
          have hl2 := handle_attempt_le ha
          cases c with
          | CANCEL => rfl
          | TRY_AGAIN =>
            simp only []
            rw [edit_email_loop_fuel book f1 f2 a1 _ inp2 (by omega) (by omega)]

theorem search_retry_le {a : Int} {inp : Stdin}
    {again : Int → Stdin → Option (Option Nat × Stdin)} {x : Option Nat} {rest : Stdin}
    (hagain : ∀ a1 i1 y r, again a1 i1 = some (y, r) → r.length < i1.length)
    (h : search_retry a inp again = some (x, rest)) : rest.length ≤ inp.length := by
  unfold search_retry at h
  split at h
  · simp at h
  · rename_i _ inp1 ha
    have := handle_attempt_le ha
    simp only [Option.some.injEq, Prod.mk.injEq] at h
    rw [← h.2]; exact this
  · rename_i a1 inp1 ha
    have h2 := handle_attempt_le ha
    split at h
    · have := hagain _ _ _ _ h
      omega
    · simp only [Option.some.injEq, Prod.mk.injEq] at h
      rw [← h.2]; exact h2

theorem search_retry_congr {a : Int} {inp : Stdin}
    {k1 k2 : Int → Stdin → Option (Option Nat × Stdin)}
    (hk : ∀ a1 i1, i1.length ≤ inp.length → k1 a1 i1 = k2 a1 i1) :
    search_retry a inp k1 = search_retry a inp k2 := by
  unfold search_retry
  cases ha : handle_attempt a inp with
  | none => rfl
  | some q =>
    obtain ⟨c, a1, inp1⟩ := q
    have hl := handle_attempt_le ha
    cases c with
    | CANCEL => rfl
    | TRY_AGAIN =>
      simp only []
      rw [hk a1 inp1 hl]

theorem search_loop_lt (book : AddressBook) : ∀ (fuel : Nat) (a : Int) (inp : Stdin)
    (x : Option Nat) (rest : Stdin), search_loop book fuel a inp = some (x, rest) →
    rest.length < inp.length
  | 0, _, _, _, _, h => by simp [search_loop] at h
  | fuel + 1, a, inp, x, rest, h => by
    have ih : ∀ a1 i1 y r, search_loop book fuel a1 i1 = some (y, r) → r.length < i1.length :=
      fun a1 i1 y r hr => search_loop_lt book fuel a1 i1 y r hr
    unfold search_loop at h
    split at h
    · simp at h
    · rename_i v inp1 hg
      have h1 := get_int_input_lt hg
      split at h
      · have := search_retry_le ih h; omega
      · split at h
        · simp only [Option.some.injEq, Prod.mk.injEq] at h
          rw [← h.2]; exact h1
        · split at h
          · split at h
            · simp at h
            · rename_i buf inp2 hf
              have h2 := fgets_lt (by decide) hf
              split at h
              · have := search_retry_le ih h; omega
              · split at h
                · simp only [Option.some.injEq, Prod.mk.injEq] at h
                  rw [← h.2]; omega
                · split at h
                  · simp at h
                  · rename_i sel inp3 hg3
                    have h3 := get_int_input_lt hg3
                    split at h
                    · have := search_retry_le ih h; omega
                    · simp only [Option.some.injEq, Prod.mk.injEq] at h
                      rw [← h.2]; omega
          · have := search_retry_le ih h; omega

/-- More fuel than pending characters never changes the result of the loop of
`search_contact`. -/
theorem search_loop_fuel (book : AddressBook) : ∀ (f1 f2 : Nat) (a : Int) (inp : Stdin),
    inp.length < f1 → inp.length < f2 →
    search_loop book f1 a inp = search_loop book f2 a inp
  | 0, _, _, _, h, _ => absurd h (Nat.not_lt_zero _)
  | _ + 1, 0, _, _, _, h => absurd h (Nat.not_lt_zero _)
  | f1 + 1, f2 + 1, a, inp, h1, h2 => by
    have ih : ∀ (i : Stdin), i.length < inp.length → ∀ a1 i1, i1.length ≤ i.length →
        search_loop book f1 a1 i1 = search_loop book f2 a1 i1 :=
      fun i hi a1 i1 hi1 => search_loop_fuel book f1 f2 a1 i1 (by omega) (by omega)
    unfold search_loop
    cases hg : get_int_input inp with
    | none => rfl
    | some p =>
      obtain ⟨v, inp1⟩ := p
      have hl1 := get_int_input_lt hg
      simp only []
      split
      · exact search_retry_congr (ih inp1 hl1)
      · split
        · rfl
        · split
          · cases hf : fgets MAX_NAME_LENGTH inp1 with
            | none => rfl
            | some q =>
              obtain ⟨buf, inp2⟩ := q
              have hl2 := fgets_lt (by decide) hf
              simp only []
              split
              · exact search_retry_congr (ih inp2 (by omega))
              · split
                · rfl
                · cases hg3 : get_int_input inp2 with
                  | none => rfl
                  | some q3 =>
                    obtain ⟨sel, inp3⟩ := q3
                    have hl3 := get_int_input_lt hg3
                    simp only []
                    split
                    · exact search_retry_congr (ih inp3 (by omega))
                    · rfl
          · exact search_retry_congr (ih inp1 hl1)

theorem search_contact_le {book : AddressBook} {inp : Stdin} {x : Option Nat} {rest : Stdin}
    (h : search_contact book inp = some (x, rest)) : rest.length ≤ inp.length := by
  unfold search_contact at h
  split at h
  · simp only [Option.some.injEq, Prod.mk.injEq] at h
    rw [← h.2]
  · exact Nat.le_of_lt (search_loop_lt book _ _ _ _ _ h)

theorem create_input_lt {book : AddressBook} {inp : Stdin} {x : Option Fields} {rest : Stdin}
    (h : create_input book inp = some (x, rest)) : rest.length < inp.length := by
  unfold create_input at h
  split at h
  · simp at h
  · rename_i inp1 hn
    have := create_name_loop_lt _ _ _ _ _ hn
    simp only [Option.some.injEq, Prod.mk.injEq] at h
    rw [← h.2]; exact this
  · rename_i name inp1 hn
    have h1 := create_name_loop_lt _ _ _ _ _ hn
    split at h
    · simp at h
    · rename_i inp2 hp
      have := create_phone_loop_lt _ _ _ _ _ _ hp
      simp only [Option.some.injEq, Prod.mk.injEq] at h
      rw [← h.2]; omega
    · rename_i phone inp2 hp
      have h2 := create_phone_loop_lt _ _ _ _ _ _ hp
      split at h
      · simp at h
      · rename_i inp3 he
        have := create_email_loop_lt _ _ _ _ _ _ he
        simp only [Option.some.injEq, Prod.mk.injEq] at h
        rw [← h.2]; omega
      · rename_i email inp3 he
        have := create_email_loop_lt _ _ _ _ _ _ he
        simp only [Option.some.injEq, Prod.mk.injEq] at h
        rw [← h.2]; omega

theorem create_contact_lt {book : AddressBook} {inp : Stdin} {b' : AddressBook} {rest : Stdin}
    (h : create_contact book inp = some (b', rest)) : rest.length < inp.length := by
  rcases create_contact_cases h with ⟨hi, -⟩ | ⟨f, hi, -⟩
  · exact create_input_lt hi
  · exact create_input_lt hi

theorem edit_loop_lt (book : AddressBook) (target : Nat) : ∀ (fuel : Nat) (st : Scratch)
    (inp : Stdin) (b' : AddressBook) (rest : Stdin),
    edit_loop book target fuel st inp = some (b', rest) → rest.length < inp.length
  | 0, _, _, _, _, h => by simp [edit_loop] at h
  | fuel + 1, st, inp, b', rest, h => by
    unfold edit_loop at h
    split at h
    · simp at h
    · rename_i v inp1 hg
      have h1 := get_int_input_lt hg
      split at h
      · split at h
        · simp at h
        · rename_i inp2 hl
          have := edit_name_loop_lt _ _ _ _ _ _ hl
          simp only [Option.some.injEq, Prod.mk.injEq] at h
          rw [← h.2]; omega
        · rename_i st1 inp2 hl
          have h2 := edit_name_loop_lt _ _ _ _ _ _ hl
          have := edit_loop_lt book target fuel _ _ _ _ h
          omega
      · split at h
        · split at h
          · simp at h
          · rename_i inp2 hl
            have := edit_phone_loop_lt _ _ _ _ _ _ _ hl
            simp only [Option.some.injEq, Prod.mk.injEq] at h
            rw [← h.2]; omega
          · rename_i st1 inp2 hl
            have h2 := edit_phone_loop_lt _ _ _ _ _ _ _ hl
            have := edit_loop_lt book target fuel _ _ _ _ h
            omega
        · split at h
          · split at h
            · simp at h
            · rename_i inp2 hl
              have := edit_email_loop_lt _ _ _ _ _ _ _ hl
              simp only [Option.some.injEq, Prod.mk.injEq] at h
              rw [← h.2]; omega
            · rename_i st1 inp2 hl
              have h2 := edit_email_loop_lt _ _ _ _ _ _ _ hl
              have := edit_loop_lt book target fuel _ _ _ _ h
              omega
          · split at h
            · split at h
              · simp only [Option.some.injEq, Prod.mk.injEq] at h
                rw [← h.2]; exact h1
              · simp only [Option.some.injEq, Prod.mk.injEq] at h
                rw [← h.2]; exact h1
            · split at h
              · simp only [Option.some.injEq, Prod.mk.injEq] at h
                rw [← h.2]; exact h1
              · have := edit_loop_lt book target fuel _ _ _ _ h
                omega

theorem edit_contact_le {book : AddressBook} {inp : Stdin} {b' : AddressBook} {rest : Stdin}
    (h : edit_contact book inp = some (b', rest)) : rest.length ≤ inp.length := by
  unfold edit_contact at h
  split at h
  · simp only [Option.some.injEq, Prod.mk.injEq] at h
    rw [← h.2]
  · split at h
    · simp at h
    · rename_i inp1 hs
      have := search_contact_le hs
      simp only [Option.some.injEq, Prod.mk.injEq] at h
      rw [← h.2]; exact this
    · rename_i target inp1 hs
      have h1 := search_contact_le hs
      split at h
      · simp at h
      · have := edit_loop_lt _ _ _ _ _ _ _ h
        omega

theorem delete_loop_lt (book : AddressBook) (target : Nat) : ∀ (fuel : Nat) (a : Int)
    (inp : Stdin) (b' : AddressBook) (rest : Stdin),
    delete_loop book target fuel a inp = some (b', rest) → rest.length < inp.length
  | 0, _, _, _, _, h => by simp [delete_loop] at h
  | fuel + 1, a, inp, b', rest, h => by
    unfold delete_loop at h
    split at h
    · simp at h
    · rename_i c inp1 hc
      have h1 := scanf_c_lt hc
      split at h
      · simp at h
      · rename_i _ inp2 hg
        have h2 := getchar_lt hg
        split at h
        · split at h
          · simp only [Option.some.injEq, Prod.mk.injEq] at h
            rw [← h.2]; omega
          · split at h
            · have := delete_loop_lt book target fuel _ _ _ _ h
              omega
            · simp only [Option.some.injEq, Prod.mk.injEq] at h
              rw [← h.2]; omega
        · split at h
          · simp only [Option.some.injEq, Prod.mk.injEq] at h
            rw [← h.2]; omega
          · split at h
            · simp at h
            · rename_i _ inp3 ha
              have h3 := handle_attempt_le ha
              simp only [Option.some.injEq, Prod.mk.injEq] at h
              rw [← h.2]; omega
            · rename_i a1 inp3 ha
              have h3 := handle_attempt_le ha
              split at h
              · have := delete_loop_lt book target fuel _ _ _ _ h
                omega
              · simp only [Option.some.injEq, Prod.mk.injEq] at h
                rw [← h.2]; omega

/-- More fuel than pending characters never changes the result of the confirmation loop
of `delete_contact`. -/
theorem delete_loop_fuel (book : AddressBook) (target : Nat) : ∀ (f1 f2 : Nat) (a : Int)
    (inp : Stdin), inp.length < f1 → inp.length < f2 →
    delete_loop book target f1 a inp = delete_loop book target f2 a inp
  | 0, _, _, _, h, _ => absurd h (Nat.not_lt_zero _)
  | _ + 1, 0, _, _, _, h => absurd h (Nat.not_lt_zero _)
  | f1 + 1, f2 + 1, a, inp, h1, h2 => by
    unfold delete_loop
    cases hc : scanf_c inp with
    | none => rfl
    | some p =>
      obtain ⟨c, inp1⟩ := p
      have hl1 := scanf_c_lt hc
      simp only []
      cases hg : getchar inp1 with
      | none => rfl
      | some q =>
        obtain ⟨c2, inp2⟩ := q
        have hl2 := getchar_lt hg
        simp only []
        split
        · cases hsp : splice book.head target with
          | some rest => rfl
          | none =>
            simp only []
            split
            · rw [delete_loop_fuel book target f1 f2 a inp2 (by omega) (by omega)]
            · rfl
        · split
          · rfl
          · cases ha : handle_attempt a inp2 with
            | none => rfl
            | some q3 =>
              obtain ⟨ch, a1, inp3⟩ := q3
              have hl3 := handle_attempt_le ha
              cases ch with
              | CANCEL => rfl
              | TRY_AGAIN =>
                simp only []
                rw [delete_loop_fuel book target f1 f2 a1 inp3 (by omega) (by omega)]

theorem delete_contact_le {book : AddressBook} {inp : Stdin} {b' : AddressBook} {rest : Stdin}
    (h : delete_contact book inp = some (b', rest)) : rest.length ≤ inp.length := by
  unfold delete_contact at h
  split at h
  · simp only [Option.some.injEq, Prod.mk.injEq] at h
    rw [← h.2]
  · split at h
    · simp at h
    · rename_i inp1 hs
      have := search_contact_le hs
      simp only [Option.some.injEq, Prod.mk.injEq] at h
      rw [← h.2]; exact this
    · rename_i target inp1 hs
      have h1 := search_contact_le hs
      have := delete_loop_lt _ _ _ _ _ _ _ h
      omega

/-- More fuel than pending characters never changes the result of the menu loop of
`main`. -/
theorem main_loop_fuel : ∀ (f1 f2 : Nat) (book : AddressBook) (inp : Stdin),
    inp.length < f1 → inp.length < f2 → main_loop f1 book inp = main_loop f2 book inp
  | 0, _, _, _, h, _ => absurd h (Nat.not_lt_zero _)
  | _ + 1, 0, _, _, _, h => absurd h (Nat.not_lt_zero _)
  | f1 + 1, f2 + 1, book, inp, h1, h2 => by
    unfold main_loop
    cases hg : get_int_input inp with
    | none => rfl
    | some p =>
      obtain ⟨v, inp1⟩ := p
      have hl1 := get_int_input_lt hg
      simp only []
      split
      · cases hc : create_contact book inp1 with
        | none => rfl
        | some q =>
          obtain ⟨b1, inp2⟩ := q
          have := create_contact_lt hc
          simp only []
          rw [main_loop_fuel f1 f2 b1 inp2 (by omega) (by omega)]
      · split
        · cases hc : search_contact book inp1 with
          | none => rfl
          | some q =>
            obtain ⟨x, inp2⟩ := q
            have := search_contact_le hc
            simp only []
            rw [main_loop_fuel f1 f2 book inp2 (by omega) (by omega)]
        · split
          · cases hc : edit_contact book inp1 with
            | none => rfl
            | some q =>
              obtain ⟨b1, inp2⟩ := q
              have := edit_contact_le hc
              simp only []
              rw [main_loop_fuel f1 f2 b1 inp2 (by omega) (by omega)]
          · split
            · cases hc : delete_contact book inp1 with
              | none => rfl
              | some q =>
                obtain ⟨b1, inp2⟩ := q
                have := delete_contact_le hc
                simp only []
                rw [main_loop_fuel f1 f2 b1 inp2 (by omega) (by omega)]
            · split
              · rw [main_loop_fuel f1 f2 book inp1 (by omega) (by omega)]
              · split
                · rw [main_loop_fuel f1 f2 book inp1 (by omega) (by omega)]
                · split
                  · rfl
                  · rw [main_loop_fuel f1 f2 book inp1 (by omega) (by omega)]

/-! ## The validators meet their specification -/

/-- C1: `is_valid_email s` is VALID exactly when `s` is non-empty, has no upper-case
letter, contains an `@` and a `.`, its last `.` is not before its first `@`, and an
alphanumeric character stands right before the first `@` and right before the last `.`;
the empty string gives INVALID_EMPTY and every other string INVALID_FORMAT.  The four
examples of the specification evaluate as stated. -/
theorem is_valid_email_spec (s : CString) :
    (is_valid_email s = VALID ↔ EmailWellFormed s) ∧
    ((s = [] ∧ is_valid_email s = INVALID_EMPTY) ∨
      (EmailWellFormed s ∧ is_valid_email s = VALID) ∨
      (s ≠ [] ∧ ¬ EmailWellFormed s ∧ is_valid_email s = INVALID_FORMAT)) ∧
    is_valid_email "a@b.c".toList = VALID ∧
    is_valid_email "A@b.c".toList = INVALID_FORMAT ∧
    is_valid_email "ab.com".toList = INVALID_FORMAT ∧
    is_valid_email "@b.com".toList = INVALID_FORMAT := by
  refine ⟨is_valid_email_valid_iff s, ?_, by decide, by decide, by decide, by decide⟩
  rcases is_valid_email_cases s with ⟨h1, h2⟩ | ⟨h1, h2 | h2⟩
  · exact Or.inl ⟨h1, h2⟩
  · exact Or.inr (Or.inl ⟨(is_valid_email_valid_iff s).1 h2, h2⟩)
  · refine Or.inr (Or.inr ⟨h1, fun hw => ?_, h2⟩)
    rw [(is_valid_email_valid_iff s).2 hw] at h2
    exact absurd h2 (by decide)

/-- C2, as the claim states it, fails: `"a@.c"` has no upper-case letter, its first
`@` follows the alphanumeric `a` and is followed by a `.`, it has no other `.`, and
`is_valid_email` returns INVALID_FORMAT for it, not VALID. -/
theorem is_valid_email_only_dot_after_at_rejected :
    DotAfterAt "a@.c".toList 1 ∧
    (∀ j, "a@.c".toList[j]? = some '.' → j = 1 + 1) ∧
    is_valid_email "a@.c".toList = INVALID_FORMAT ∧
    is_valid_email "a@.c".toList ≠ VALID := by
  refine ⟨⟨by decide, ⟨by decide, by decide⟩, ⟨by decide, 'a', by decide, by decide⟩, by decide⟩,
    ?_, by decide, by decide⟩
  intro j hj
  match j, hj with
  | 0, hj => exact absurd hj (by decide)
  | 1, hj => exact absurd hj (by decide)
  | 2, _ => rfl
  | 3, hj => exact absurd hj (by decide)
  | j + 4, hj => simp at hj

/-- C2, amended: for a string with no upper-case letter whose first `@` (at `a`) has an
alphanumeric character right before it and a `.` right after it, `is_valid_email`
returns VALID exactly when the character right before the last `.` (at `d`) is
alphanumeric, and INVALID_FORMAT otherwise; when the `.` after the `@` is the last
one (`d = a + 1`), the result is INVALID_FORMAT. -/
theorem is_valid_email_dot_after_at (s : CString) (a d : Nat)
    (h : DotAfterAt s a) (hd : IsLast s '.' d) :
    (is_valid_email s = VALID ↔ AlnumAt s (d - 1)) ∧
    ((AlnumAt s (d - 1) ∧ is_valid_email s = VALID) ∨
      (¬ AlnumAt s (d - 1) ∧ is_valid_email s = INVALID_FORMAT)) ∧
    (d = a + 1 → is_valid_email s = INVALID_FORMAT) := by
  obtain ⟨hu, hF, ⟨ha0, haA⟩, hdot⟩ := h
  have hne : s ≠ [] := by
    intro e; rw [e] at hdot; simp at hdot
  have hda : a + 1 ≤ d := by
    by_contra hc
    exact hd.2 (a + 1) (by omega) hdot
  have hiff : is_valid_email s = VALID ↔ AlnumAt s (d - 1) := by
    rw [is_valid_email_valid_iff]
    constructor
    · rintro ⟨-, -, -, -, a2, d2, -, hL2, -, -, -, hA⟩
      rw [isLast_unique hd hL2]; exact hA
    · intro hA
      exact ⟨hne, hu, List.getElem?_mem hF.1, List.getElem?_mem hd.1, a, d, hF, hd,
        by omega, ⟨ha0, haA⟩, ⟨by omega, hA⟩⟩
  have hcases : (AlnumAt s (d - 1) ∧ is_valid_email s = VALID) ∨
      (¬ AlnumAt s (d - 1) ∧ is_valid_email s = INVALID_FORMAT) := by
    by_cases hA : AlnumAt s (d - 1)
    · exact Or.inl ⟨hA, hiff.2 hA⟩
    · refine Or.inr ⟨hA, ?_⟩
      rcases is_valid_email_cases s with ⟨h1, -⟩ | ⟨-, h2 | h2⟩
      · exact absurd h1 hne
      · exact absurd (hiff.1 h2) hA
      · exact h2
  refine ⟨hiff, hcases, fun e => ?_⟩
  rcases hcases with ⟨⟨c, hc, hal⟩, -⟩ | ⟨-, h2⟩
  · subst e
    simp only [Nat.add_sub_cancel] at hc
    rw [hF.1] at hc
    cases hc
    exact absurd hal (by decide)
  · exact h2

/-- Witness for C2 amended: `"a@.b.c"` has a `.` right after its `@` and is VALID. -/
theorem is_valid_email_dot_after_at_witness :
    DotAfterAt "a@.b.c".toList 1 ∧ IsLast "a@.b.c".toList '.' 4 ∧
    is_valid_email "a@.b.c".toList = VALID := by
  have h1 : DotAfterAt "a@.b.c".toList 1 :=
    ⟨by decide, ⟨by decide, by decide⟩, ⟨by decide, 'a', by decide, by decide⟩, by decide⟩
  have h2 : IsLast "a@.b.c".toList '.' 4 := by
    refine ⟨by decide, fun j hj => ?_⟩
    match j, hj with
    | 5, _ => decide
    | j + 6, _ => simp
  exact ⟨h1, h2,
    ((is_valid_email_dot_after_at "a@.b.c".toList 1 4 h1 h2).1).2 ⟨'b', by decide, by decide⟩⟩

/-- C3: `is_valid_phone` gives INVALID_EMPTY for length 0, else INVALID_LENGTH when the
length is not 10 (whatever the characters), else INVALID_CHARACTERS when one of the 10
characters is not a digit, else VALID; so it is VALID exactly for 10 digits. -/
theorem is_valid_phone_spec (s : CString) :
    ((s.length = 0 ∧ is_valid_phone s = INVALID_EMPTY) ∨
      (s.length ≠ 0 ∧ s.length ≠ 10 ∧ is_valid_phone s = INVALID_LENGTH) ∨
      (s.length = 10 ∧ (∃ c ∈ s, isdigit c = false) ∧ is_valid_phone s = INVALID_CHARACTERS) ∨
      (s.length = 10 ∧ (∀ c ∈ s, isdigit c = true) ∧ is_valid_phone s = VALID)) ∧
    (is_valid_phone s = VALID ↔ s.length = 10 ∧ ∀ c ∈ s, isdigit c = true) ∧
    is_valid_phone "12345".toList = INVALID_LENGTH ∧
    is_valid_phone "abc".toList = INVALID_LENGTH := by
  have key : (s.length = 0 ∧ is_valid_phone s = INVALID_EMPTY) ∨
      (s.length ≠ 0 ∧ s.length ≠ 10 ∧ is_valid_phone s = INVALID_LENGTH) ∨
      (s.length = 10 ∧ (∃ c ∈ s, isdigit c = false) ∧ is_valid_phone s = INVALID_CHARACTERS) ∨
      (s.length = 10 ∧ (∀ c ∈ s, isdigit c = true) ∧ is_valid_phone s = VALID) := by
    unfold is_valid_phone
    by_cases h0 : s.length = 0
    · left; simp [h0]
    · by_cases h10 : s.length = 10
      · right; right
        rw [if_neg h0, if_neg (by simpa using h10),
          is_valid_phone_loop_eq s 10 0 (by omega), List.drop_zero]
        by_cases hall : s.all isdigit = true
        · right
          exact ⟨h10, by simpa using hall, by simp [hall]⟩
        · left
          refine ⟨h10, ?_, by simp [hall]⟩
          simpa using hall
      · right; left
        exact ⟨h0, h10, by simp [h0, h10]⟩
  refine ⟨key, ?_, by decide, by decide⟩
  rcases key with ⟨h, e⟩ | ⟨h, h2, e⟩ | ⟨h, ⟨c, hc, hd⟩, e⟩ | ⟨h, h2, e⟩
  · rw [e]; constructor
    · intro x; exact absurd x (by decide)
    · rintro ⟨x, -⟩; omega
  · rw [e]; constructor
    · intro x; exact absurd x (by decide)
    · rintro ⟨x, -⟩; omega
  · rw [e]; constructor
    · intro x; exact absurd x (by decide)
    · rintro ⟨-, x⟩
      rw [x c hc] at hd; exact absurd hd (by decide)
  · rw [e]; exact ⟨fun _ => ⟨h, h2⟩, fun _ => rfl⟩

/-- C4: `is_valid_name s` is VALID exactly when `s` is non-empty and each character is
a letter or a white-space character; the empty string gives INVALID_EMPTY and every
other string INVALID_CHARACTERS. -/
theorem is_valid_name_spec (s : CString) :
    (is_valid_name s = VALID ↔
      s ≠ [] ∧ ∀ c ∈ s, isalpha c = true ∨ isspace c = true) ∧
    ((s = [] ∧ is_valid_name s = INVALID_EMPTY) ∨
      (s ≠ [] ∧ (∀ c ∈ s, isalpha c = true ∨ isspace c = true) ∧ is_valid_name s = VALID) ∨
      (s ≠ [] ∧ (∃ c ∈ s, isalpha c = false ∧ isspace c = false) ∧
        is_valid_name s = INVALID_CHARACTERS)) := by
  have key : (s = [] ∧ is_valid_name s = INVALID_EMPTY) ∨
      (s ≠ [] ∧ (∀ c ∈ s, isalpha c = true ∨ isspace c = true) ∧ is_valid_name s = VALID) ∨
      (s ≠ [] ∧ (∃ c ∈ s, isalpha c = false ∧ isspace c = false) ∧
        is_valid_name s = INVALID_CHARACTERS) := by
    unfold is_valid_name
    by_cases h0 : s = []
    · left; simp [h0]
    · right
      have hl : s.length ≠ 0 := fun e => h0 (List.length_eq_zero.1 e)
      rw [if_neg hl, is_valid_name_loop_eq]
      by_cases hall : s.all (fun c => isalpha c || isspace c) = true
      · left
        exact ⟨h0, by simpa using hall, by simp [hall]⟩
      · right
        refine ⟨h0, ?_, by simp [hall]⟩
        simpa using hall
  refine ⟨?_, key⟩
  rcases key with ⟨h, e⟩ | ⟨h, h2, e⟩ | ⟨h, ⟨c, hc, hd⟩, e⟩
  · rw [e]; constructor
    · intro x; exact absurd x (by decide)
    · rintro ⟨x, -⟩; exact absurd h x
  · rw [e]; exact ⟨fun _ => ⟨h, h2⟩, fun _ => rfl⟩
  · rw [e]; constructor
    · intro x; exact absurd x (by decide)
    · rintro ⟨-, x⟩
      rcases x c hc with y | y
      · rw [hd.1] at y; exact absurd y (by decide)
      · rw [hd.2] at y; exact absurd y (by decide)

/-- C5: `is_phone_duplicate` returns INVALID_DUPLICATE exactly when a contact of the
store has a phone equal to the candidate, and VALID otherwise; `is_email_duplicate`
does the same on the email field, comparing the strings exactly. -/
theorem is_duplicate_spec (book : AddressBook) (cand : CString) :
    (is_phone_duplicate cand book = INVALID_DUPLICATE ↔ ∃ c ∈ book.head, c.phone = cand) ∧
    (is_phone_duplicate cand book = VALID ↔ ¬ ∃ c ∈ book.head, c.phone = cand) ∧
    (is_email_duplicate cand book = INVALID_DUPLICATE ↔ ∃ c ∈ book.head, c.email = cand) ∧
    (is_email_duplicate cand book = VALID ↔ ¬ ∃ c ∈ book.head, c.email = cand) ∧
    is_email_duplicate "A@b.c".toList ⟨[⟨1, "x".toList, "0123456789".toList, "a@b.c".toList⟩], 1, 2⟩
      = VALID := by
  unfold is_phone_duplicate is_email_duplicate
  refine ⟨?_, ?_, ?_, ?_, by decide⟩
  · rcases is_phone_duplicate_loop_eq cand book.head with ⟨h, e⟩ | ⟨h, e⟩
    · rw [e]; exact ⟨fun _ => h, fun _ => rfl⟩
    · rw [e]; constructor
      · intro x; exact absurd x (by decide)
      · rintro ⟨c, hc, x⟩; exact absurd x (h c hc)
  · rcases is_phone_duplicate_loop_eq cand book.head with ⟨h, e⟩ | ⟨h, e⟩
    · rw [e]; constructor
      · intro x; exact absurd x (by decide)
      · intro x; exact absurd h x
    · rw [e]; exact ⟨fun _ ⟨c, hc, x⟩ => h c hc x, fun _ => rfl⟩
  · rcases is_email_duplicate_loop_eq cand book.head with ⟨h, e⟩ | ⟨h, e⟩
    · rw [e]; exact ⟨fun _ => h, fun _ => rfl⟩
    · rw [e]; constructor
      · intro x; exact absurd x (by decide)
      · rintro ⟨c, hc, x⟩; exact absurd x (h c hc)
  · rcases is_email_duplicate_loop_eq cand book.head with ⟨h, e⟩ | ⟨h, e⟩
    · rw [e]; constructor
      · intro x; exact absurd x (by decide)
      · intro x; exact absurd h x
    · rw [e]; exact ⟨fun _ ⟨c, hc, x⟩ => h c hc x, fun _ => rfl⟩

/-! ## The store: identifiers, count, uniqueness -/

/-- A store reached by creating `al`, creating `bo`, then deleting `al`. -/
theorem created_example : Created 2 ⟨[bo], 1, 3⟩ := by
  have c0 : Created 0 (initialize_book ⟨[], 0, 0⟩) := Created.init _
  have c1 : Created 1 ⟨[al], 1, 2⟩ :=
    Created.created "al\n0123456789\na@b.c\n".toList
      ⟨"al".toList, "0123456789".toList, "a@b.c".toList⟩ [] c0 (by decide) (by decide)
  have c2 : Created 2 ⟨[al, bo], 2, 3⟩ :=
    Created.created "bo\n1111111111\nb@b.c\n".toList
      ⟨"bo".toList, "1111111111".toList, "b@b.c".toList⟩ [] c1 (by decide) (by decide)
  exact Created.deleted "1\nal\ny\n".toList [] c2 (by decide)

/-- C6: in a store reached from an initialized one by creations, edits and deletions, of
which `k` creations stored a contact, the next creation that stores a contact appends
it with id `k + 1`.  Run through `main`: three creations give the ids 1, 2, 3, and
deleting the contact with id 2 before a fourth creation gives the ids 1, 3, 4. -/
theorem kth_create_assigns_id_k (k : Nat) (book : AddressBook) (inp : Stdin) (f : Fields)
    (r : Stdin) (b' : AddressBook) (h : Created k book)
    (hi : create_input book inp = some (some f, r))
    (hc : create_contact book inp = some (b', r)) :
    b'.head = book.head ++
      [{ id := (k : Int) + 1, name := f.name, phone := f.phone, email := f.email }] ∧
    Created (k + 1) b' ∧
    (main none script_three_creates).map (fun b => b.head.map (·.id)) = some [1, 2, 3] ∧
    (main none script_delete_then_create).map (fun b => b.head.map (·.id))
      = some [1, 3, 4] := by
  refine ⟨?_, Created.created inp f r h hi hc, by decide, by decide⟩
  rcases create_contact_cases hc with ⟨h1, -⟩ | ⟨f2, h2, rfl⟩
  · rw [hi] at h1; simp at h1
  · rw [hi] at h2
    simp only [Option.some.injEq, Prod.mk.injEq, and_true] at h2
    subst h2
    rw [create_store_eq, created_next_id h]

/-- Witness for C6: after creating `al` and `bo` and deleting `al`, the creation of `cy`
is the third one and gives it the id 3. -/
theorem kth_create_assigns_id_k_witness :
    Created 2 ⟨[bo], 1, 3⟩ ∧
    create_contact ⟨[bo], 1, 3⟩ "cy\n2222222222\nc@b.c\n".toList = some (⟨[bo, cy], 2, 4⟩, []) ∧
    (⟨[bo, cy], 2, 4⟩ : AddressBook).head = [bo] ++
      [{ id := ((2 : Nat) : Int) + 1, name := "cy".toList, phone := "2222222222".toList,
         email := "c@b.c".toList }] :=
  ⟨created_example, by decide,
    (kth_create_assigns_id_k 2 ⟨[bo], 1, 3⟩ "cy\n2222222222\nc@b.c\n".toList
      ⟨"cy".toList, "2222222222".toList, "c@b.c".toList⟩ [] ⟨[bo, cy], 2, 4⟩
      created_example (by decide) (by decide)).1⟩

/-- C7, where the code departs from it: `main` started on a `contacts.csv` holding the
contact with id 1, followed by one creation, ends with two contacts of id 1, since
`load_contacts_from_file` leaves `next_id` at 1. -/
theorem load_then_create_shares_id :
    load_contacts_from_file (initialize_book ⟨[], 0, 0⟩) (some file_bob) = some ⟨[bob], 1, 1⟩ ∧
    create_contact ⟨[bob], 1, 1⟩ "al\n0123456789\na@b.c\n".toList
      = some (⟨[bob, al], 2, 2⟩, []) ∧
    bob.id = al.id ∧
    main (some file_bob) "1\nal\n0123456789\na@b.c\n7\n".toList = some ⟨[bob, al], 2, 2⟩ ∧
    ¬ ((⟨[bob, al], 2, 2⟩ : AddressBook).head.map (·.id)).Nodup := by
  refine ⟨by decide, by decide, by decide, by decide, by decide⟩

/-- C8: `contact_count` equals the length of the list after `initialize`, and when it
does before a call of `create_contact`, `delete_contact` or `edit_contact` (on any
input, however the call ends) or of `load_contacts_from_file` on an empty store (on
any file), it does after the call; the load on an empty store always returns. -/
theorem contact_count_invariant (b0 book : AddressBook) (inp : Stdin) (file : Option File)
    (h : CountOk book) :
    CountOk (initialize_book b0) ∧
    (∀ b' r, create_contact book inp = some (b', r) → CountOk b') ∧
    (∀ b' r, delete_contact book inp = some (b', r) → CountOk b') ∧
    (∀ b' r, edit_contact book inp = some (b', r) → CountOk b') ∧
    (book.head = [] → ∃ b', load_contacts_from_file book file = some b' ∧ CountOk b') := by
  unfold CountOk at *
  refine ⟨by simp [initialize_book], ?_, ?_, ?_, ?_⟩
  · intro b' r hc
    rcases create_contact_cases hc with ⟨-, rfl⟩ | ⟨f, -, rfl⟩
    · exact h
    · rw [create_store_eq]; simp [h]
  · intro b' r hd
    rcases delete_contact_cases hd with rfl | ⟨t, ht, rfl⟩
    · exact h
    · simp only [List.length_eraseIdx_of_lt ht, h]
      omega
  · intro b' r he
    rcases edit_contact_cases he with rfl | ⟨t, node, temp, -, -, rfl⟩
    · exact h
    · simp [save_fields_length, h]
  · intro hh
    obtain ⟨loaded, hl⟩ := load_empty_appends book file hh
    refine ⟨_, hl, ?_⟩
    simp [h, hh]

/-- Witness for C8: from the store holding `al` and `bo`, a creation, a deletion and an
edit keep the count right, and so does a load that skips records. -/
theorem contact_count_invariant_witness :
    CountOk ⟨[al, bo], 2, 3⟩ ∧
    create_contact ⟨[al, bo], 2, 3⟩ "cy\n2222222222\nc@b.c\n".toList
      = some (⟨[al, bo, cy], 3, 4⟩, []) ∧
    CountOk ⟨[al, bo, cy], 3, 4⟩ ∧
    CountOk ⟨[], 0, 1⟩ ∧
    load_contacts_from_file ⟨[], 0, 1⟩ (some file_malformed) = some ⟨[bob], 1, 1⟩ := by
  have h1 : CountOk ⟨[al, bo], 2, 3⟩ := by unfold CountOk; decide
  have h2 : create_contact ⟨[al, bo], 2, 3⟩ "cy\n2222222222\nc@b.c\n".toList
      = some (⟨[al, bo, cy], 3, 4⟩, []) := by decide
  exact ⟨h1, h2,
    (contact_count_invariant ⟨[], 0, 0⟩ ⟨[al, bo], 2, 3⟩ "cy\n2222222222\nc@b.c\n".toList none
      h1).2.1 _ _ h2, by unfold CountOk; decide, by decide⟩

/-- C9: in every store reached from an initialized one by calls of `create_contact`,
`edit_contact` and `delete_contact`, the phones are pairwise distinct and the emails
are pairwise distinct. -/
theorem reachable_phones_emails_distinct (k : Nat) (book : AddressBook) (h : Created k book) :
    (book.head.map (·.phone)).Nodup ∧ (book.head.map (·.email)).Nodup := by
  have key : Distinct book := by
    induction h with
    | init b0 => exact ⟨by simp [initialize_book], by simp [initialize_book]⟩
    | created inp f r _ hi hc ih =>
      rcases create_contact_cases hc with ⟨h1, -⟩ | ⟨f2, h2, rfl⟩
      · rw [hi] at h1; simp at h1
      · have hv := create_input_valid h2
        exact distinct_create_store ih hv.2.1 hv.2.2
    | cancelled inp r _ hi hc ih =>
      rcases create_contact_cases hc with ⟨-, rfl⟩ | ⟨f2, h2, -⟩
      · exact ih
      · rw [hi] at h2; simp at h2
    | edited inp r _ he ih =>
      rcases edit_contact_cases he with rfl | ⟨t, node, temp, hn, hs, rfl⟩
      · exact ih
      · exact distinct_save_fields ih hn hs
    | deleted inp r _ hd ih =>
      rcases delete_contact_cases hd with rfl | ⟨t, -, rfl⟩
      · exact ih
      · exact distinct_eraseIdx t _ ih
  exact key

/-- Witness for C9: the store reached by creating `al` and `bo` and deleting `al`. -/
theorem reachable_phones_emails_distinct_witness :
    Created 2 ⟨[bo], 1, 3⟩ ∧
    ((⟨[bo], 1, 3⟩ : AddressBook).head.map (·.phone)).Nodup ∧
    ((⟨[bo], 1, 3⟩ : AddressBook).head.map (·.email)).Nodup :=
  ⟨created_example, reachable_phones_emails_distinct 2 ⟨[bo], 1, 3⟩ created_example⟩

/-- C10: when `create_contact` returns, either the creation was cancelled and the book
is unchanged, or the accepted fields were stored: the list is the original list
followed by the new contact with these fields and the id `next_id`, and
`contact_count` and `next_id` have each increased by 1.  Fields that pass the checks,
typed on three lines, are the ones stored. -/
theorem create_contact_appends (book : AddressBook) (inp : Stdin) (b' : AddressBook)
    (r : Stdin) (h : create_contact book inp = some (b', r))
    (name phone email : CString) (rest : Stdin)
    (hn : is_valid_name name = VALID) (hp : phone_status phone book = VALID)
    (he : email_status email book = VALID)
    (h1 : OneLine name) (h2 : OneLine phone) (h3 : OneLine email)
    (l1 : name.length ≤ 48) (l3 : email.length ≤ 48) :
    ((create_input book inp = some (none, r) ∧ b'.head = book.head ∧
        b'.contact_count = book.contact_count ∧ b'.next_id = book.next_id) ∨
      (∃ f, create_input book inp = some (some f, r) ∧
        b'.head = book.head ++
          [{ id := book.next_id, name := f.name, phone := f.phone, email := f.email }] ∧
        b'.contact_count = book.contact_count + 1 ∧ b'.next_id = book.next_id + 1)) ∧
    create_contact book (name ++ '\n' :: (phone ++ '\n' :: (email ++ '\n' :: rest))) =
      some ({ head := book.head ++
                [{ id := book.next_id, name := name, phone := phone, email := email }],
              contact_count := book.contact_count + 1,
              next_id := book.next_id + 1 }, rest) := by
  constructor
  · rcases create_contact_cases h with ⟨hi, rfl⟩ | ⟨f, hi, rfl⟩
    · exact Or.inl ⟨hi, rfl, rfl, rfl⟩
    · rw [create_store_eq]
      exact Or.inr ⟨f, hi, rfl, rfl, rfl⟩
  · unfold create_contact
    rw [create_input_accepts book name phone email rest hn hp he h1 h2 h3 l1 l3]
    simp only [create_store_eq]

/-- Witness for C10: in the store holding `al`, a creation cancelled at the name prompt
(the answer 2 to "try again or cancel") changes nothing, and the three lines of `bo`
store `bo` after `al`. -/
theorem create_contact_appends_witness :
    create_contact ⟨[al], 1, 2⟩ "b0\n2\n".toList = some (⟨[al], 1, 2⟩, []) ∧
    create_input ⟨[al], 1, 2⟩ "b0\n2\n".toList = some (none, []) ∧
    create_contact ⟨[al], 1, 2⟩
        ("bo".toList ++ '\n' :: ("1111111111".toList ++ '\n' :: ("b@b.c".toList ++ '\n' :: [])))
      = some (⟨[al] ++ [bo], 1 + 1, 2 + 1⟩, []) := by
  have hc : create_contact ⟨[al], 1, 2⟩ "b0\n2\n".toList = some (⟨[al], 1, 2⟩, []) := by decide
  have hw := create_contact_appends ⟨[al], 1, 2⟩ "b0\n2\n".toList ⟨[al], 1, 2⟩ [] hc
    "bo".toList "1111111111".toList "b@b.c".toList []
    (by decide) (by decide) (by decide)
    ⟨by decide, by decide⟩ ⟨by decide, by decide⟩ ⟨by decide, by decide⟩
    (by decide) (by decide)
  exact ⟨hc, by decide, hw.2⟩

/-! ## Deletion, the header of the file, `initialize` -/

theorem splice_none : ∀ (l : List Contact) (t : Nat), l.length ≤ t → splice l t = none
  | [], _, _ => rfl
  | _ :: _, 0, h => by simp at h
  | _ :: xs, t + 1, h => by
    have := splice_none xs t (by simpa using h)
    simp [splice, this]

theorem splice_some : ∀ (l : List Contact) (t : Nat), t < l.length →
    splice l t = some (l.eraseIdx t)
  | [], _, h => by simp at h
  | _ :: _, 0, _ => rfl
  | _ :: xs, t + 1, h => by
    have := splice_some xs t (by simpa using h)
    simp [splice, this]

/-- When `delete_contact` returns a changed book, the contact removed is the one that
`search_contact` returned. -/
theorem delete_contact_selected {book : AddressBook} {inp : Stdin} {b' : AddressBook}
    {r : Stdin} (h : delete_contact book inp = some (b', r)) :
    b' = book ∨ ∃ target inp1, search_contact book inp = some (some target, inp1) ∧
      target < book.head.length ∧
      b' = { book with head := book.head.eraseIdx target,
                       contact_count := book.contact_count - 1 } := by
  unfold delete_contact at h
  split at h
  · simp only [Option.some.injEq, Prod.mk.injEq] at h
    exact Or.inl h.1.symm
  · split at h
    · simp at h
    · simp only [Option.some.injEq, Prod.mk.injEq] at h
      exact Or.inl h.1.symm
    · rename_i target inp1 hsrch
      rcases delete_loop_cases book target _ _ _ _ _ h with e | ⟨rest, hsp, e⟩
      · exact Or.inl e
      · obtain ⟨hlt, rfl⟩ := splice_eq _ _ _ hsp
        exact Or.inr ⟨target, inp1, hsrch, hlt, e⟩

theorem skip_space_cons_of_not_space {c : Char} (cs : List Char) (h : isspace c = false) :
    skip_space (c :: cs) = c :: cs := by
  simp [skip_space, h]

theorem takeWhile_isdigit_nil_iff (cs : List Char) :
    cs.takeWhile isdigit = [] ↔ ¬ ∃ d rest, cs = d :: rest ∧ isdigit d = true := by
  cases cs with
  | nil => simp
  | cons d rest =>
    by_cases hd : isdigit d = true
    · simp [List.takeWhile, hd]
    · simp [List.takeWhile, hd]

/-- The count of the file cannot be parsed exactly when the header is non-numeric. -/
theorem scanf_d_none_iff (f : File) : (scanf_d f).1 = none ↔ NonNumericHeader f := by
  unfold scanf_d NonNumericHeader
  cases hs : skip_space f with
  | nil => simp
  | cons c cs =>
    simp only []
    by_cases h1 : c = '-'
    · subst h1
      simp only [if_true, true_or, true_and]
      by_cases ht : List.takeWhile isdigit cs = []
      · simp only [ht, if_true, true_iff]
        exact ⟨by decide, (takeWhile_isdigit_nil_iff cs).1 ht⟩
      · simp only [ht, if_false]
        constructor
        · intro h; cases h
        · intro h; exact absurd ((takeWhile_isdigit_nil_iff cs).2 h.2) ht
    · by_cases h2 : c = '+'
      · subst h2
        simp only [h1, if_false, if_true, or_true, true_and]
        by_cases ht : List.takeWhile isdigit cs = []
        · simp only [ht, if_true, true_iff]
          exact ⟨by decide, (takeWhile_isdigit_nil_iff cs).1 ht⟩
        · simp only [ht, if_false]
          constructor
          · intro h; cases h
          · intro h; exact absurd ((takeWhile_isdigit_nil_iff cs).2 h.2) ht
      · simp only [h1, h2, if_false, false_or, false_and, not_false_eq_true, and_true]
        by_cases hd : isdigit c = true
        · simp [List.takeWhile, hd]
        · simp only [Bool.not_eq_true] at hd
          simp [List.takeWhile, hd]

/-- C11: when `delete_contact` returns with the book changed, the list is the original
one without the contact that `search_contact` returned, the other contacts keeping
their order and values, `contact_count` is one less and `next_id` is unchanged; and on
the answer `y` or `Y` the confirmation loop removes the target, be it the first, a
middle or the last contact. -/
theorem delete_contact_removes_selected (book : AddressBook) (inp : Stdin)
    (b' : AddressBook) (r : Stdin) (h : delete_contact book inp = some (b', r))
    (target : Nat) (c sep : Char) (rest : Stdin) (fuel : Nat) (a : Int)
    (ht : target < book.head.length) (hc : c = 'y' ∨ c = 'Y') :
    (b' = book ∨ ∃ t inp1, search_contact book inp = some (some t, inp1) ∧
        t < book.head.length ∧
        b'.head = book.head.take t ++ book.head.drop (t + 1) ∧
        b'.contact_count = book.contact_count - 1 ∧ b'.next_id = book.next_id) ∧
    delete_loop book target (fuel + 1) a (c :: sep :: rest) =
      some ({ head := book.head.take target ++ book.head.drop (target + 1),
              contact_count := book.contact_count - 1,
              next_id := book.next_id }, rest) ∧
    delete_contact ⟨[al, bo, cy], 3, 4⟩ "1\nal\ny\n".toList = some (⟨[bo, cy], 2, 4⟩, []) ∧
    delete_contact ⟨[al, bo, cy], 3, 4⟩ "1\nbo\ny\n".toList = some (⟨[al, cy], 2, 4⟩, []) ∧
    delete_contact ⟨[al, bo, cy], 3, 4⟩ "1\ncy\ny\n".toList = some (⟨[al, bo], 2, 4⟩, []) := by
  refine ⟨?_, ?_, by decide, by decide, by decide⟩
  · rcases delete_contact_selected h with e | ⟨t, inp1, hs, hlt, e⟩
    · exact Or.inl e
    · refine Or.inr ⟨t, inp1, hs, hlt, ?_, ?_, ?_⟩
      · rw [e]; exact List.eraseIdx_eq_take_drop_succ _ _
      · rw [e]
      · rw [e]
  · have hsp : isspace c = false := by
      rcases hc with rfl | rfl <;> decide
    unfold delete_loop
    simp only [scanf_c, skip_space_cons_of_not_space _ hsp, getchar, hc, if_true,
      splice_some _ _ ht, List.eraseIdx_eq_take_drop_succ]

/-- Witness for C11: the deletion of `bo`, found by name and confirmed, in the store
holding `al`, `bo` and `cy`. -/
theorem delete_contact_removes_selected_witness :
    delete_contact ⟨[al, bo, cy], 3, 4⟩ "1\nbo\ny\n".toList = some (⟨[al, cy], 2, 4⟩, []) ∧
    delete_loop ⟨[al, bo, cy], 3, 4⟩ 1 1 0 ('y' :: '\n' :: []) =
      some (⟨[al] ++ [cy], 3 - 1, 4⟩, []) := by
  have h : delete_contact ⟨[al, bo, cy], 3, 4⟩ "1\nbo\ny\n".toList
      = some (⟨[al, cy], 2, 4⟩, []) := by decide
  exact ⟨h, (delete_contact_removes_selected ⟨[al, bo, cy], 3, 4⟩ "1\nbo\ny\n".toList
    ⟨[al, cy], 2, 4⟩ [] h 1 'y' '\n' [] 0 0 (by decide) (Or.inl rfl)).2.1⟩

/-- C12: for a target that is not a node of the list, the splice loop of
`delete_contact` finds no match, and however the confirmation loop ends the book is
returned as it was: same list, same `contact_count`. -/
theorem delete_missing_target_unchanged (book : AddressBook) (target : Nat)
    (h : book.head.length ≤ target) :
    splice book.head target = none ∧
    ∀ fuel a inp b' r, delete_loop book target fuel a inp = some (b', r) → b' = book := by
  have hs := splice_none book.head target h
  refine ⟨hs, fun fuel a inp b' r hd => ?_⟩
  rcases delete_loop_cases book target fuel a inp b' r hd with e | ⟨rest, hsp, -⟩
  · exact e
  · rw [hs] at hsp; cases hsp

/-- Witness for C12: in the store holding `al`, a target beyond the list is not removed by
the answer `y`; the loop asks again and returns on `n` with the book as it was. -/
theorem delete_missing_target_unchanged_witness :
    splice (⟨[al], 1, 2⟩ : AddressBook).head 5 = none ∧
    delete_loop ⟨[al], 1, 2⟩ 5 5 0 "y\nn\n".toList = some (⟨[al], 1, 2⟩, []) := by
  have hw := delete_missing_target_unchanged ⟨[al], 1, 2⟩ 5 (by decide)
  exact ⟨hw.1, by decide⟩

/-- C18: when the header of the file is non-numeric, `load_contacts_from_file` returns
the book as it was: same list, same `contact_count`, same `next_id`. -/
theorem load_non_numeric_header_unchanged (book : AddressBook) (f : File)
    (h : NonNumericHeader f) :
    (scanf_d f).1 = none ∧ load_contacts_from_file book (some f) = some book := by
  have hn := (scanf_d_none_iff f).2 h
  refine ⟨hn, ?_⟩
  unfold load_contacts_from_file fscanf_count
  cases hs : scanf_d f with
  | mk v rest =>
    rw [hs] at hn
    simp only at hn
    subst hn
    simp only [hs]

/-- Witness for C18: a file whose first line is `abc`, loaded into the store holding
`al`. -/
theorem load_non_numeric_header_unchanged_witness :
    NonNumericHeader "abc\n1,bob,1234567890,b@x.y\n".toList ∧
    load_contacts_from_file ⟨[al], 1, 2⟩ (some "abc\n1,bob,1234567890,b@x.y\n".toList)
      = some ⟨[al], 1, 2⟩ := by
  have h : NonNumericHeader "abc\n1,bob,1234567890,b@x.y\n".toList :=
    (scanf_d_none_iff _).1 (by decide)
  exact ⟨h, (load_non_numeric_header_unchanged ⟨[al], 1, 2⟩ _ h).2⟩

/-- C20: whatever the book held before, `initialize` leaves an empty list,
`contact_count` 0 and `next_id` 1, as the test `test_initialize.c` asserts for a book
filled with garbage. -/
theorem initialize_resets (book : AddressBook) :
    (initialize_book book).head = [] ∧ (initialize_book book).contact_count = 0 ∧
    (initialize_book book).next_id = 1 ∧
    initialize_book ⟨[bob, bob], 123, 456⟩ = ⟨[], 0, 1⟩ := by
  refine ⟨?_, ?_, ?_, ?_⟩
  · rfl
  · rfl
  · rfl
  · rfl

/-! ## Search and edit -/

theorem search_cond_iff {criterion : Int} (q : CString) (c : Contact)
    (hc : criterion = 1 ∨ criterion = 2 ∨ criterion = 3) :
    ((criterion = 1 ∧ q = c.name) ∨ (criterion = 2 ∧ q = c.phone) ∨
      (criterion = 3 ∧ q = c.email)) ↔ chosen_field criterion c = q := by
  unfold chosen_field
  rcases hc with rfl | rfl | rfl
  · simp [eq_comm]
  · simp [eq_comm]
  · simp [eq_comm]

/-- Read through the positions it holds, the result of the scan is the list of the
matching contacts. -/
theorem search_matches_filter {criterion : Int} (q : CString)
    (hc : criterion = 1 ∨ criterion = 2 ∨ criterion = 3) :
    ∀ (l pre : List Contact),
    (search_matches criterion q l pre.length).filterMap (fun i => (pre ++ l)[i]?) =
      l.filter (fun c => decide (chosen_field criterion c = q))
  | [], _ => by simp [search_matches]
  | y :: ys, pre => by
    have ih := search_matches_filter q hc ys (pre ++ [y])
    simp only [List.length_append, List.length_singleton, List.append_assoc,
      List.singleton_append] at ih
    unfold search_matches
    by_cases hm : chosen_field criterion y = q
    · rw [if_pos ((search_cond_iff q y hc).2 hm)]
      simp only [List.filterMap_cons, List.getElem?_append_right (Nat.le_refl _),
        Nat.sub_self, List.getElem?_cons_zero, List.filter_cons, hm, decide_True, if_true]
      rw [ih]
    · rw [if_neg (fun h => hm ((search_cond_iff q y hc).1 h))]
      simp only [List.filter_cons, hm, decide_False]
      rw [ih]
      rfl

theorem search_matches_sorted (criterion : Int) (q : CString) : ∀ (l : List Contact) (i : Nat),
    (search_matches criterion q l i).Pairwise (· < ·)
  | [], _ => by simp [search_matches]
  | y :: ys, i => by
    unfold search_matches
    split
    · refine List.pairwise_cons.2 ⟨fun x hx => ?_, search_matches_sorted criterion q ys (i + 1)⟩
      have := search_matches_bound criterion q ys (i + 1) x hx
      omega
    · exact search_matches_sorted criterion q ys (i + 1)

theorem search_matches_length (criterion : Int) (q : CString) : ∀ (l : List Contact) (i : Nat),
    (search_matches criterion q l i).length ≤ l.length
  | [], _ => by simp [search_matches]
  | y :: ys, i => by
    have := search_matches_length criterion q ys (i + 1)
    unfold search_matches
    split
    · simp only [List.length_cons]; omega
    · simp only [List.length_cons]; omega

/-- With room for the matches still to come, every write of the scan is inside the
array. -/
theorem search_scan_in_bounds (capacity : Int) (criterion : Int) (q : CString) :
    ∀ (l : List Contact) (i matched_count : Nat),
    (matched_count : Int) + (l.length : Int) ≤ capacity →
    search_scan capacity criterion q l i matched_count = some (search_matches criterion q l i)
  | [], _, _, _ => by simp [search_scan, search_matches]
  | y :: ys, i, m, h => by
    simp only [List.length_cons, Nat.cast_succ] at h
    unfold search_scan search_matches
    split
    · have hm : (m : Int) < capacity := by omega
      rw [if_pos hm, search_scan_in_bounds capacity criterion q ys (i + 1) (m + 1)
        (by push_cast; omega)]
    · exact search_scan_in_bounds capacity criterion q ys (i + 1) m (by omega)

theorem save_fields_getElem (temp : Contact) : ∀ (l : List Contact) (t j : Nat),
    (save_fields temp l t)[j]? =
      if j = t then
        l[t]?.map (fun node => { node with name := temp.name, phone := temp.phone,
                                           email := temp.email })
      else l[j]?
  | [], _, _ => by simp [save_fields]
  | x :: xs, 0, 0 => by simp [save_fields]
  | x :: xs, 0, j + 1 => by simp [save_fields]
  | x :: xs, t + 1, 0 => by simp [save_fields]
  | x :: xs, t + 1, j + 1 => by
    have := save_fields_getElem temp xs t j
    simp only [save_fields, List.getElem?_cons_succ, this]
    by_cases h : j = t
    · simp [h]
    · simp [h]

/-- When `edit_contact` returns a changed book, the node written is the one that
`search_contact` returned. -/
theorem edit_contact_selected {book : AddressBook} {inp : Stdin} {b' : AddressBook}
    {r : Stdin} (h : edit_contact book inp = some (b', r)) :
    b' = book ∨ ∃ target inp1 node temp, search_contact book inp = some (some target, inp1) ∧
      book.head[target]? = some node ∧ Staged book node temp ∧
      b' = { book with head := save_fields temp book.head target } := by
  unfold edit_contact at h
  split at h
  · simp only [Option.some.injEq, Prod.mk.injEq] at h
    exact Or.inl h.1.symm
  · split at h
    · simp at h
    · simp only [Option.some.injEq, Prod.mk.injEq] at h
      exact Or.inl h.1.symm
    · rename_i target inp1 hsrch
      split at h
      · simp at h
      · rename_i node hn
        rcases edit_loop_cases book target node _ _ _ _ _
            ⟨rfl, Or.inl rfl, Or.inl rfl, Or.inl rfl⟩ h with e | ⟨temp, hs, e⟩
        · exact Or.inl e
        · exact Or.inr ⟨target, inp1, node, temp, hsrch, hn, hs, e⟩

/-- C13: for a criterion 1 (name), 2 (phone) or 3 (email) and any query, the positions
collected by the scan of `search_contact` are, in increasing order, the positions of
the contacts whose chosen field equals the query, so that the matches are the
sub-sequence of these contacts in store order; there are at most as many as the list
is long, and when `contact_count` is the length of the list every write into
`matched_nodes` is inside the allocated array. -/
theorem search_matches_spec (book : AddressBook) (criterion : Int) (q : CString)
    (hc : criterion = 1 ∨ criterion = 2 ∨ criterion = 3) :
    (search_matches criterion q book.head 0).filterMap (fun i => book.head[i]?) =
      book.head.filter (fun c => decide (chosen_field criterion c = q)) ∧
    (search_matches criterion q book.head 0).Pairwise (· < ·) ∧
    (∀ i ∈ search_matches criterion q book.head 0, i < book.head.length) ∧
    (search_matches criterion q book.head 0).length ≤ book.head.length ∧
    (CountOk book →
      ((search_matches criterion q book.head 0).length : Int) ≤ book.contact_count ∧
      search_scan book.contact_count criterion q book.head 0 0 =
        some (search_matches criterion q book.head 0)) := by
  refine ⟨?_, search_matches_sorted _ _ _ _, ?_, search_matches_length _ _ _ _, ?_⟩
  · simpa using search_matches_filter q hc book.head []
  · intro i hi
    have := search_matches_bound _ _ _ _ _ hi
    omega
  · intro hk
    unfold CountOk at hk
    have hlen := search_matches_length criterion q book.head 0
    refine ⟨by rw [hk]; exact_mod_cast hlen, ?_⟩
    exact search_scan_in_bounds _ _ _ _ _ _ (by rw [hk]; simp)

/-- Witness for C13: the search by name `al` in the store holding `al`, `bo`, `al`. -/
theorem search_matches_spec_witness :
    search_matches 1 "al".toList [al, bo, al] 0 = [0, 2] ∧
    ([0, 2] : List Nat).filterMap (fun i => [al, bo, al][i]?) = [al, al] ∧
    search_scan 3 1 "al".toList [al, bo, al] 0 0 = some [0, 2] ∧
    search_scan 1 1 "al".toList [al, bo, al] 0 0 = none := by
  have hw := search_matches_spec ⟨[al, bo, al], 3, 4⟩ 1 "al".toList (Or.inl rfl)
  have e : search_matches 1 "al".toList [al, bo, al] 0 = [0, 2] := by decide
  have h2 := (hw.2.2.2.2 (by unfold CountOk; decide)).2
  rw [e] at h2
  exact ⟨e, by decide, h2, by decide⟩

/-! ## The retry controller -/

theorem get_int_input_one (rest : Stdin) :
    get_int_input ('1' :: '\n' :: rest) = some (1, rest) := rfl

theorem get_int_input_two (rest : Stdin) :
    get_int_input ('2' :: '\n' :: rest) = some (2, rest) := rfl

theorem handle_attempt_answer_one {a : Int} (rest : Stdin) (h : a + 1 < 4) :
    handle_attempt a ('1' :: '\n' :: rest) = some (Choice.TRY_AGAIN, a + 1, rest) := by
  unfold handle_attempt
  rw [if_neg (by simp only [MAX_ATTEMPTS]; omega)]
  simp only [List.length_cons, handle_attempt_loop, get_int_input_one]
  rfl

theorem handle_attempt_answer_two {a : Int} (rest : Stdin) (h : a + 1 < 4) :
    handle_attempt a ('2' :: '\n' :: rest) = some (Choice.CANCEL, a + 1, rest) := by
  unfold handle_attempt
  rw [if_neg (by simp only [MAX_ATTEMPTS]; omega)]
  simp only [List.length_cons, handle_attempt_loop, get_int_input_two]
  rfl

theorem handle_attempt_limit {a : Int} (inp : Stdin) (h : 4 ≤ a + 1) :
    handle_attempt a inp = some (Choice.CANCEL, a + 1, inp) := by
  unfold handle_attempt
  rw [if_pos (by simp only [MAX_ATTEMPTS]; omega)]

theorem fuel_lt_one (n : Nat) : n < n + 1 := Nat.lt_succ_self n

theorem fuel_lt_four (n : Nat) : n < n + 1 + 1 + 1 + 1 := by omega

/-- An invalid name answered by "try again" below the limit: the loop goes on with one
attempt more. -/
theorem create_name_loop_retry {l : CString} (fuel : Nat) {a : Int} (rest : Stdin)
    (hv : is_valid_name l ≠ VALID) (ho : OneLine l) (hl : l.length ≤ 48) (ha : a + 1 < 4) :
    create_name_loop (fuel + 1) a (l ++ '\n' :: '1' :: '\n' :: rest) =
      create_name_loop fuel (a + 1) rest := by
  rw [create_name_loop, fgets_line _ ho (by simp [MAX_NAME_LENGTH]; omega)]
  simp only [remove_newline_line ho, if_neg hv, handle_attempt_answer_one rest ha]
  rw [if_pos (by simp only [MAX_ATTEMPTS]; omega)]

/-- An invalid name at the limit: the loop ends the creation without reading on. -/
theorem create_name_loop_limit {l : CString} (fuel : Nat) {a : Int} (rest : Stdin)
    (hv : is_valid_name l ≠ VALID) (ho : OneLine l) (hl : l.length ≤ 48) (ha : 4 ≤ a + 1) :
    create_name_loop (fuel + 1) a (l ++ '\n' :: rest) = some (none, rest) := by
  rw [create_name_loop, fgets_line _ ho (by simp [MAX_NAME_LENGTH]; omega)]
  simp only [remove_newline_line ho, if_neg hv, handle_attempt_limit rest ha]

theorem create_name_loop_accepts {l : CString} (fuel : Nat) (a : Int) (rest : Stdin)
    (hv : is_valid_name l = VALID) (ho : OneLine l) (hl : l.length ≤ 48) :
    create_name_loop (fuel + 1) a (l ++ '\n' :: rest) = some (some l, rest) := by
  rw [create_name_loop, fgets_line _ ho (by simp [MAX_NAME_LENGTH]; omega)]
  simp only [remove_newline_line ho, if_pos hv]

/-- C15: `handle_attempt` adds exactly 1 to the counter; when the counter reaches 4 it
returns CANCEL without reading any input, and below 4 it reads the answer (1 is
TRY_AGAIN, 2 is CANCEL).  In the name loop of `create_contact`, whose counter starts
at 0: after three invalid names each answered by 1 a valid name is still accepted,
while a fourth invalid name ends the creation at once, the input after it being left
unread. -/
theorem handle_attempt_cancels_on_fourth (book : AddressBook) (a : Int) (inp rest : Stdin)
    (l1 l2 l3 l4 good : CString)
    (h1 : is_valid_name l1 ≠ VALID) (h2 : is_valid_name l2 ≠ VALID)
    (h3 : is_valid_name l3 ≠ VALID) (h4 : is_valid_name l4 ≠ VALID)
    (hg : is_valid_name good = VALID)
    (o1 : OneLine l1) (o2 : OneLine l2) (o3 : OneLine l3) (o4 : OneLine l4)
    (og : OneLine good)
    (n1 : l1.length ≤ 48) (n2 : l2.length ≤ 48) (n3 : l3.length ≤ 48) (n4 : l4.length ≤ 48)
    (ng : good.length ≤ 48) :
    (∀ c a1 r, handle_attempt a inp = some (c, a1, r) → a1 = a + 1) ∧
    (4 ≤ a + 1 → handle_attempt a inp = some (Choice.CANCEL, a + 1, inp)) ∧
    (a + 1 < 4 →
      handle_attempt a ('1' :: '\n' :: rest) = some (Choice.TRY_AGAIN, a + 1, rest) ∧
      handle_attempt a ('2' :: '\n' :: rest) = some (Choice.CANCEL, a + 1, rest) ∧
      ∀ c a1 r, handle_attempt a inp = some (c, a1, r) → r.length < inp.length) ∧
    create_name_loop
        ((l1 ++ '\n' :: '1' :: '\n' :: (l2 ++ '\n' :: '1' :: '\n' ::
          (l3 ++ '\n' :: '1' :: '\n' :: (good ++ '\n' :: rest)))).length + 1) 0
        (l1 ++ '\n' :: '1' :: '\n' :: (l2 ++ '\n' :: '1' :: '\n' ::
          (l3 ++ '\n' :: '1' :: '\n' :: (good ++ '\n' :: rest)))) = some (some good, rest) ∧
    create_name_loop
        ((l1 ++ '\n' :: '1' :: '\n' :: (l2 ++ '\n' :: '1' :: '\n' ::
          (l3 ++ '\n' :: '1' :: '\n' :: (l4 ++ '\n' :: rest)))).length + 1) 0
        (l1 ++ '\n' :: '1' :: '\n' :: (l2 ++ '\n' :: '1' :: '\n' ::
          (l3 ++ '\n' :: '1' :: '\n' :: (l4 ++ '\n' :: rest)))) = some (none, rest) ∧
    create_contact book
        (l1 ++ '\n' :: '1' :: '\n' :: (l2 ++ '\n' :: '1' :: '\n' ::
          (l3 ++ '\n' :: '1' :: '\n' :: (l4 ++ '\n' :: rest)))) = some (book, rest) := by
  have key : ∀ (x : CString) (res : Option CString),
      (∀ fuel, create_name_loop (fuel + 1) 3 (x ++ '\n' :: rest) = some (res, rest)) →
      create_name_loop
        ((l1 ++ '\n' :: '1' :: '\n' :: (l2 ++ '\n' :: '1' :: '\n' ::
          (l3 ++ '\n' :: '1' :: '\n' :: (x ++ '\n' :: rest)))).length + 1) 0
        (l1 ++ '\n' :: '1' :: '\n' :: (l2 ++ '\n' :: '1' :: '\n' ::
          (l3 ++ '\n' :: '1' :: '\n' :: (x ++ '\n' :: rest)))) = some (res, rest) := by
    intro x res hx
    rw [create_name_loop_fuel _ _ 0 _ (fuel_lt_one _) (fuel_lt_four _)]
    rw [create_name_loop_retry _ _ h1 o1 n1 (by omega),
      create_name_loop_retry _ _ h2 o2 n2 (by omega),
      create_name_loop_retry _ _ h3 o3 n3 (by omega)]
    exact hx _
  have hcancel := key l4 none (fun fuel => create_name_loop_limit fuel rest h4 o4 n4 (by omega))
  refine ⟨?_, fun h => handle_attempt_limit inp h, fun h => ⟨handle_attempt_answer_one rest h,
    handle_attempt_answer_two rest h, ?_⟩,
    key good (some good) (fun fuel => create_name_loop_accepts fuel 3 rest hg og ng), hcancel, ?_⟩
  · intro c a1 r hh
    unfold handle_attempt at hh
    split at hh
    · simp only [Option.some.injEq, Prod.mk.injEq] at hh
      exact hh.2.1.symm
    · split at hh
      · simp at hh
      · simp only [Option.some.injEq, Prod.mk.injEq] at hh
        exact hh.2.1.symm
  · intro c a1 r hh
    unfold handle_attempt at hh
    rw [if_neg (by simp only [MAX_ATTEMPTS]; omega)] at hh
    split at hh
    · simp at hh
    · rename_i c2 r2 hl
      simp only [Option.some.injEq, Prod.mk.injEq] at hh
      rw [← hh.2.2]
      exact handle_attempt_loop_lt _ _ _ _ hl
  · unfold create_contact create_input
    rw [hcancel]

/-- Witness for C15: four names holding a digit, the first three answered by 1; the line
typed after the fourth is left unread. -/
theorem handle_attempt_cancels_on_fourth_witness :
    create_contact ⟨[al], 1, 2⟩ "a1\n1\na2\n1\na3\n1\na4\nzed\n".toList
      = some (⟨[al], 1, 2⟩, "zed\n".toList) ∧
    handle_attempt 3 "1\n".toList = some (Choice.CANCEL, 3 + 1, "1\n".toList) := by
  have hw := handle_attempt_cancels_on_fourth ⟨[al], 1, 2⟩ 3 "1\n".toList "zed\n".toList
    "a1".toList "a2".toList "a3".toList "a4".toList "ok".toList
    (by decide) (by decide) (by decide) (by decide) (by decide)
    ⟨by decide, by decide⟩ ⟨by decide, by decide⟩ ⟨by decide, by decide⟩
    ⟨by decide, by decide⟩ ⟨by decide, by decide⟩
    (by decide) (by decide) (by decide) (by decide) (by decide)
  exact ⟨hw.2.2.2.2.2, hw.2.1 (by decide)⟩

/-! ## The file written by `save_contacts_to_file` -/

theorem digit_char_spec (n : Nat) (h : n < 10) :
    isdigit (digit_char n) = true ∧ (digit_char n).toNat - 48 = n ∧
    (digit_char n = '0' → n = 0) ∧ isspace (digit_char n) = false ∧
    digit_char n ≠ '-' ∧ digit_char n ≠ '+' := by
  interval_cases n
  all_goals
    refine ⟨by decide, by decide, ?_, by decide, by decide, by decide⟩
    first
      | (intro _; rfl)
      | (intro hh; exact absurd hh (by decide))

theorem digits_value_append : ∀ (s t : List Char) (v : Nat),
    digits_value v (s ++ t) = digits_value (digits_value v s) t
  | [], _, _ => rfl
  | c :: cs, t, v => digits_value_append cs t (v * 10 + (c.toNat - 48))

/-- With enough fuel, `nat_digits` writes the decimal notation of `n` before `acc`. -/
theorem nat_digits_spec : ∀ (fuel n : Nat) (acc : List Char), n < fuel →
    ∃ ds, nat_digits fuel n acc = ds ++ acc ∧ ds ≠ [] ∧ (∀ c ∈ ds, isdigit c = true) ∧
      (∀ v, digits_value v ds = v * 10 ^ ds.length + n) ∧
      (ds.head? = some '0' → ds = ['0'] ∧ n = 0)
  | 0, _, _, h => absurd h (Nat.not_lt_zero _)
  | fuel + 1, n, acc, h => by
    unfold nat_digits
    by_cases hn : n < 10
    · rw [if_pos hn]
      have hd := digit_char_spec n hn
      refine ⟨[digit_char n], rfl, by simp, ?_, ?_, ?_⟩
      · intro c hc
        simp only [List.mem_singleton] at hc
        rw [hc]; exact hd.1
      · intro v
        show v * 10 + ((digit_char n).toNat - 48) = _
        rw [hd.2.1]
        simp
      · intro hh
        have h2 : digit_char n = '0' := by simpa using hh
        refine ⟨?_, hd.2.2.1 h2⟩
        rw [h2]
    · rw [if_neg hn]
      have hd := digit_char_spec (n % 10) (Nat.mod_lt _ (by decide))
      obtain ⟨ds, he, hne, hall, hval, hhead⟩ :=
        nat_digits_spec fuel (n / 10) (digit_char (n % 10) :: acc) (by omega)
      refine ⟨ds ++ [digit_char (n % 10)], by rw [he]; simp, by simp, ?_, ?_, ?_⟩
      · intro c hc
        rcases List.mem_append.1 hc with hc | hc
        · exact hall c hc
        · simp only [List.mem_singleton] at hc
          rw [hc]; exact hd.1
      · intro v
        rw [digits_value_append, hval]
        show (v * 10 ^ ds.length + n / 10) * 10 + ((digit_char (n % 10)).toNat - 48) = _
        have h2 := Nat.div_add_mod n 10
        have h3 : (v * 10 ^ ds.length + n / 10) * 10 =
            v * (10 ^ ds.length * 10) + 10 * (n / 10) := by ring
        rw [hd.2.1, List.length_append, List.length_singleton, pow_succ, h3]
        omega
      · intro hh
        cases ds with
        | nil => exact absurd rfl hne
        | cons d ds' =>
          simp only [List.cons_append, List.head?_cons] at hh
          have := (hhead (by simpa using hh)).2
          omega

theorem fprintf_d_nonneg {i : Int} (h : 0 ≤ i) : IsDecimalNat i.toNat (fprintf_d i) := by
  unfold fprintf_d
  rw [if_neg (by omega)]
  obtain ⟨ds, he, hne, hall, hval, hhead⟩ := nat_digits_spec (i.natAbs + 1) i.natAbs []
    (Nat.lt_succ_self _)
  rw [he, List.append_nil]
  refine ⟨hne, hall, ?_, fun hh => (hhead hh).1⟩
  rw [hval 0]
  omega

theorem fprintf_d_isDecimal (i : Int) : IsDecimal i (fprintf_d i) := by
  by_cases h : 0 ≤ i
  · exact Or.inl ⟨h, fprintf_d_nonneg h⟩
  · refine Or.inr ⟨by omega, nat_digits (i.natAbs + 1) i.natAbs [], ?_, ?_⟩
    · unfold fprintf_d
      rw [if_pos (by omega)]
    · obtain ⟨ds, he, hne, hall, hval, hhead⟩ := nat_digits_spec (i.natAbs + 1) i.natAbs []
        (Nat.lt_succ_self _)
      rw [he, List.append_nil]
      refine ⟨hne, hall, ?_, fun hh => (hhead hh).1⟩
      rw [hval 0]
      omega

theorem save_loop_eq : ∀ (l : List Contact), save_loop l = (l.map record_line).flatten
  | [] => rfl
  | c :: cs => by
    simp only [save_loop, List.map_cons, List.flatten_cons, record_line, save_loop_eq cs,
      List.append_assoc, List.cons_append, List.nil_append]

/-- C19: the text written by `save_contacts_to_file` is the decimal notation of
`contact_count` and a newline, followed by one line `id,name,phone,email` per contact
in store order, each ended by a newline, the id in decimal notation and the fields
written as they are (a comma in a field is not escaped). -/
theorem save_contacts_to_file_format (book : AddressBook) :
    save_contacts_to_file book true =
      some (fprintf_d book.contact_count ++ '\n' :: (book.head.map record_line).flatten) ∧
    IsDecimal book.contact_count (fprintf_d book.contact_count) ∧
    (∀ c ∈ book.head, IsDecimal c.id (fprintf_d c.id) ∧
      record_line c = fprintf_d c.id ++ ",".toList ++ c.name ++ ",".toList ++ c.phone ++
        ",".toList ++ c.email ++ "\n".toList) ∧
    save_contacts_to_file ⟨[bob], 1, 1⟩ true = some "1\n1,bob,1234567890,b@x.y\n".toList ∧
    save_contacts_to_file ⟨[bob, al_comma], 2, 13⟩ true =
      some "2\n1,bob,1234567890,b@x.y\n12,al,0123456789,a@b.c,d\n".toList := by
  refine ⟨?_, fprintf_d_isDecimal _, fun c _ => ⟨fprintf_d_isDecimal _, ?_⟩, by decide, by decide⟩
  · simp only [save_contacts_to_file, if_true, save_loop_eq]
  · simp [record_line]

/-! ## Loading what was saved -/

theorem takeWhile_append_of_all {p : Char → Bool} : ∀ (s : List Char) (c : Char)
    (rest : List Char), (∀ x ∈ s, p x = true) → p c = false →
    (s ++ c :: rest).takeWhile p = s
  | [], c, rest, _, hc => by simp [List.takeWhile, hc]
  | x :: xs, c, rest, hs, hc => by
    have hx : p x = true := hs x (List.mem_cons_self _ _)
    have ih := takeWhile_append_of_all xs c rest
      (fun y hy => hs y (List.mem_cons_of_mem _ hy)) hc
    simp [List.takeWhile, hx, ih]

theorem dropWhile_append_of_all {p : Char → Bool} : ∀ (s : List Char) (c : Char)
    (rest : List Char), (∀ x ∈ s, p x = true) → p c = false →
    (s ++ c :: rest).dropWhile p = c :: rest
  | [], c, rest, _, hc => by simp [List.dropWhile, hc]
  | x :: xs, c, rest, hs, hc => by
    have hx : p x = true := hs x (List.mem_cons_self _ _)
    have ih := dropWhile_append_of_all xs c rest
      (fun y hy => hs y (List.mem_cons_of_mem _ hy)) hc
    simp [List.dropWhile, hx, ih]

theorem isdigit_bounds {c : Char} (h : isdigit c = true) : 48 ≤ c.toNat ∧ c.toNat ≤ 57 := by
  simpa [isdigit] using h

theorem isdigit_not_space_sign {c : Char} (h : isdigit c = true) :
    isspace c = false ∧ c ≠ '-' ∧ c ≠ '+' ∧ c ≠ ',' ∧ c ≠ NUL := by
  have hb := isdigit_bounds h
  refine ⟨?_, ?_, ?_, ?_, ?_⟩
  · simp only [isspace, decide_eq_false_iff_not]; omega
  · intro e; rw [e] at hb; revert hb; decide
  · intro e; rw [e] at hb; revert hb; decide
  · intro e; rw [e] at hb; revert hb; decide
  · intro e; rw [e] at hb; revert hb; decide

/-- `%d` reads back a decimal notation that is followed by a character other than a
digit. -/
theorem scanf_d_decimal {n : Nat} {ds : List Char} (c : Char) (rest : List Char)
    (hd : IsDecimalNat n ds) (hc : isdigit c = false) :
    scanf_d (ds ++ c :: rest) = (some (n : Int), c :: rest) := by
  obtain ⟨hne, hall, hval, -⟩ := hd
  cases ds with
  | nil => exact absurd rfl hne
  | cons d ds' =>
    have hdd := isdigit_not_space_sign (hall d (List.mem_cons_self _ _))
    have htw := takeWhile_append_of_all (d :: ds') c rest hall hc
    have hdw := dropWhile_append_of_all (d :: ds') c rest hall hc
    simp only [List.cons_append] at htw hdw
    unfold scanf_d
    simp only [List.cons_append, skip_space, hdd.1, if_neg hdd.2.1, if_neg hdd.2.2.1,
      Bool.false_eq_true, if_false]
    show (if List.takeWhile isdigit (d :: (ds' ++ c :: rest)) = [] then
        (none, d :: (ds' ++ c :: rest))
      else (some ((digits_value 0 (List.takeWhile isdigit (d :: (ds' ++ c :: rest))) : Nat) : Int),
        List.dropWhile isdigit (d :: (ds' ++ c :: rest)))) = _
    rw [htw, hdw, if_neg (List.cons_ne_nil _ _), hval]

theorem scan_set_field : ∀ (s : List Char) (width : Nat) (stop : Char) (rest : List Char),
    stop ∉ s → s.length ≤ width → scan_set width stop (s ++ stop :: rest) = (s, stop :: rest)
  | [], 0, stop, rest, _, _ => by simp [scan_set]
  | [], w + 1, stop, rest, _, _ => by simp [scan_set]
  | x :: xs, 0, _, _, _, h => by simp at h
  | x :: xs, w + 1, stop, rest, hn, hl => by
    have hx : x ≠ stop := fun e => hn (by simp [e])
    have ih := scan_set_field xs w stop rest (fun e => hn (List.mem_cons_of_mem _ e))
      (by simpa using hl)
    show scan_set (w + 1) stop (x :: (xs ++ stop :: rest)) = _
    simp only [scan_set, if_neg hx, ih]

theorem cstr_eq {s : List Char} (h : NUL ∉ s) : cstr s = s := by
  unfold cstr
  apply takeWhile_all
  intro x hx
  have : x ≠ NUL := fun e => h (e ▸ hx)
  simpa using this

theorem is_valid_name_chars {s : CString} (h : is_valid_name s = VALID) :
    s ≠ [] ∧ ',' ∉ s ∧ NUL ∉ s := by
  unfold is_valid_name at h
  by_cases h0 : s.length = 0
  · simp [h0] at h
  · rw [if_neg h0, is_valid_name_loop_eq] at h
    by_cases hall : s.all (fun c => isalpha c || isspace c) = true
    · refine ⟨fun e => h0 (by simp [e]), ?_, ?_⟩
      · intro hm
        have := List.all_eq_true.1 hall _ hm
        revert this; decide
      · intro hm
        have := List.all_eq_true.1 hall _ hm
        revert this; decide
    · simp [hall] at h

theorem is_valid_phone_chars {s : CString} (h : is_valid_phone s = VALID) :
    s.length = 10 ∧ ',' ∉ s ∧ NUL ∉ s := by
  have hl := is_valid_phone_length h
  unfold is_valid_phone at h
  rw [if_neg (by omega), if_neg (by simpa using hl), is_valid_phone_loop_eq s 10 0 (by omega),
    List.drop_zero] at h
  by_cases hall : s.all isdigit = true
  · refine ⟨hl, ?_, ?_⟩
    · intro hm
      exact (isdigit_not_space_sign (List.all_eq_true.1 hall _ hm)).2.2.2.1 rfl
    · intro hm
      exact (isdigit_not_space_sign (List.all_eq_true.1 hall _ hm)).2.2.2.2 rfl
  · simp [hall] at h

theorem is_valid_email_nonempty {s : CString} (h : is_valid_email s = VALID) : s ≠ [] := by
  intro e
  rw [e] at h
  exact absurd h (by decide)

/-- `fscanf` reads back a record line written for a storable contact whose email holds
no newline. -/
theorem fscanf_record_line {c : Contact} (rest : List Char) (hs : Storable c)
    (hn : '\n' ∉ c.email) :
    fscanf_record (fprintf_d c.id ++ ',' :: (c.name ++ ',' :: (c.phone ++ ',' ::
      (c.email ++ '\n' :: rest)))) = (some c, skip_space rest) := by
  obtain ⟨h1, h2, h3, hid, l1, l3, z3⟩ := hs
  obtain ⟨n1, c1, z1⟩ := is_valid_name_chars h1
  obtain ⟨l2, c2, z2⟩ := is_valid_phone_chars h2
  have n3 := is_valid_email_nonempty h3
  have n2 : c.phone ≠ [] := fun e => by rw [e] at l2; simp at l2
  have hdec := fprintf_d_nonneg (Int.le_of_lt hid)
  have hidn : ((c.id.toNat : Nat) : Int) = c.id := Int.toNat_of_nonneg (Int.le_of_lt hid)
  unfold fscanf_record
  rw [scanf_d_decimal ',' _ hdec (by decide)]
  simp only [scan_lit, if_true, scan_set_field c.name 49 ',' _ c1 l1,
    scan_set_field c.phone 19 ',' _ c2 (by omega), scan_set_field c.email 49 '\n' _ hn l3,
    if_neg n1, if_neg n2, if_neg n3, cstr_eq z1, cstr_eq z2, cstr_eq z3, hidn, skip_space]
  simp [isspace]

theorem skip_space_save_loop : ∀ (l : List Contact), (∀ c ∈ l, 0 < c.id) →
    skip_space (save_loop l) = save_loop l
  | [], _ => rfl
  | c :: cs, h => by
    have hid := h c (List.mem_cons_self _ _)
    obtain ⟨hne, hall, -, -⟩ := fprintf_d_nonneg (Int.le_of_lt hid)
    unfold save_loop
    cases hds : fprintf_d c.id with
    | nil => exact absurd hds hne
    | cons d ds' =>
      rw [hds] at hall
      have := (isdigit_not_space_sign (hall d (List.mem_cons_self _ _))).1
      simp [skip_space, this]

/-- The loading loop reads back, one per iteration, the lines written for a list of
storable contacts whose emails hold no newline. -/
theorem load_loop_save_loop : ∀ (l : List Contact) (book : AddressBook) (tail : Option Nat),
    (book.head = [] ∨ ∃ t, tail = some t ∧ t + 1 = book.head.length) →
    (∀ c ∈ l, Storable c ∧ '\n' ∉ c.email) →
    load_loop l.length (save_loop l) book tail =
      some { book with head := book.head ++ l,
                       contact_count := book.contact_count + (l.length : Int) }
  | [], book, _, _, _ => by simp [load_loop]
  | c :: cs, book, tail, hp, hs => by
    have hc := hs c (List.mem_cons_self _ _)
    have hcs : ∀ x ∈ cs, Storable x ∧ '\n' ∉ x.email :=
      fun x hx => hs x (List.mem_cons_of_mem _ hx)
    have hskip := skip_space_save_loop cs (fun x hx => (hcs x hx).1.2.2.2.1)
    simp only [List.length_cons, load_loop, save_loop, fscanf_record_line _ hc.1 hc.2, hskip]
    by_cases hh : book.head = []
    · rw [if_pos hh, load_loop_save_loop cs
        { book with head := [c], contact_count := book.contact_count + 1 } (some 0)
        (Or.inr ⟨0, rfl, rfl⟩) hcs, hh]
      simp only [List.nil_append, List.singleton_append, Nat.cast_succ, Option.some.injEq,
        AddressBook.mk.injEq, true_and, and_true]
      omega
    · rw [if_neg hh]
      rcases hp with hp | ⟨t, rfl, ht⟩
      · exact absurd hp hh
      · simp only []
        rw [load_loop_save_loop cs
          { book with head := book.head.take (t + 1) ++ [c],
                      contact_count := book.contact_count + 1 } (some (t + 1))
          (Or.inr ⟨t + 1, rfl, by simp [ht]⟩) hcs, ht, List.take_length]
        simp only [List.append_assoc, List.singleton_append, Nat.cast_succ, Option.some.injEq,
          AddressBook.mk.injEq, true_and, and_true]
        omega

/-- C16, as the claim states it, fails: the store holding `al_newline` has a valid name,
phone and email, a positive id and the right count, and what is loaded from the text
saved for it is another sequence (the email is cut at its newline). -/
theorem save_load_email_newline_differs :
    CountOk ⟨[al_newline], 1, 2⟩ ∧ Storable al_newline ∧
    load_contacts_from_file (initialize_book ⟨[], 0, 0⟩)
        (save_contacts_to_file ⟨[al_newline], 1, 2⟩ true)
      = some ⟨[{ al_newline with email := "a@b.c".toList }], 1, 1⟩ ∧
    [{ al_newline with email := "a@b.c".toList }] ≠ [al_newline] := by
  refine ⟨by unfold CountOk; decide, ?_, by decide, by decide⟩
  exact ⟨by decide, by decide, by decide, by decide, by decide, by decide, by decide⟩

/-- C16, amended: for every store whose `contact_count` is the length of its list and
whose contacts are storable (valid name, phone and email, positive id, fields within
their buffers) with no newline in the email, loading into an initialized store the
text that `save_contacts_to_file` writes gives back the same sequence, ids and fields
included, and the same `contact_count`. -/
theorem save_load_round_trip (book b0 : AddressBook) (hk : CountOk book)
    (hs : ∀ c ∈ book.head, Storable c ∧ '\n' ∉ c.email) :
    load_contacts_from_file (initialize_book b0) (save_contacts_to_file book true) =
      some { head := book.head, contact_count := book.contact_count, next_id := 1 } := by
  unfold CountOk at hk
  have hcnt : IsDecimalNat book.head.length (fprintf_d book.contact_count) := by
    have := fprintf_d_nonneg (i := book.contact_count) (by rw [hk]; exact Int.natCast_nonneg _)
    have e : book.contact_count.toNat = book.head.length := by rw [hk]; simp
    rw [e] at this
    exact this
  have hskip := skip_space_save_loop book.head (fun x hx => (hs x hx).1.2.2.2.1)
  simp only [save_contacts_to_file, if_true, load_contacts_from_file, fscanf_count,
    scanf_d_decimal '\n' _ hcnt (by decide), skip_space, Int.toNat_natCast]
  have hsp : isspace '\n' = true := by decide
  simp only [hsp, if_true, hskip]
  rw [load_loop_save_loop book.head _ none (Or.inl rfl) hs]
  simp [initialize_book, hk]

/-- Witness for C16 amended: the store holding `al` and `bo`. -/
theorem save_load_round_trip_witness :
    CountOk ⟨[al, bo], 2, 3⟩ ∧
    save_contacts_to_file ⟨[al, bo], 2, 3⟩ true =
      some "2\n1,al,0123456789,a@b.c\n2,bo,1111111111,b@b.c\n".toList ∧
    load_contacts_from_file (initialize_book ⟨[], 7, 9⟩)
        (save_contacts_to_file ⟨[al, bo], 2, 3⟩ true) = some ⟨[al, bo], 2, 1⟩ := by
  have hk : CountOk ⟨[al, bo], 2, 3⟩ := by unfold CountOk; decide
  have hs : ∀ c ∈ (⟨[al, bo], 2, 3⟩ : AddressBook).head, Storable c ∧ '\n' ∉ c.email := by
    intro c hc
    simp only [List.mem_cons, List.mem_singleton, List.not_mem_nil, or_false] at hc
    rcases hc with rfl | rfl
    · exact ⟨⟨by decide, by decide, by decide, by decide, by decide, by decide, by decide⟩,
        by decide⟩
    · exact ⟨⟨by decide, by decide, by decide, by decide, by decide, by decide, by decide⟩,
        by decide⟩
  exact ⟨hk, by decide, save_load_round_trip ⟨[al, bo], 2, 3⟩ ⟨[], 7, 9⟩ hk hs⟩

/-- C17, where the code departs from it: a failed `fscanf` leaves the file at the
character it stopped on, so the line `xx` is met again by the next iterations and the
well-formed line after it is never loaded; and a line with too few fields is completed
with the text of the line that follows. -/
theorem load_stops_at_malformed_line :
    load_contacts_from_file (initialize_book ⟨[], 0, 0⟩) (some file_malformed)
      = some ⟨[bob], 1, 1⟩ ∧
    fscanf_record "xx\n2,al,0123456789,a@b.c\n".toList
      = (none, "xx\n2,al,0123456789,a@b.c\n".toList) ∧
    fscanf_record "2,al,0123456789,a@b.c\n".toList = (some { al with id := 2 }, []) ∧
    load_contacts_from_file (initialize_book ⟨[], 0, 0⟩) (some file_short_line)
      = some ⟨[{ id := 7, name := "xx\n2".toList, phone := "al".toList,
                 email := "0123456789,a@b.c".toList }], 1, 1⟩ := by
  refine ⟨by decide, by decide, by decide, by decide⟩

/-! ## `next_id`, the order of the ids, the `tail` of the loader -/

theorem load_loop_next_id : ∀ (n : Nat) (f : File) (book : AddressBook) (tail : Option Nat)
    (b' : AddressBook), load_loop n f book tail = some b' → b'.next_id = book.next_id
  | 0, _, book, _, b', h => by
    simp only [load_loop, Option.some.injEq] at h
    rw [← h]
  | n + 1, f, book, tail, b', h => by
    unfold load_loop at h
    split at h
    · exact load_loop_next_id n _ book tail b' h
    · split at h
      · have := load_loop_next_id n _ _ _ b' h
        exact this
      · split at h
        · simp at h
        · have := load_loop_next_id n _ _ _ b' h
          exact this

theorem load_contacts_next_id {book : AddressBook} {file : Option File} {b' : AddressBook}
    (h : load_contacts_from_file book file = some b') : b'.next_id = book.next_id := by
  unfold load_contacts_from_file at h
  split at h
  · simp only [Option.some.injEq] at h
    rw [← h]
  · split at h
    · simp only [Option.some.injEq] at h
      rw [← h]
    · exact load_loop_next_id _ _ _ _ _ h

/-- C21: whenever `load_contacts_from_file` returns, `next_id` is what it was before,
whatever the file holds.  Loading into an initialized store always returns, with
`next_id` 1, so that the next creation that stores a contact gives it the id 1; with
the file holding `bob`, whose id is 1, the store then holds two contacts of id 1. -/
theorem load_keeps_next_id (book b0 : AddressBook) (file : Option File) (b' : AddressBook)
    (h : load_contacts_from_file book file = some b') :
    b'.next_id = book.next_id ∧
    (∃ b1, load_contacts_from_file (initialize_book b0) file = some b1 ∧ b1.next_id = 1 ∧
      ∀ inp f r b2, create_input b1 inp = some (some f, r) →
        create_contact b1 inp = some (b2, r) →
        b2.head = b1.head ++ [{ id := 1, name := f.name, phone := f.phone,
                                email := f.email }]) ∧
    load_contacts_from_file (initialize_book b0) (some file_bob) = some ⟨[bob], 1, 1⟩ ∧
    bob.id = 1 ∧
    create_contact ⟨[bob], 1, 1⟩ "al\n0123456789\na@b.c\n".toList
      = some (⟨[bob, { id := 1, name := "al".toList, phone := "0123456789".toList,
                       email := "a@b.c".toList }], 2, 2⟩, []) := by
  have hb0 : initialize_book b0 = ⟨[], 0, 1⟩ := rfl
  refine ⟨load_contacts_next_id h, ?_, by rw [hb0]; decide, by decide, by decide⟩
  obtain ⟨loaded, hl⟩ := load_empty_appends (initialize_book b0) file rfl
  refine ⟨_, hl, rfl, ?_⟩
  intro inp f r b2 hi hc
  rcases create_contact_cases hc with ⟨h1, -⟩ | ⟨f2, h2, rfl⟩
  · rw [hi] at h1; simp at h1
  · rw [hi] at h2
    simp only [Option.some.injEq, Prod.mk.injEq, and_true] at h2
    subst h2
    rw [create_store_eq]
    rfl

/-- Witness for C21: the file holds the ids 1 and 2, and `next_id` stays 1. -/
theorem load_keeps_next_id_witness :
    load_contacts_from_file ⟨[], 0, 1⟩ (some file_bob_al)
      = some ⟨[bob, { al with id := 2 }], 2, 1⟩ ∧
    (⟨[bob, { al with id := 2 }], 2, 1⟩ : AddressBook).next_id = (⟨[], 0, 1⟩ : AddressBook).next_id := by
  have h : load_contacts_from_file ⟨[], 0, 1⟩ (some file_bob_al)
      = some ⟨[bob, { al with id := 2 }], 2, 1⟩ := by decide
  exact ⟨h, (load_keeps_next_id ⟨[], 0, 1⟩ ⟨[], 0, 0⟩ (some file_bob_al) _ h).1⟩

theorem idsOk_create_store {book : AddressBook} (f : Fields) (h : IdsOk book) :
    IdsOk (create_store book f) := by
  rw [create_store_eq]
  obtain ⟨hs, hb, h1⟩ := h
  refine ⟨?_, ?_, ?_⟩
  · show ((book.head ++ [_]).map Contact.id).Pairwise (· < ·)
    rw [List.map_append, List.pairwise_append]
    refine ⟨hs, by simp, ?_⟩
    intro x hx y hy
    simp only [List.map_cons, List.map_nil, List.mem_singleton] at hy
    subst hy
    exact (hb x hx).2
  · intro i hi
    show 1 ≤ i ∧ i < book.next_id + 1
    change i ∈ (book.head ++ [_]).map Contact.id at hi
    rw [List.map_append, List.mem_append] at hi
    rcases hi with hi | hi
    · have := hb i hi
      omega
    · simp only [List.map_cons, List.map_nil, List.mem_singleton] at hi
      subst hi
      omega
  · show 1 ≤ book.next_id + 1
    omega

theorem idsOk_save_fields {book : AddressBook} (temp : Contact) (target : Nat)
    (h : IdsOk book) : IdsOk { book with head := save_fields temp book.head target } := by
  unfold IdsOk
  simp only [save_fields_map_id]
  exact h

theorem idsOk_eraseIdx {book : AddressBook} (target : Nat) (cnt : Int) (h : IdsOk book) :
    IdsOk { book with head := book.head.eraseIdx target, contact_count := cnt } := by
  obtain ⟨hs, hb, h1⟩ := h
  have hsub : List.Sublist ((book.head.eraseIdx target).map (·.id)) (book.head.map (·.id)) :=
    (List.eraseIdx_sublist _ _).map _
  exact ⟨hs.sublist hsub, fun i hi => hb i (hsub.subset hi), h1⟩

theorem created_idsOk {k : Nat} {book : AddressBook} (h : Created k book) : IdsOk book := by
  induction h with
  | init b0 => exact ⟨by simp [initialize_book], by simp [initialize_book],
      by simp [initialize_book]⟩
  | created inp f r _ hi hc ih =>
    rcases create_contact_cases hc with ⟨h1, -⟩ | ⟨f2, -, rfl⟩
    · rw [hi] at h1; simp at h1
    · exact idsOk_create_store f2 ih
  | cancelled inp r _ hi hc ih =>
    rcases create_contact_cases hc with ⟨-, rfl⟩ | ⟨f2, h2, -⟩
    · exact ih
    · rw [hi] at h2; simp at h2
  | edited inp r _ he ih =>
    rcases edit_contact_cases he with rfl | ⟨t, node, temp, -, -, rfl⟩
    · exact ih
    · exact idsOk_save_fields temp t ih
  | deleted inp r _ hd ih =>
    rcases delete_contact_cases hd with rfl | ⟨t, -, rfl⟩
    · exact ih
    · exact idsOk_eraseIdx t _ ih

/-- C22: in every store reached from an initialized one by calls of `create_contact`,
`edit_contact` and `delete_contact`, the ids are strictly increasing along the list,
each id is at least 1 and below `next_id`; and none of the three operations, on any
input, makes `next_id` smaller. -/
theorem reachable_ids_increasing (k : Nat) (book : AddressBook) (h : Created k book) :
    (book.head.map (·.id)).Pairwise (· < ·) ∧
    (∀ c ∈ book.head, 1 ≤ c.id ∧ c.id < book.next_id) ∧
    (∀ inp b' r, create_contact book inp = some (b', r) → book.next_id ≤ b'.next_id) ∧
    (∀ inp b' r, edit_contact book inp = some (b', r) → book.next_id ≤ b'.next_id) ∧
    (∀ inp b' r, delete_contact book inp = some (b', r) → book.next_id ≤ b'.next_id) := by
  obtain ⟨hs, hb, -⟩ := created_idsOk h
  refine ⟨hs, fun c hc => hb c.id (List.mem_map_of_mem _ hc), ?_, ?_, ?_⟩
  · intro inp b' r hc
    rcases create_contact_cases hc with ⟨-, rfl⟩ | ⟨f, -, rfl⟩
    · exact Int.le_refl _
    · rw [create_store_eq]
      show book.next_id ≤ book.next_id + 1
      omega
  · intro inp b' r he
    rcases edit_contact_cases he with rfl | ⟨t, node, temp, -, -, rfl⟩
    · exact Int.le_refl _
    · exact Int.le_refl _
  · intro inp b' r hd
    rcases delete_contact_cases hd with rfl | ⟨t, -, rfl⟩
    · exact Int.le_refl _
    · exact Int.le_refl _

/-- Witness for C22: the store reached by creating `al` and `bo` and deleting `al`, and
the store reached by the three creations, the deletion and the fourth creation typed
at the menu of `main`. -/
theorem reachable_ids_increasing_witness :
    Created 2 ⟨[bo], 1, 3⟩ ∧
    ((⟨[bo], 1, 3⟩ : AddressBook).head.map (·.id)).Pairwise (· < ·) ∧
    (∀ c ∈ (⟨[bo], 1, 3⟩ : AddressBook).head, 1 ≤ c.id ∧ c.id < 3) ∧
    (main none script_delete_then_create).map (fun b => (b.head.map (·.id), b.next_id))
      = some ([1, 3, 4], 5) := by
  have hw := reachable_ids_increasing 2 ⟨[bo], 1, 3⟩ created_example
  exact ⟨created_example, hw.1, hw.2.1, by decide⟩

/-- On a store whose list is empty, or whose local `tail` points to the last node, every
execution of `tail->next = new_contact` finds `tail` on the last node. -/
theorem load_writes_tail_last : ∀ (n : Nat) (f : File) (book : AddressBook)
    (tail : Option Nat), (book.head = [] ∨ ∃ t, tail = some t ∧ t + 1 = book.head.length) →
    ∀ w ∈ load_writes n f book tail, ∃ t, w.1 = some t ∧ t + 1 = w.2
  | 0, _, _, _, _, w, hw => by simp [load_writes] at hw
  | n + 1, f, book, tail, hp, w, hw => by
    unfold load_writes at hw
    split at hw
    · exact load_writes_tail_last n _ book tail hp w hw
    · rename_i new_contact rest hrec
      by_cases hh : book.head = []
      · rw [if_pos hh] at hw
        exact load_writes_tail_last n rest
          { book with head := [new_contact], contact_count := book.contact_count + 1 }
          (some 0) (Or.inr ⟨0, rfl, rfl⟩) w hw
      · rw [if_neg hh] at hw
        rcases hp with hp | ⟨t, rfl, ht⟩
        · exact absurd hp hh
        · simp only [List.mem_cons] at hw
          rcases hw with rfl | hw
          · exact ⟨t, rfl, ht⟩
          · exact load_writes_tail_last n rest
              { book with head := book.head.take (t + 1) ++ [new_contact],
                          contact_count := book.contact_count + 1 } (some (t + 1))
              (Or.inr ⟨t + 1, rfl, by simp [ht]⟩) w hw

/-- The loading loop fails exactly when one of its writes is made with `tail` NULL. -/
theorem load_loop_none_iff : ∀ (n : Nat) (f : File) (book : AddressBook) (tail : Option Nat),
    load_loop n f book tail = none ↔ ∃ k, (none, k) ∈ load_writes n f book tail
  | 0, _, _, _ => by simp [load_loop, load_writes]
  | n + 1, f, book, tail => by
    unfold load_loop load_writes
    split
    · exact load_loop_none_iff n _ book tail
    · by_cases hh : book.head = []
      · simp only [if_pos hh]
        exact load_loop_none_iff n _ _ _
      · simp only [if_neg hh]
        cases tail with
        | none => simp
        | some t =>
          simp only [List.mem_cons, Prod.mk.injEq, reduceCtorEq, false_and, false_or]
          exact load_loop_none_iff n _ _ _

/-- C23: when the list is empty on entry, `load_contacts_from_file` returns, and at every
execution of `tail->next = new_contact` the local `tail` is not NULL and points to the
last node of the list, whatever the file holds.  With a list that is not empty on
entry, the first record parsed reaches that write with `tail` NULL. -/
theorem load_tail_is_last (book : AddressBook) (file : Option File) (h : book.head = []) :
    (∀ w ∈ load_file_writes book file, ∃ t, w.1 = some t ∧ t + 1 = w.2) ∧
    (∃ b', load_contacts_from_file book file = some b') ∧
    (∀ (book2 : AddressBook) (f : File) (n : Nat) (c : Contact) (rest : File),
      book2.head ≠ [] → fscanf_record f = (some c, rest) →
      load_writes (n + 1) f book2 none = [(none, book2.head.length)] ∧
      load_loop (n + 1) f book2 none = none) ∧
    load_file_writes ⟨[], 0, 1⟩ (some file_bob_al) = [(some 0, 1)] ∧
    load_file_writes ⟨[al], 1, 2⟩ (some file_bob) = [(none, 1)] ∧
    load_contacts_from_file ⟨[al], 1, 2⟩ (some file_bob) = none := by
  refine ⟨?_, ?_, ?_, by decide, by decide, by decide⟩
  · intro w hw
    unfold load_file_writes at hw
    split at hw
    · simp at hw
    · split at hw
      · simp at hw
      · exact load_writes_tail_last _ _ book none (Or.inl h) w hw
  · obtain ⟨loaded, hl⟩ := load_empty_appends book file h
    exact ⟨_, hl⟩
  · intro book2 f n c rest hne hrec
    constructor
    · rw [load_writes]
      simp only [hrec, if_neg hne]
    · rw [load_loop]
      simp only [hrec, if_neg hne]

/-- Witness for C23: a file of two records loaded into the empty store; the second record
is linked behind the node at position 0, the last of a list of length 1. -/
theorem load_tail_is_last_witness :
    load_file_writes ⟨[], 0, 1⟩ (some file_bob_al) = [(some 0, 1)] ∧
    (∀ w ∈ load_file_writes ⟨[], 0, 1⟩ (some file_bob_al), ∃ t, w.1 = some t ∧ t + 1 = w.2) ∧
    load_contacts_from_file ⟨[], 0, 1⟩ (some file_bob_al)
      = some ⟨[bob, { al with id := 2 }], 2, 1⟩ :=
  ⟨by decide, (load_tail_is_last ⟨[], 0, 1⟩ (some file_bob_al) rfl).1, by decide⟩

/-! ## The edit: what is staged is what is saved -/

end AddrBook
